import Mathlib

/-!
# Haskino firmware scheduler: task registry, run loop, semaphores and boot persistence

A shallow embedding of `firmware/HaskinoFirmware/HaskinoScheduler.cpp`, of `runCodeBlock`
(`firmware/HaskinoFirmware/HaskinoCodeBlock.cpp`), of the I2C write handler
(`firmware/AmberFirmware/AmberI2C.cpp`) and of the clock replies of
`firmware/HaskinoFirmwareShallow/HaskinoBoardStatus.cpp`.

* The C heap is explicit: `State.tasks` and `State.contexts` map an address to the
  block allocated there (`none` when nothing is allocated), and the task list is the
  chain of `next` / `prev` pointers starting at `firstTask`, exactly as in the source.
* `malloc` / `calloc` results are inputs (`Alloc`): the address returned, `NULL` (0) on
  failure, together with the uninitialised contents of the fresh block.
* Functions return `Option`: `none` stands for a dereference of `NULL` or of a block
  that is not allocated, or for a loop that did not finish within `fuel` iterations.
* Machine integers are naturals; bytes are reduced `% 256`, the 32-bit clock
  `% 2 ^ 32`.  `x & 0xFF` is written `x % 256` and `x >> 8` is written `x / 256`.
* `EEPROM[i]` is a byte store addressed by a natural number.  What a write does to the
  cells is a parameter (`EepromDevice`), so that worn cells can be expressed; every
  write that is issued is also recorded in `State.eepromLog`.
* `runCodeBlock` is a parameter (`Interp`): given the state and the stream, length and
  context it is called with, it returns the state afterwards and its `bool` result.
  The run loop records every block it visits and whether it ran it.
* The width of `int` is a parameter (`intBits`) where the source computes in `int`.
* A call of `sendReply` is recorded as the count passed and the bytes read from the
  pointer passed (`SentReply`); a call of `parseMessage` as the size passed and the offset
  of the command in the block (`Dispatch`).
-/

namespace Haskino

/-- Addresses of heap blocks. -/
abbrev Ptr := Nat

/-- The null pointer. -/
abbrev NULL : Ptr := 0

/-- The constant `BOOT_TASK_INDEX_START` of HaskinoScheduler.cpp. -/
abbrev BOOT_TASK_INDEX_START : Nat := 5

/-- The constant `NUM_SEMAPHORES` of HaskinoConfig.h. -/
abbrev NUM_SEMAPHORES : Nat := 5

/-- The constant `MAX_INTERRUPTS` of HaskinoConfig.h. -/
abbrev MAX_INTERRUPTS : Nat := 6

/-- Modelled from the spec: the struct `TASK`, declared in HaskinoScheduler.h, which is
not among the sources.  The fields are those the scheduler code reads and writes (spec
section 3: id, capacity `size`, length `currLen`, data, ready, wake time `millis`,
context); `id` is a byte, `size`, `currLen` and `currPos` are 16-bit, `millis` is
32-bit, `data` gives the byte at each offset of the buffer, and `endData` (always
`data + size`) is left out. -/
structure TASK where
  next : Ptr
  prev : Ptr
  context : Ptr
  id : Nat
  size : Nat
  currLen : Nat
  currPos : Nat
  millis : Nat
  ready : Bool
  rescheduled : Bool
  data : Nat → Nat

/-- Modelled from the spec: the struct `CONTEXT`, declared in HaskinoScheduler.h, which
is not among the sources (spec section 3: bindings, block levels, back-reference to the
owning task). -/
structure CONTEXT where
  task : Ptr
  currBlockLevel : Int
  recallBlockLevel : Int
  bindSize : Nat
  bind : Ptr

/-- Modelled from the spec: the struct `SEMAPHORE`, declared in HaskinoScheduler.h, which
is not among the sources (spec section 3: `full` and at most one `waiting` task). -/
structure SEMAPHORE where
  full : Bool
  waiting : Ptr

/-- The file-level variables of HaskinoScheduler.cpp, the heap and the EEPROM. -/
structure State where
  tasks : Ptr → Option TASK
  contexts : Ptr → Option CONTEXT
  firstTask : Ptr
  runningTask : Ptr
  defaultContext : Ptr
  taskCount : Int
  semaphores : Nat → SEMAPHORE
  intTasks : Nat → Ptr
  eeprom : Nat → Nat
  eepromLog : List (Nat × Nat)

/-- The state at power-up: static variables zero-initialised, nothing allocated. -/
def State.init (eeprom : Nat → Nat) : State :=
  { tasks := fun _ => none
    contexts := fun _ => none
    firstTask := NULL
    runningTask := NULL
    defaultContext := NULL
    taskCount := 0
    semaphores := fun _ => { full := false, waiting := NULL }
    intTasks := fun _ => NULL
    eeprom := eeprom
    eepromLog := [] }

/-- What the three allocations of `createById` return (0 is a failed allocation) and
what the uninitialised task block holds in the fields `createById` does not set. -/
structure Alloc where
  newTask : Ptr
  newContext : Ptr
  bind : Ptr
  junkMillis : Nat
  junkData : Nat → Nat

/-- The function `getTaskCount`. -/
def getTaskCount (s : State) : Int := s.taskCount

/-- The constant `DEFAULT_BIND_COUNT` of HaskinoConfig.h. -/
abbrev DEFAULT_BIND_COUNT : Nat := 10

/-- The function `schedulerDefaultContext`; `newContext` and `bind` are what the two
`calloc` calls return.  The source does not test them: a failed first `calloc` is
dereferenced. -/
def schedulerDefaultContext (s : State) (newContext bind : Ptr) : Option (State × Ptr) :=
  if s.defaultContext = NULL then
    if newContext = NULL then none
    else
      some ({ s with
        defaultContext := newContext
        contexts := Function.update s.contexts newContext
          (some { task := NULL, currBlockLevel := -1, recallBlockLevel := -1,
                  bindSize := DEFAULT_BIND_COUNT, bind := bind }) }, newContext)
  else some (s, s.defaultContext)

/-- The loop of `findTask`, started at `p`, with at most `fuel` iterations. -/
def findTaskFrom (tasks : Ptr → Option TASK) (id : Nat) : Nat → Ptr → Option Ptr
  | 0, _ => none
  | fuel + 1, p =>
    if p = NULL then some NULL
    else
      match tasks p with
      | none => none
      | some task => if id = task.id then some p else findTaskFrom tasks id fuel task.next

/-- The function `findTask`: the task with this id, or `NULL`. -/
def findTask (fuel : Nat) (s : State) (id : Nat) : Option Ptr :=
  findTaskFrom s.tasks id fuel s.firstTask

/-- The function `createById`.  `taskCount++` stands after the if / else-if / else
chain, inside the outer `if`: it runs whenever the task block was obtained. -/
def createById (fuel : Nat) (s : State) (id taskSize bindSize : Nat) (a : Alloc) :
    Option State :=
  match findTask fuel s id with
  | none => none
  | some found =>
    if found = NULL ∧ a.newTask ≠ NULL then
      if a.newContext = NULL then
        some { s with taskCount := s.taskCount + 1 }
      else if a.bind = NULL then
        some { s with taskCount := s.taskCount + 1 }
      else
        let newTask : TASK :=
          { next := s.firstTask
            prev := NULL
            context := a.newContext
            id := id
            size := taskSize
            currLen := 0
            currPos := 0
            millis := a.junkMillis
            ready := false
            rescheduled := false
            data := a.junkData }
        let newContext : CONTEXT :=
          { task := a.newTask
            currBlockLevel := -1
            recallBlockLevel := -1
            bindSize := bindSize
            bind := a.bind }
        some { s with
          tasks := Function.update s.tasks a.newTask (some newTask)
          contexts := Function.update s.contexts a.newContext (some newContext)
          firstTask := a.newTask
          taskCount := s.taskCount + 1 }
    else some s

/-- The function `deleteTask`. -/
def deleteTask (s : State) (p : Ptr) : Option State :=
  match s.tasks p with
  | none => none
  | some task =>
    let s1 : Option State :=
      if task.prev ≠ NULL then
        match s.tasks task.prev with
        | none => none
        | some pt =>
          some { s with tasks := Function.update s.tasks task.prev (some { pt with next := task.next }) }
      else some { s with firstTask := task.next }
    match s1 with
    | none => none
    | some s1 =>
      let s2 : Option State :=
        if task.next ≠ NULL then
          match s1.tasks task.next with
          | none => none
          | some nt =>
            some { s1 with
              tasks := Function.update s1.tasks task.next (some { nt with prev := task.prev }) }
        else some s1
      match s2 with
      | none => none
      | some s2 =>
        some { s2 with
          taskCount := s2.taskCount - 1
          contexts := Function.update s2.contexts task.context none
          tasks := Function.update s2.tasks p none }

/-- The function `handleDeleteTask`. -/
def handleDeleteTask (fuel : Nat) (s : State) (id : Nat) : Option State :=
  match findTask fuel s id with
  | none => none
  | some task => if task ≠ NULL then deleteTask s task else some s

/-- How the EEPROM part reacts to a byte write: cells before, address, byte, cells after. -/
abbrev EepromDevice := (Nat → Nat) → Nat → Nat → (Nat → Nat)

/-- An EEPROM that stores what is written. -/
def idealEeprom : EepromDevice := fun cells a v => Function.update cells a v

/-- The assignment `EEPROM[a] = v`. -/
def eepromWrite (dev : EepromDevice) (s : State) (a v : Nat) : State :=
  { s with eeprom := dev s.eeprom a (v % 256), eepromLog := s.eepromLog ++ [(a, v % 256)] }

/-- The read `EEPROM[a]`. -/
def eepromRead (s : State) (a : Nat) : Nat := s.eeprom a % 256

/-- The `while (firstTask != NULL) deleteTask(firstTask)` loop of `handleReset`. -/
def resetLoop : Nat → State → Option State
  | 0, _ => none
  | fuel + 1, s =>
    if s.firstTask = NULL then some s
    else
      match deleteTask s s.firstTask with
      | none => none
      | some s1 => resetLoop fuel s1

/-- The function `handleReset`. -/
def handleReset (fuel : Nat) (dev : EepromDevice) (s : State) : Option State :=
  match resetLoop fuel s with
  | none => none
  | some s1 =>
    let s2 : State := { s1 with runningTask := NULL }
    if eepromRead s2 0 = 72 then
      some (eepromWrite dev (eepromWrite dev (eepromWrite dev (eepromWrite dev s2 0 0) 1 0) 2 0) 3 0)
    else some s2

/-- The function `scheduleById`; `now` is the value `millis()` returns. -/
def scheduleById (fuel : Nat) (s : State) (id deltaMillis now : Nat) : Option State :=
  match findTask fuel s id with
  | none => none
  | some task =>
    if task ≠ NULL then
      match s.tasks task with
      | none => none
      | some t =>
        some { s with
          tasks := Function.update s.tasks task
            (some { t with millis := (now + deltaMillis) % 2 ^ 32, ready := true }) }
    else some s

/-- The function `handleAttachInterrupt`; the board macro `digitalPinToInterrupt` is a parameter. -/
def handleAttachInterrupt (fuel : Nat) (digitalPinToInterrupt : Nat → Nat) (s : State)
    (pin id : Nat) : Option State :=
  let intNum := digitalPinToInterrupt pin % 256
  if intNum < MAX_INTERRUPTS then
    match findTask fuel s id with
    | none => none
    | some task =>
      if task ≠ NULL then some { s with intTasks := Function.update s.intTasks intNum task }
      else some s
  else some s

/-- The function `handleDetachInterrupt`. -/
def handleDetachInterrupt (digitalPinToInterrupt : Nat → Nat) (s : State) (pin : Nat) : State :=
  let intNum := digitalPinToInterrupt pin % 256
  if intNum < MAX_INTERRUPTS then { s with intTasks := Function.update s.intTasks intNum NULL }
  else s

/-- The function `handleTakeSem`, called with the context at address `context`; the boolean is the
value returned (true: the caller is to be rescheduled). -/
def handleTakeSem (s : State) (id : Nat) (context : Ptr) : Option (State × Bool) :=
  if id < NUM_SEMAPHORES then
    if (s.semaphores id).full then
      some ({ s with
        semaphores := Function.update s.semaphores id { s.semaphores id with full := false } },
        false)
    else
      match s.contexts context with
      | none => none
      | some ctx =>
        if ctx.task ≠ NULL then
          match s.tasks ctx.task with
          | none => none
          | some t =>
            some ({ s with
              semaphores :=
                Function.update s.semaphores id { s.semaphores id with waiting := ctx.task }
              tasks := Function.update s.tasks ctx.task (some { t with ready := false }) },
              true)
        else some (s, true)
  else some (s, false)

/-- The function `handleGiveSem`; `now` is the value `millis()` returns. -/
def handleGiveSem (s : State) (id now : Nat) : Option State :=
  if id < NUM_SEMAPHORES then
    if (s.semaphores id).full then some s
    else if (s.semaphores id).waiting ≠ NULL then
      match s.tasks (s.semaphores id).waiting with
      | none => none
      | some t =>
        some { s with
          tasks := Function.update s.tasks (s.semaphores id).waiting
            (some { t with ready := true, millis := now % 2 ^ 32 })
          semaphores := Function.update s.semaphores id { s.semaphores id with waiting := NULL } }
    else
      some { s with
        semaphores := Function.update s.semaphores id { s.semaphores id with full := true } }
  else some s

/-- The loop `for (i = 0; i < currLen; i++, index++) EEPROM[index] = task->data[i]`,
with `n` iterations left. -/
def writeBody (dev : EepromDevice) (data : Nat → Nat) : Nat → Nat → Nat → State → State
  | 0, _, _, s => s
  | n + 1, i, index, s => writeBody dev data n (i + 1) (index + 1) (eepromWrite dev s index (data i))

/-- The loop `for (...) if (EEPROM[index] != task->data[i]) status = 0`, with `n`
iterations left. -/
def validateBody (s : State) (data : Nat → Nat) : Nat → Nat → Nat → Nat → Nat
  | 0, _, _, status => status
  | n + 1, i, index, status =>
    validateBody s data n (i + 1) (index + 1)
      (if eepromRead s index ≠ data i % 256 then 0 else status)

/-- The value of `startTime` computed by `handleBootTask` for a task. -/
def bootStartTime (task : TASK) (now : Nat) : Nat :=
  if task.millis = 0 ∨ task.millis < now then 0 else now

/-- The body of the `if ((task = findTask(id)) != NULL)` of `handleBootTask`: writes one
record at `index`; returns the state, the new `index` and the new `status`. -/
def bootTaskRecord (dev : EepromDevice) (s : State) (task : TASK) (bindSize id now : Nat)
    (index status : Nat) : State × Nat × Nat :=
  let startTime := bootStartTime task now
  let s := eepromWrite dev s index id
  let s := eepromWrite dev s (index + 1) (task.currLen % 256)
  let s := eepromWrite dev s (index + 2) (task.currLen / 256)
  let s := eepromWrite dev s (index + 3) (bindSize % 256)
  let s := eepromWrite dev s (index + 4) (bindSize / 256)
  let s := eepromWrite dev s (index + 5) (startTime % 256)
  let s := eepromWrite dev s (index + 6) (startTime / 256 % 256)
  let s := eepromWrite dev s (index + 7) (startTime / 65536 % 256)
  let s := eepromWrite dev s (index + 8) (startTime / 16777216)
  let taskBodyStart := index + 9
  let s := writeBody dev task.data task.currLen 0 taskBodyStart s
  (s, taskBodyStart + task.currLen, validateBody s task.data task.currLen 0 taskBodyStart status)

/-- The `for (i = 0; i < idsLen; i++)` loop of `handleBootTask` on the remaining ids;
`clock i` is what `millis()` returns in iteration `i`.  Result: state, `index`,
`status`, `taskCount`. -/
def bootLoop (fuel : Nat) (dev : EepromDevice) (clock : Nat → Nat) :
    List Nat → Nat → State → Nat → Nat → Nat → Option (State × Nat × Nat × Nat)
  | [], _, s, index, status, taskCount => some (s, index, status, taskCount)
  | id :: ids, i, s, index, status, taskCount =>
    match findTask fuel s id with
    | none => none
    | some p =>
      if p ≠ NULL then
        match s.tasks p with
        | none => none
        | some task =>
          match s.contexts task.context with
          | none => none
          | some ctx =>
            let r := bootTaskRecord dev s task ctx.bindSize id (clock i % 2 ^ 32) index status
            bootLoop fuel dev clock ids (i + 1) r.1 r.2.1 r.2.2 (taskCount + 1)
      else bootLoop fuel dev clock ids (i + 1) s index status (taskCount + 1)

/-- The function `handleBootTask` on the id list `ids`; returns the state and the three bytes of
`bootReply` (`EXPR_BOOL`, `EXPR_LIT`, `status`). -/
def handleBootTask (fuel : Nat) (dev : EepromDevice) (clock : Nat → Nat) (s : State)
    (ids : List Nat) : Option (State × List Nat) :=
  let s := eepromWrite dev s 0 72
  let s := eepromWrite dev s 1 65
  let s := eepromWrite dev s 2 83
  let s := eepromWrite dev s 3 75
  match bootLoop fuel dev clock ids 0 s BOOT_TASK_INDEX_START 1 0 with
  | none => none
  | some (s, _, status, taskCount) => some (eepromWrite dev s 4 taskCount, [1, 0, status])

/-- The loop `for (i = 0; i < taskSize; i++, index++) task->data[i] = EEPROM[index]`,
with `n` iterations left, on the data of the task. -/
def copyBody (s : State) : Nat → Nat → Nat → (Nat → Nat) → (Nat → Nat)
  | 0, _, _, data => data
  | n + 1, i, index, data =>
    copyBody s n (i + 1) (index + 1) (Function.update data i (eepromRead s index))

/-- The `for (t = 0; t < taskCount; t++)` loop of `schedulerBootTask`, with `n` records
left, record number `t` starting at `index`; `allocs t` and `clock t` are what the
allocator and `millis()` return while record `t` is restored. -/
def bootRestoreLoop (fuel : Nat) (allocs : Nat → Alloc) (clock : Nat → Nat) :
    Nat → Nat → Nat → State → Option State
  | 0, _, _, s => some s
  | n + 1, t, index, s =>
    let id := eepromRead s index
    let taskSize := eepromRead s (index + 1) + eepromRead s (index + 2) * 256
    let bindSize := eepromRead s (index + 3) + eepromRead s (index + 4) * 256
    let taskMillis := eepromRead s (index + 5) + eepromRead s (index + 6) * 256
      + eepromRead s (index + 7) * 65536 + eepromRead s (index + 8) * 16777216
    match createById fuel s id taskSize bindSize (allocs t) with
    | none => none
    | some s1 =>
      match findTask fuel s1 id with
      | none => none
      | some p =>
        if p = NULL then none
        else
          match s1.tasks p with
          | none => none
          | some task =>
            let s2 : State := { s1 with
              tasks := Function.update s1.tasks p
                (some { task with
                  data := copyBody s1 taskSize 0 (index + 9) task.data
                  currLen := taskSize }) }
            match scheduleById fuel s2 id taskMillis (clock t % 2 ^ 32) with
            | none => none
            | some s3 => bootRestoreLoop fuel allocs clock n (t + 1) (index + 9 + taskSize) s3

/-- The function `schedulerBootTask`. -/
def schedulerBootTask (fuel : Nat) (allocs : Nat → Alloc) (clock : Nat → Nat) (s : State) :
    Option State :=
  if eepromRead s 0 = 72 ∧ eepromRead s 1 = 65 ∧ eepromRead s 2 = 83 ∧ eepromRead s 3 = 75 then
    bootRestoreLoop fuel allocs clock (eepromRead s 4) 0 BOOT_TASK_INDEX_START s
  else some s

/-- The due test of the run loop: `now - task->millis < 0x80000000UL` on 32 bits. -/
def isDue (now millis : Nat) : Bool :=
  decide ((now + 2 ^ 32 - millis % 2 ^ 32) % 2 ^ 32 < 2 ^ 31)

/-- The function `handleAddToTask`: `addSize` is the byte count of the message and
`chunk k` its `k`-th data byte.  `intBits` is the width of `int` and `unsigned int` on
the target (16 on the AVR boards): the sum `addSize + task->currLen` of a byte and a
16-bit field is computed in `unsigned int` when `int` has 16 bits and in `int` when it
is wider, so it is taken modulo `2 ^ intBits`; `currLen += addSize` stores 16 bits. -/
def handleAddToTask (intBits fuel : Nat) (s : State) (id addSize : Nat) (chunk : Nat → Nat) :
    Option State :=
  match findTask fuel s id with
  | none => none
  | some task =>
    if task ≠ NULL then
      match s.tasks task with
      | none => none
      | some t =>
        if (addSize + t.currLen) % 2 ^ intBits ≤ t.size then
          some { s with
            tasks := Function.update s.tasks task
              (some { t with
                data := fun i =>
                  if t.currLen ≤ i ∧ i < t.currLen + addSize then chunk (i - t.currLen)
                  else t.data i
                currLen := (t.currLen + addSize) % 2 ^ 16 }) }
        else some s
    else some s

/-- What a call `runCodeBlock(blockSize, block, context)` does: the state afterwards and
the value returned (true: the task asked to be suspended, false: the stream ran to its
end), or `none` when the call does not return.  The scheduler is verified for an
arbitrary interpreter. -/
abbrev Interp := State → Nat → (Nat → Nat) → Ptr → Option (State × Bool)

/-- The arguments of one call of `runCodeBlock`. -/
structure Call where
  blockSize : Nat
  block : Nat → Nat
  context : Ptr

/-- The test `current->ready && now - current->millis < 0x80000000UL` of the run loop. -/
def taskDue (current : TASK) (now : Nat) : Bool :=
  current.ready && isDue now current.millis

/-- The `while (current)` loop of `schedulerRunTasks`, with at most `fuel` iterations.
The list records, in order, each block the loop visits and whether it was run. -/
def runLoop (interp : Interp) (now : Nat) :
    Nat → State → Ptr → List (Ptr × Bool) → Option (State × List (Ptr × Bool))
  | 0, _, _, _ => none
  | fuel + 1, s, current, visits =>
    if current = NULL then some (s, visits)
    else
      match s.tasks current with
      | none => none
      | some c =>
        let next := c.next
        if taskDue c now then
          match interp { s with runningTask := current } c.currLen c.data c.context with
          | none => none
          | some (s1, suspended) =>
            let s2 : Option State := if suspended then some s1 else deleteTask s1 current
            match s2 with
            | none => none
            | some s2 =>
              runLoop interp now fuel { s2 with runningTask := NULL } next
                (visits ++ [(current, true)])
        else runLoop interp now fuel s next (visits ++ [(current, false)])

/-- The function `schedulerRunTasks`; `now` is the value `millis()` returns. -/
def schedulerRunTasks (fuel : Nat) (interp : Interp) (now : Nat) (s : State) :
    Option (State × List (Ptr × Bool)) :=
  if s.firstTask ≠ NULL then runLoop interp (now % 2 ^ 32) fuel s s.firstTask []
  else some (s, [])

/-- The function `handleISR`: the state afterwards and the calls of `runCodeBlock` made. -/
def handleISR (interp : Interp) (s : State) (intNum : Nat) : Option (State × List Call) :=
  if s.intTasks intNum ≠ NULL then
    match s.tasks (s.intTasks intNum) with
    | none => none
    | some task =>
      match interp s task.currLen task.data task.context with
      | none => none
      | some (s1, _) =>
        some (s1, [{ blockSize := task.currLen, block := task.data, context := task.context }])
  else some (s, [])

/-- The constant `EXPR_WORD32` of HaskinoCommands.h. -/
abbrev EXPR_WORD32 : Nat := 0x04

/-- The constant `EXPR_LIST8` of HaskinoCommands.h. -/
abbrev EXPR_LIST8 : Nat := 0x08

/-- The constant `EXPR_LIT` of HaskinoCommands.h. -/
abbrev EXPR_LIT : Nat := 0x00

/-- A call of `sendReply`: the byte count passed and the bytes the callee is handed, that
is the `count` bytes starting at the pointer `reply`. -/
structure SentReply where
  count : Nat
  payload : List Nat
deriving DecidableEq

/-- The `count` bytes of the memory `mem` from offset 0 on. -/
def bytesAt (mem : Nat → Nat) (count : Nat) : List Nat :=
  (List.range count).map fun k => mem k % 256

/-- The function `handleQuery`; `id` is the value of the id expression and `now` the
value `millis()` returns.  The stores through the `uint16_t` and `uint32_t` pointers into
`queryReply` are little-endian, as on every board the firmware lists.  The handler
assigns no variable of the scheduler: the state is returned as it came. -/
def handleQuery (fuel : Nat) (s : State) (id now : Nat) : Option (State × SentReply) :=
  match findTask fuel s id with
  | none => none
  | some task =>
    if task ≠ NULL then
      match s.tasks task with
      | none => none
      | some t =>
        let sizeReply := t.size % 2 ^ 16
        let lenReply := t.currLen % 2 ^ 16
        let posReply := t.currPos % 2 ^ 16
        let millisReply := (t.millis % 2 ^ 32 + 2 ^ 32 - now % 2 ^ 32) % 2 ^ 32
        let queryReply : List Nat :=
          [sizeReply % 256, sizeReply / 256, lenReply % 256, lenReply / 256,
           posReply % 256, posReply / 256,
           millisReply % 256, millisReply / 256 % 256, millisReply / 65536 % 256,
           millisReply / 16777216]
        some (s, { count := 10, payload := queryReply })
    else some (s, { count := 0, payload := [] })

/-- The `while (task != NULL && i < taskCount)` loop of `handleQueryAll`, with at most
`fuel` iterations: `mem` is the block `localMem`, and `*local++ = task->id` stores at
offset `3 + i`.  Result: `i` and the block. -/
def queryAllLoop (tasks : Ptr → Option TASK) (taskCount : Int) :
    Nat → Ptr → Nat → (Nat → Nat) → Option (Nat × (Nat → Nat))
  | 0, _, _, _ => none
  | fuel + 1, task, i, mem =>
    if task ≠ NULL ∧ (i : Int) < taskCount then
      match tasks task with
      | none => none
      | some t => queryAllLoop tasks taskCount fuel t.next (i + 1)
          (Function.update mem (3 + i) (t.id % 256))
    else some (i, mem)

/-- What `handleQueryAll` does with the list it built: `noMemory` when the allocation
failed and the handler returned; `bound` for the call
`putBindListPtr(context, bind, localMem)`, with the contents of the block; `sent` for the
call `sendReply(i + 3, SCHED_RESP_QUERY_ALL, localMem, context, bind)`. -/
inductive QueryAllResult where
  | noMemory
  | bound (bind : Nat) (localMem : Nat → Nat)
  | sent (reply : SentReply)

/-- The reply sent, if one was. -/
def QueryAllResult.reply : QueryAllResult → Option SentReply
  | .sent r => some r
  | _ => none

/-- The function `handleQueryAll`.  `localMem` is what `malloc(taskCount + 3)` returns
(0 for a failure) and `junk` what the fresh block holds.  The two assignments before
the loop both store at `localMem[0]`. -/
def handleQueryAll (fuel : Nat) (s : State) (context : Ptr) (bind : Nat) (localMem : Ptr)
    (junk : Nat → Nat) : Option QueryAllResult :=
  let taskCount := getTaskCount s
  if localMem = NULL then some QueryAllResult.noMemory
  else
    let mem := Function.update junk 0 EXPR_LIST8
    let mem := Function.update mem 0 EXPR_LIT
    match queryAllLoop s.tasks taskCount fuel s.firstTask 0 mem with
    | none => none
    | some (i, mem) =>
      let mem := Function.update mem 2 (i % 256)
      match s.contexts context with
      | none => none
      | some c =>
        if c.currBlockLevel ≥ 0 then some (QueryAllResult.bound bind mem)
        else some (QueryAllResult.sent { count := i + 3, payload := bytesAt mem (i + 3) })

/-- A call `parseMessage(cmdSize, cmd, local)` made by `runCodeBlock`: the size passed
and the offset in `block` of the byte `cmd` points to. -/
structure Dispatch where
  cmdSize : Nat
  cmd : Nat
deriving DecidableEq

/-- The `while (currPos < blockSize)` loop of `runCodeBlock` of HaskinoCodeBlock.cpp, with
at most `fuel` iterations; `calls` are the calls of `parseMessage` made so far.
`intBits` is the width of `int`: `currPos += cmdSize + 1` is undefined when the sum
exceeds `INT_MAX`, and the loop has no value then. -/
def codeBlockLoop (intBits : Nat) (blockSize : Int) (block : Nat → Nat) :
    Nat → Nat → List Dispatch → Option (List Dispatch)
  | 0, _, _ => none
  | fuel + 1, currPos, calls =>
    if (currPos : Int) < blockSize then
      let cmdSize := block currPos % 256
      if currPos + (cmdSize + 1) < 2 ^ (intBits - 1) then
        codeBlockLoop intBits blockSize block fuel (currPos + (cmdSize + 1))
          (calls ++ [{ cmdSize := cmdSize, cmd := currPos + 1 }])
      else none
    else some calls

/-- The function `runCodeBlock` of HaskinoCodeBlock.cpp: the calls of `parseMessage` it
makes and the value of the static `codeBlock` when it returns.  The variable is set to
`true` before the loop and to `false` after it. -/
def runCodeBlock (intBits fuel : Nat) (blockSize : Int) (block : Nat → Nat) :
    Option (List Dispatch × Bool) :=
  match codeBlockLoop intBits blockSize block fuel 0 [] with
  | none => none
  | some calls => some (calls, false)

/-- What `handleWrite` of AmberI2C.cpp does: the address passed to
`Wire.beginTransmission`, the value of `wordCount` after the clamp, the offsets in `msg`
of the bytes read through `data`, in order, and the words passed to `Wire.write`. -/
structure I2CWrite where
  slaveAddress : Nat
  wordCount : Nat
  reads : List Nat
  words : List Nat
deriving DecidableEq

/-- The function `handleWrite` of AmberI2C.cpp.  `size` is an `int`; `(size - 2) / 2` is
the division of C, which truncates toward zero, and the assignment to the byte
`wordCount` keeps its low 8 bits.  Each `*data++` reads two bytes, the low byte first. -/
def handleWrite (size : Int) (msg : Nat → Nat) : I2CWrite :=
  let slaveAddress := msg 1 % 256
  let wordCount : Int := ((msg 2 % 256 : Nat) : Int)
  let wordCount : Int :=
    if wordCount > Int.tdiv (size - 2) 2 then Int.tdiv (size - 2) 2 % 256 else wordCount
  { slaveAddress := slaveAddress
    wordCount := wordCount.toNat
    reads := (List.range wordCount.toNat).flatMap fun i => [3 + 2 * i, 3 + 2 * i + 1]
    words := (List.range wordCount.toNat).map fun i =>
      msg (3 + 2 * i) % 256 + 256 * (msg (3 + 2 * i + 1) % 256) }

/-- The `count` bytes that `sendReply` is handed when `reply` points to the local array
`array`: `stack k` is the byte of the stack frame `k` bytes past the end of the array. -/
def replyBytes (array : List Nat) (stack : Nat → Nat) (count : Nat) : List Nat :=
  (List.range count).map fun k =>
    if k < array.length then array.getD k 0 else stack (k - array.length) % 256

/-- The function `handleRequestMicros` of HaskinoBoardStatus.cpp: its call of `sendReply`.
`us` is the value `micros()` returns; `memcpy` stores the low byte of `ms` first.  The
count passed is `2 + sizeof(microReply)`, and `microReply` has 6 bytes. -/
def handleRequestMicros (us : Nat) (stack : Nat → Nat) : SentReply :=
  let ms := us % 2 ^ 32
  let microReply : List Nat :=
    [EXPR_WORD32, EXPR_LIT, ms % 256, ms / 256 % 256, ms / 65536 % 256, ms / 16777216 % 256]
  { count := 2 + microReply.length
    payload := replyBytes microReply stack (2 + microReply.length) }

/-- The function `handleRequestMillis` of HaskinoBoardStatus.cpp: its call of `sendReply`.
`now` is the value `millis()` returns.  The count passed is `2 + sizeof(uint32_t)`. -/
def handleRequestMillis (now : Nat) (stack : Nat → Nat) : SentReply :=
  let ms := now % 2 ^ 32
  let milliReply : List Nat :=
    [EXPR_WORD32, EXPR_LIT, ms % 256, ms / 256 % 256, ms / 65536 % 256, ms / 16777216 % 256]
  { count := 2 + 4
    payload := replyBytes milliReply stack (2 + 4) }

/-! ## Predicates used in the statements -/

/-- The task list starting at `p` is exactly the blocks `l`, in order: each is allocated,
has `prev = NULL`, points to the following one, and the last has `next = NULL`; no block
occurs twice.  (`createById` never sets a `prev` field to a task, so every listed task
has `prev = NULL`.) -/
def TaskChain (tasks : Ptr → Option TASK) : Ptr → List Ptr → Prop
  | p, [] => p = NULL
  | p, q :: l =>
    p = q ∧ q ≠ NULL ∧ q ∉ l ∧ ∃ t, tasks q = some t ∧ t.prev = NULL ∧ TaskChain tasks t.next l

/-- The cells after `bytes` have been stored at the addresses `index`, `index + 1`, ... -/
def overlay (cells : Nat → Nat) (index : Nat) (bytes : List Nat) : Nat → Nat :=
  fun x => if index ≤ x ∧ x < index + bytes.length then bytes.getD (x - index) 0 else cells x

/-- The write accesses `EEPROM[index] = b0`, `EEPROM[index + 1] = b1`, ... as they appear
in the write log. -/
def writesAt : Nat → List Nat → List (Nat × Nat)
  | _, [] => []
  | index, b :: bytes => (index, b % 256) :: writesAt (index + 1) bytes

/-- The state after the bytes have been assigned to `EEPROM[index]`, `EEPROM[index + 1]`,
... in this order. -/
def storeBytes (dev : EepromDevice) (s : State) : Nat → List Nat → State
  | _, [] => s
  | index, b :: bytes => storeBytes dev (eepromWrite dev s index b) (index + 1) bytes

/-- A 16-bit value as two bytes, low byte first. -/
def le16 (v : Nat) : List Nat := [v % 256, v / 256 % 256]

/-- A 32-bit value as four bytes, low byte first. -/
def le32 (v : Nat) : List Nat := [v % 256, v / 256 % 256, v / 65536 % 256, v / 16777216 % 256]

/-- The boot record of a task as the format describes it: id, length, binding count,
scheduled offset, then the first `currLen` bytes of the task. -/
def bootRecord (id : Nat) (task : TASK) (bindSize startTime : Nat) : List Nat :=
  [id % 256] ++ le16 task.currLen ++ le16 bindSize ++ le32 startTime ++
    (List.range task.currLen).map (fun i => task.data i % 256)

/-- What looking up `id` gives: `none` when `findTask` returns `NULL`, otherwise the task
found and its context. -/
def Resolves (fuel : Nat) (s : State) (id : Nat) : Option (TASK × CONTEXT) → Prop
  | none => findTask fuel s id = some NULL
  | some r =>
    ∃ p, findTask fuel s id = some p ∧ p ≠ NULL ∧ s.tasks p = some r.1 ∧
      s.contexts r.1.context = some r.2

/-- The records of the existing tasks of the id list, one after the other in list order;
`i` is the position of the first id in the whole list. -/
def bootImage (clock : Nat → Nat) (look : Nat → Option (TASK × CONTEXT)) :
    List Nat → Nat → List Nat
  | [], _ => []
  | id :: ids, i =>
    (match look id with
      | none => []
      | some r => bootRecord id r.1 r.2.bindSize (bootStartTime r.1 (clock i % 2 ^ 32)))
    ++ bootImage clock look ids (i + 1)

/-- Some body byte of some existing task of the id list reads back, once the record of
that task has been written, different from the byte of the task.  The records are
written from `index` on, starting in state `s`. -/
def ReadbackMismatch (dev : EepromDevice) (clock : Nat → Nat)
    (look : Nat → Option (TASK × CONTEXT)) : List Nat → Nat → State → Nat → Prop
  | [], _, _, _ => False
  | id :: ids, i, s, index =>
    match look id with
    | none => ReadbackMismatch dev clock look ids (i + 1) s index
    | some r =>
      let record := bootRecord id r.1 r.2.bindSize (bootStartTime r.1 (clock i % 2 ^ 32))
      (∃ j, j < r.1.currLen ∧
          eepromRead (storeBytes dev s index record) (index + 9 + j) ≠ r.1.data j % 256) ∨
        ReadbackMismatch dev clock look ids (i + 1) (storeBytes dev s index record)
          (index + record.length)

/-- The task and context that `handleBootTask` reads for `id`; `none` when there is no
such task (or when the lookup does not return). -/
def lookup (fuel : Nat) (s : State) (id : Nat) : Option (TASK × CONTEXT) :=
  match findTask fuel s id with
  | none => none
  | some p =>
    if p = NULL then none
    else
      match s.tasks p with
      | none => none
      | some task =>
        match s.contexts task.context with
        | none => none
        | some ctx => some (task, ctx)

/-- The length field of the record at `index`, as `schedulerBootTask` reads it. -/
def recordSize (s : State) (index : Nat) : Nat :=
  eepromRead s (index + 1) + eepromRead s (index + 2) * 256

/-- The scheduled-offset field of the record at `index`, as `schedulerBootTask` reads it. -/
def recordMillis (s : State) (index : Nat) : Nat :=
  eepromRead s (index + 5) + eepromRead s (index + 6) * 256
    + eepromRead s (index + 7) * 65536 + eepromRead s (index + 8) * 16777216

/-- The task that one iteration of the restore loop builds from the record at `index`
when the id is new and the allocation `a` succeeds; `now` is the clock at scheduling. -/
def restoredTask (s : State) (a : Alloc) (index now : Nat) : TASK :=
  { next := s.firstTask
    prev := NULL
    context := a.newContext
    id := eepromRead s index
    size := recordSize s index
    currLen := recordSize s index
    currPos := 0
    millis := (now + recordMillis s index) % 2 ^ 32
    ready := true
    rescheduled := false
    data := copyBody s (recordSize s index) 0 (index + 9) a.junkData }

/-- The state after that iteration. -/
def restoreOne (s : State) (a : Alloc) (index now : Nat) : State :=
  { s with
    tasks := Function.update s.tasks a.newTask (some (restoredTask s a index now))
    contexts := Function.update s.contexts a.newContext
      (some { task := a.newTask, currBlockLevel := -1, recallBlockLevel := -1,
              bindSize := eepromRead s (index + 3) + eepromRead s (index + 4) * 256,
              bind := a.bind })
    firstTask := a.newTask
    taskCount := s.taskCount + 1 }

/-- The cells hold `bytes` at the addresses `index`, `index + 1`, ... -/
def HoldsAt (cells : Nat → Nat) (index : Nat) (bytes : List Nat) : Prop :=
  ∀ x, x < bytes.length → cells (index + x) = bytes.getD x 0

/-- The block `p` is a task of the registry: it occurs in the task list. -/
def Listed (s : State) (p : Ptr) : Prop :=
  ∃ l, TaskChain s.tasks s.firstTask l ∧ p ∈ l

/-- Every non-empty interrupt binding and every non-empty semaphore waiter refers to a
task of the registry. -/
def BindingsLive (s : State) : Prop :=
  (∀ i, i < MAX_INTERRUPTS → s.intTasks i ≠ NULL → Listed s (s.intTasks i)) ∧
  (∀ i, i < NUM_SEMAPHORES → (s.semaphores i).waiting ≠ NULL →
    Listed s (s.semaphores i).waiting)

/-- The states reached from power-up by the scheduler commands that delete no task:
create (the allocator returns `NULL` or a block that is not allocated), schedule,
attach, detach, semaphore take and give, and the creation of the default context. -/
inductive DeleteFree (fuel : Nat) (digitalPinToInterrupt : Nat → Nat) : State → Prop
  | init (eeprom : Nat → Nat) : DeleteFree fuel digitalPinToInterrupt (State.init eeprom)
  | create {s s1 : State} (id taskSize bindSize : Nat) (a : Alloc) :
      DeleteFree fuel digitalPinToInterrupt s →
      (a.newTask = NULL ∨ s.tasks a.newTask = none) →
      createById fuel s id taskSize bindSize a = some s1 →
      DeleteFree fuel digitalPinToInterrupt s1
  | schedule {s s1 : State} (id deltaMillis now : Nat) :
      DeleteFree fuel digitalPinToInterrupt s →
      scheduleById fuel s id deltaMillis now = some s1 →
      DeleteFree fuel digitalPinToInterrupt s1
  | attach {s s1 : State} (pin id : Nat) :
      DeleteFree fuel digitalPinToInterrupt s →
      handleAttachInterrupt fuel digitalPinToInterrupt s pin id = some s1 →
      DeleteFree fuel digitalPinToInterrupt s1
  | detach {s : State} (pin : Nat) :
      DeleteFree fuel digitalPinToInterrupt s →
      DeleteFree fuel digitalPinToInterrupt (handleDetachInterrupt digitalPinToInterrupt s pin)
  | take {s s1 : State} (id : Nat) (context : Ptr) (suspend : Bool) :
      DeleteFree fuel digitalPinToInterrupt s →
      handleTakeSem s id context = some (s1, suspend) →
      DeleteFree fuel digitalPinToInterrupt s1
  | give {s s1 : State} (id now : Nat) :
      DeleteFree fuel digitalPinToInterrupt s →
      handleGiveSem s id now = some s1 →
      DeleteFree fuel digitalPinToInterrupt s1
  | defaultContext {s s1 : State} (newContext bind c : Ptr) :
      DeleteFree fuel digitalPinToInterrupt s →
      schedulerDefaultContext s newContext bind = some (s1, c) →
      DeleteFree fuel digitalPinToInterrupt s1

/-- What holds on the delete-free runs: `l` is the task list, and every binding, waiter
and back-reference of a context that is not `NULL` is a block of `l`. -/
def LiveInv (s : State) (l : List Ptr) : Prop :=
  TaskChain s.tasks s.firstTask l ∧
  (∀ i, s.intTasks i ≠ NULL → s.intTasks i ∈ l) ∧
  (∀ i, (s.semaphores i).waiting ≠ NULL → (s.semaphores i).waiting ∈ l) ∧
  (∀ c ctx, s.contexts c = some ctx → ctx.task ≠ NULL → ctx.task ∈ l)

/-- The states reached from `s0` by semaphore take and give operations, with any
semaphore id, any calling context and any clock. -/
inductive SemReach (s0 : State) : State → Prop
  | start : SemReach s0 s0
  | take {s s1 : State} (id : Nat) (context : Ptr) (suspend : Bool) :
      SemReach s0 s → handleTakeSem s id context = some (s1, suspend) → SemReach s0 s1
  | give {s s1 : State} (id now : Nat) :
      SemReach s0 s → handleGiveSem s id now = some s1 → SemReach s0 s1

/-- No semaphore is full and has a waiter at the same time. -/
def SemaphoresOk (s : State) : Prop :=
  ∀ i, ¬ ((s.semaphores i).full = true ∧ (s.semaphores i).waiting ≠ NULL)

/-- The states reached from power-up by create, append, schedule and by iterations of
the boot-restore loop that restore a record whose id is not yet in the registry with
an allocation that succeeds. -/
inductive Built (intBits fuel : Nat) : State → Prop
  | init (eeprom : Nat → Nat) : Built intBits fuel (State.init eeprom)
  | create {s s1 : State} (id taskSize bindSize : Nat) (a : Alloc) :
      Built intBits fuel s → createById fuel s id taskSize bindSize a = some s1 →
      Built intBits fuel s1
  | append {s s1 : State} (id addSize : Nat) (chunk : Nat → Nat) :
      Built intBits fuel s → handleAddToTask intBits fuel s id addSize chunk = some s1 →
      Built intBits fuel s1
  | schedule {s s1 : State} (id deltaMillis now : Nat) :
      Built intBits fuel s → scheduleById fuel s id deltaMillis now = some s1 →
      Built intBits fuel s1
  | restore {s s1 : State} (allocs : Nat → Alloc) (clock : Nat → Nat) (t index : Nat) :
      Built intBits fuel s →
      findTask fuel s (eepromRead s index) = some NULL →
      (allocs t).newTask ≠ NULL → (allocs t).newContext ≠ NULL → (allocs t).bind ≠ NULL →
      bootRestoreLoop fuel allocs clock 1 t index s = some s1 →
      Built intBits fuel s1

/-- Every allocated task block has `currLen` at most `size`. -/
def LengthOk (s : State) : Prop :=
  ∀ p t, s.tasks p = some t → t.currLen ≤ t.size

/-- A well-formed registry: `l` is the task list and no two listed tasks have the same
id.  (`createById` links a task only when `findTask` does not find its id.) -/
def RegistryOk (s : State) (l : List Ptr) : Prop :=
  TaskChain s.tasks s.firstTask l ∧
  ∀ p ∈ l, ∀ q ∈ l, ∀ tp tq, s.tasks p = some tp → s.tasks q = some tq → tp.id = tq.id → p = q

/-- The state `s1` has every task block of `s` still allocated, with the same `next`,
`prev` and `context`. -/
def LinksKept (s s1 : State) : Prop :=
  ∀ q tq, s.tasks q = some tq →
    ∃ tq1, s1.tasks q = some tq1 ∧ tq1.next = tq.next ∧ tq1.prev = tq.prev ∧
      tq1.context = tq.context

/-- Every context of `s1` that refers to the task `p` did so in `s`. -/
def RefsKept (p : Ptr) (s s1 : State) : Prop :=
  ∀ c ctx1, s1.contexts c = some ctx1 → ctx1.task = p →
    ∃ ctx, s.contexts c = some ctx ∧ ctx.task = p

/-- An interpreter that returns on every input, frees no task block, changes no `next`,
`prev` or `context` field, makes no context refer to the task `p`, and changes the block
`p` only when `p` is the running task or the task of the context it is called with.  Its
streams may block on a semaphore, delay or reschedule their own task, create tasks, and
write to every other part of the state. -/
def Sparing (interp : Interp) (p : Ptr) : Prop :=
  ∀ (s : State) (n : Nat) (d : Nat → Nat) (c : Ptr),
    ∃ s1 b, interp s n d c = some (s1, b) ∧ LinksKept s s1 ∧ RefsKept p s s1 ∧
      (s.runningTask ≠ p → (∀ ctx, s.contexts c = some ctx → ctx.task ≠ p) →
        s1.tasks p = s.tasks p)

/-- No task among the blocks `l` other than `p` has a context that refers to `p`.
(`createById` makes the context of a task refer to that task.) -/
def ContextsApart (s : State) (p : Ptr) (l : List Ptr) : Prop :=
  ∀ q ∈ l, q ≠ p → ∀ tq ctx, s.tasks q = some tq → s.contexts tq.context = some ctx →
    ctx.task ≠ p

/-- What one pass of the run loop does with the block `q`, in the spec's words: when the
task is ready and due, the interpreter runs its stream with `q` as the running task, and
the task is deleted unless the run reports a suspension; otherwise nothing happens.  The
flag tells whether the interpreter ran. -/
def stepTask (interp : Interp) (now : Nat) (s : State) (q : Ptr) : Option (State × Bool) :=
  match s.tasks q with
  | none => none
  | some c =>
    if taskDue c now then
      (interp { s with runningTask := q } c.currLen c.data c.context).bind fun r =>
        (if r.2 then some r.1 else deleteTask r.1 q).map fun s2 =>
          ({ s2 with runningTask := NULL }, true)
    else some (s, false)

/-- A pass over the blocks `l`, in this order, each handled by `stepTask`; the list
records each block and whether its stream was run. -/
def passOver (interp : Interp) (now : Nat) :
    List Ptr → State → List (Ptr × Bool) → Option (State × List (Ptr × Bool))
  | [], s, visits => some (s, visits)
  | q :: l, s, visits =>
    (stepTask interp now s q).bind fun r => passOver interp now l r.1 (visits ++ [(q, r.2)])

/-- The ids, as bytes, of the tasks in the blocks `l`. -/
def idsOf (tasks : Ptr → Option TASK) (l : List Ptr) : List Nat :=
  l.map fun p => ((tasks p).map fun t => t.id % 256).getD 0

/-- The bytes of a buffer of `blockSize` bytes. -/
def bufferOf (blockSize : Nat) (block : Nat → Nat) : List Nat :=
  (List.range blockSize).map fun i => block i % 256

/-- The records of a buffer in the spec's words, read byte by byte: the buffer is a
sequence of records `[size byte][size bytes of command]`.  With no record open (`open` is
0) the next byte is a size byte and starts a record; the `size` bytes after it are the
command of that record.  `offset` is the offset of the first byte of the list. -/
def splitRecords : List Nat → Nat → Nat → List Dispatch
  | [], _, _ => []
  | size :: rest, 0, offset =>
    { cmdSize := size, cmd := offset + 1 } :: splitRecords rest size (offset + 1)
  | _ :: rest, left + 1, offset => splitRecords rest left (offset + 1)

/-- A buffer is well formed when every record ends at or before `blockSize`. -/
def WellFormed (blockSize : Nat) (block : Nat → Nat) : Prop :=
  ∀ d ∈ splitRecords (bufferOf blockSize block) 0 0, d.cmd + d.cmdSize ≤ blockSize

/-! ## Concrete states used as test inputs -/

/-- An allocation that succeeds, with all three blocks at address `p` of their heaps and
the task block zero-filled. -/
def Alloc.ok (p : Ptr) : Alloc :=
  { newTask := p, newContext := p, bind := p, junkMillis := 0, junkData := fun _ => 0 }

/-- An allocation in which the task block is obtained and the context is not. -/
def Alloc.noContext (p : Ptr) : Alloc :=
  { newTask := p, newContext := NULL, bind := NULL, junkMillis := 0, junkData := fun _ => 0 }

/-- An allocation in which task block and context are obtained and the bindings are not. -/
def Alloc.noBind (p : Ptr) : Alloc :=
  { newTask := p, newContext := p, bind := NULL, junkMillis := 0, junkData := fun _ => 0 }

/-- The pin to interrupt-line map of the Arduino Uno (`digitalPinToInterrupt`): pin 2
is line 0, pin 3 is line 1, any other pin is `NOT_AN_INTERRUPT` (-1). -/
def unoPinToInterrupt (pin : Nat) : Nat :=
  if pin = 2 then 0 else if pin = 3 then 1 else 255

/-- The power-up state with an erased EEPROM. -/
def blank : State := State.init (fun _ => 0)

/-- The state after `create(1, 10, 2)` from power-up. -/
def oneTask : State := (createById 8 blank 1 10 2 (Alloc.ok 1)).getD blank

/-- The state after `create(1, 10, 2)` and `create(2, 10, 2)` from power-up. -/
def twoTasks : State := (createById 8 oneTask 2 10 2 (Alloc.ok 2)).getD blank

/-- Task 1 created and scheduled at clock 1000 with delay 4000: wake time 5000. -/
def scheduledTask : State := (scheduleById 8 oneTask 1 4000 1000).getD blank

/-- Tasks 1 and 2 exist and the id list `[1, 2]` was committed at clock 1000: the
EEPROM holds a boot record with two tasks. -/
def committedTwo : State :=
  ((handleBootTask 8 idealEeprom (fun _ => 1000) twoTasks [1, 2]).map Prod.fst).getD blank

/-- A task with id 1 holding the bytes 10, 11, 12, scheduled for clock 5000. -/
def taskOne : TASK :=
  { next := NULL, prev := NULL, context := 1, id := 1, size := 10, currLen := 3, currPos := 0,
    millis := 5000, ready := true, rescheduled := false, data := fun i => 10 + i }

/-- A task with id 2 holding the bytes 20, 21, never scheduled. -/
def taskTwo : TASK :=
  { next := 1, prev := NULL, context := 2, id := 2, size := 10, currLen := 2, currPos := 0,
    millis := 0, ready := false, rescheduled := false, data := fun i => 20 + i }

/-- The context of `taskOne`. -/
def ctxOne : CONTEXT :=
  { task := 1, currBlockLevel := -1, recallBlockLevel := -1, bindSize := 2, bind := 1 }

/-- The context of `taskTwo`. -/
def ctxTwo : CONTEXT :=
  { task := 2, currBlockLevel := -1, recallBlockLevel := -1, bindSize := 3, bind := 2 }

/-- The registry after task 1 and then task 2 were created, filled and task 1 scheduled:
the list is task 2, task 1. -/
def loadedTwo : State :=
  { blank with
    tasks := fun p => if p = 1 then some taskOne else if p = 2 then some taskTwo else none
    contexts := fun p => if p = 1 then some ctxOne else if p = 2 then some ctxTwo else none
    firstTask := 2
    taskCount := 2 }

/-- An EEPROM whose cell 15 is worn out: a write to it has no effect. -/
def wornEeprom : EepromDevice :=
  fun cells a v => if a = 15 then cells else Function.update cells a v

/-- Task 1 exists and interrupt line 0 (pin 2) is attached to it. -/
def boundTask : State := (handleAttachInterrupt 8 unoPinToInterrupt oneTask 2 1).getD blank

/-- Task 1 exists; its context is at address 1 of the context heap. -/
def waitingTask : State := ((handleTakeSem oneTask 0 1).map Prod.fst).getD blank

/-- An interpreter that changes nothing and reports that the stream ran to its end. -/
def completingInterp : Interp := fun s _ _ _ => some (s, false)

/-- An interpreter whose every stream delays its own task by 1000 ms and suspends: the
wake time of the running task is moved, nothing else changes. -/
def delayingInterp : Interp := fun s _ _ _ =>
  some ({ s with
    tasks := fun q =>
      if q = s.runningTask then
        (s.tasks q).map fun t => { t with millis := (t.millis + 1000) % 2 ^ 32 }
      else s.tasks q }, true)

/-- An interpreter whose every stream takes semaphore 0 through `handleTakeSem` and
returns what the handler returns; where the handler has no value (the context or its task
is not allocated) the stream suspends without effect. -/
def blockingInterp : Interp := fun s _ _ context =>
  (handleTakeSem s 0 context).getD (s, true)

/-- An EEPROM holding a boot record of two tasks that both carry id 1: the first of
length 1 (body 9), the second of length 3 (body 7, 8, 9). -/
def duplicateIdEeprom : Nat → Nat := fun a =>
  [72, 65, 83, 75, 2,
   1, 1, 0, 0, 0, 0, 0, 0, 0, 9,
   1, 3, 0, 0, 0, 0, 0, 0, 0, 7, 8, 9].getD a 0

/-- Task 1 exists (capacity 10) and the bytes 10, 11, 12 were appended to it. -/
def appendedTask : State := (handleAddToTask 16 8 oneTask 1 3 (fun i => 10 + i)).getD blank

/-- Tasks 1 and 2 exist (the list is task 2, task 1) and task 1 was scheduled at clock 100
with delay 0; task 2 was never scheduled. -/
def readyTail : State := (scheduleById 8 twoTasks 1 0 100).getD blank

/-- Tasks 1 and 2 exist (the list is task 2, task 1) and task 2 was scheduled at clock 100
with delay 0; task 1 was never scheduled. -/
def readyHead : State := (scheduleById 8 twoTasks 2 0 100).getD blank

/-- An interpreter for a stream of task 2 (context block 2) that holds the command
`delete 1` and then suspends; every other stream suspends at once. -/
def deletingInterp : Interp := fun s _ _ context =>
  if context = 2 then (handleDeleteTask 8 s 1).map fun s1 => (s1, true)
  else some (s, true)

/-- An allocation that hands out the task block and the context block at address 1 and a
binding array at address 3. -/
def Alloc.reuse : Alloc :=
  { newTask := 1, newContext := 1, bind := 3, junkMillis := 0, junkData := fun _ => 0 }

/-- An interpreter for a stream of task 2 (context block 2) that holds the commands
`delete 1`, `create 3` and `schedule 3` with delay 0 at clock 100 and then suspends; the
allocator gives the new task the block that `delete 1` freed.  Every other stream
suspends at once. -/
def recreatingInterp : Interp := fun s _ _ context =>
  if context = 2 then
    ((handleDeleteTask 8 s 1).bind fun s1 =>
      (createById 8 s1 3 10 2 Alloc.reuse).bind fun s2 =>
        scheduleById 8 s2 3 0 100).map fun s3 => (s3, true)
  else some (s, true)

/-- A fresh block that holds the byte 0xAA at every offset. -/
def staleBlock : Nat → Nat := fun _ => 170

/-- A block of 6 bytes with three records: size 2 (bytes 10, 11), size 0, size 1 (byte
12). -/
def threeRecords : Nat → Nat := fun i => [2, 10, 11, 0, 1, 12].getD i 0

/-- A block in which every byte is 255. -/
def allOnes : Nat → Nat := fun _ => 255

/-- An I2C write message of 4 bytes (command, address 0x10, word count 1, one data byte
0xAB); the byte that follows the message in memory is 0xEE. -/
def shortWrite : Nat → Nat := fun i => [0x52, 0x10, 1, 0xAB, 0xEE].getD i 0

/-! ## Properties -/

/-- C10: `create` with an id that is already present is a no-op: `createById` returns
the state it was given, so the existing task, the set of tasks and `count()` are the
same as before. -/
theorem createById_existing_id_noop (fuel : Nat) (s : State) (id taskSize bindSize : Nat)
    (a : Alloc) (p : Ptr) (hfind : findTask fuel s id = some p) (hp : p ≠ NULL) :
    ∃ s1, createById fuel s id taskSize bindSize a = some s1 ∧ s1 = s ∧
      getTaskCount s1 = getTaskCount s ∧ s1.tasks p = s.tasks p ∧
      s1.contexts = s.contexts ∧ ∀ id1, findTask fuel s1 id1 = findTask fuel s id1 := by
  refine ⟨s, ?_, rfl, rfl, rfl, rfl, fun _ => rfl⟩
  simp [createById, hfind, hp]

/-- Witness of C10: task 1 exists in `oneTask`; creating id 1 again changes nothing. -/
theorem createById_existing_id_noop_witness :
    findTask 8 oneTask 1 = some 1 ∧ (1 : Ptr) ≠ NULL ∧
    ∃ s1, createById 8 oneTask 1 20 3 (Alloc.ok 2) = some s1 ∧ s1 = oneTask ∧
      getTaskCount s1 = getTaskCount oneTask ∧ s1.tasks 1 = oneTask.tasks 1 ∧
      s1.contexts = oneTask.contexts ∧ ∀ id1, findTask 8 s1 id1 = findTask 8 oneTask id1 :=
  ⟨by rfl, by decide,
    createById_existing_id_noop 8 oneTask 1 20 3 (Alloc.ok 2) 1 (by rfl) (by decide)⟩

/-- C9 (the code departs from the claim): on the power-up state id 1 is absent and
`count()` is 0; when the context allocation fails, or when the binding allocation
fails, `createById` links no task but returns with `count()` equal to 1. -/
theorem createById_failed_allocation_count :
    findTask 8 blank 1 = some NULL ∧ getTaskCount blank = 0 ∧
    (createById 8 blank 1 10 2 (Alloc.noContext 1)).map
      (fun s => (s.firstTask, findTask 8 s 1, getTaskCount s)) = some (NULL, some NULL, 1) ∧
    (createById 8 blank 1 10 2 (Alloc.noBind 1)).map
      (fun s => (s.firstTask, findTask 8 s 1, getTaskCount s)) = some (NULL, some NULL, 1) := by
  decide

/-- C6 (the code departs from the claim): after `create 1`, `create 2`, `delete 1` the
reset handler returns with no task findable but with `count()` equal to 1, not 0. -/
theorem handleReset_count_not_zero :
    getTaskCount twoTasks = 2 ∧
    ((handleDeleteTask 8 twoTasks 1).bind fun s => handleReset 8 idealEeprom s).map
      (fun s => (s.firstTask, findTask 8 s 1, findTask 8 s 2, getTaskCount s))
      = some (NULL, some NULL, some NULL, 1) := by
  decide

/-- C2 (the code departs from the claim): committing the id list `[7]` when no task 7
exists writes the magic bytes and the count byte only, no record, and the count byte at
offset 4 is 1. -/
theorem handleBootTask_count_of_missing_task :
    findTask 8 blank 7 = some NULL ∧
    (handleBootTask 8 idealEeprom (fun _ => 0) blank [7]).map
      (fun r => (eepromRead r.1 4, r.1.eepromLog))
      = some (1, [(0, 72), (1, 65), (2, 83), (3, 75), (4, 1)]) := by
  decide

/-- C3 (the code departs from the claim): task 1 has wake time 5000 and the clock reads
1000 at commit, so the wake time has not elapsed; the four bytes of the scheduled-offset
field are the little-endian bytes of 1000, the clock, not of 5000, the wake time. -/
theorem handleBootTask_offset_is_clock :
    (scheduledTask.tasks 1).map (fun t => t.millis) = some 5000 ∧
    (handleBootTask 8 idealEeprom (fun _ => 1000) scheduledTask [1]).map
      (fun r => (List.range 4).map fun k => eepromRead r.1 (10 + k))
      = some [1000 % 256, 1000 / 256 % 256, 0, 0] ∧
    [1000 % 256, 1000 / 256 % 256, 0, 0] ≠ [5000 % 256, 5000 / 256 % 256, 0, 0] := by
  decide

/-! ### The task list as a chain of blocks -/

theorem TaskChain.congr {tasks tasks1 : Ptr → Option TASK} :
    ∀ {l : List Ptr} {p : Ptr}, TaskChain tasks p l →
      (∀ q ∈ l, ∃ t t1, tasks q = some t ∧ tasks1 q = some t1 ∧ t1.next = t.next ∧ t1.prev = t.prev) →
      TaskChain tasks1 p l
  | [], _, h, _ => h
  | q :: l, p, h, hl => by
    obtain ⟨hp, hq, hnot, t, ht, hprev, hrest⟩ := h
    obtain ⟨t0, t1, ht0, ht1, hn, hpv⟩ := hl q (List.mem_cons_self _ _)
    rw [ht] at ht0
    cases ht0
    refine ⟨hp, hq, hnot, t1, ht1, by rw [hpv, hprev], ?_⟩
    rw [hn]
    exact TaskChain.congr hrest (fun r hr => hl r (List.mem_cons_of_mem _ hr))

theorem TaskChain.alloc {tasks : Ptr → Option TASK} :
    ∀ {l : List Ptr} {p : Ptr}, TaskChain tasks p l → ∀ q ∈ l, ∃ t, tasks q = some t
  | [], _, _, q, hq => by simp at hq
  | r :: l, p, h, q, hq => by
    obtain ⟨_, _, _, t, ht, _, hrest⟩ := h
    rcases List.mem_cons.1 hq with rfl | hq
    · exact ⟨t, ht⟩
    · exact TaskChain.alloc hrest q hq

theorem TaskChain.same {tasks tasks1 : Ptr → Option TASK} {l : List Ptr} {p : Ptr}
    (h : TaskChain tasks p l) (hl : ∀ q ∈ l, tasks1 q = tasks q) : TaskChain tasks1 p l := by
  refine TaskChain.congr h (fun q hq => ?_)
  obtain ⟨t, ht⟩ := TaskChain.alloc h q hq
  exact ⟨t, t, ht, by rw [hl q hq, ht], rfl, rfl⟩

theorem deleteTask_head (s : State) (q : Ptr) (l : List Ptr)
    (h : TaskChain s.tasks s.firstTask (q :: l)) :
    ∃ s1, deleteTask s q = some s1 ∧ TaskChain s1.tasks s1.firstTask l ∧
      s1.eeprom = s.eeprom ∧ s1.eepromLog = s.eepromLog ∧ s1.taskCount = s.taskCount - 1 ∧
      s1.intTasks = s.intTasks ∧ s1.semaphores = s.semaphores := by
  obtain ⟨hp, hq, hnot, t, ht, hprev, hrest⟩ := h
  cases l with
  | nil =>
    have hn : t.next = NULL := hrest
    refine ⟨{ s with
      firstTask := t.next
      taskCount := s.taskCount - 1
      contexts := Function.update s.contexts t.context none
      tasks := Function.update s.tasks q none }, ?_, ?_, rfl, rfl, rfl, rfl, rfl⟩
    · simp [deleteTask, ht, hprev, hn]
    · simp [TaskChain, hn]
  | cons r l =>
    have hc : TaskChain s.tasks t.next (r :: l) := hrest
    obtain ⟨hr, hr0, hrnot, t1, ht1, hprev1, hrest1⟩ := hrest
    have hqr : q ≠ r := fun e => hnot (by simp [e])
    refine ⟨{ s with
      firstTask := t.next
      taskCount := s.taskCount - 1
      contexts := Function.update s.contexts t.context none
      tasks := Function.update (Function.update s.tasks r (some { t1 with prev := t.prev })) q none },
      ?_, ?_, rfl, rfl, rfl, rfl, rfl⟩
    · simp [deleteTask, ht, hprev, hr, hr0, ht1]
    · refine TaskChain.congr hc ?_
      intro x hx
      obtain ⟨tx, htx⟩ := TaskChain.alloc hc x hx
      have hxq : x ≠ q := fun e => hnot (e ▸ hx)
      by_cases hxr : x = r
      · subst hxr
        rw [ht1] at htx
        cases htx
        exact ⟨t1, { t1 with prev := t.prev }, ht1, by simp [Function.update, hxq], rfl,
          by simp [hprev, hprev1]⟩
      · exact ⟨tx, tx, htx, by simp [Function.update, hxq, hxr, htx], rfl, rfl⟩

theorem resetLoop_chain : ∀ (l : List Ptr) (s : State) (fuel : Nat),
    TaskChain s.tasks s.firstTask l → l.length < fuel →
    ∃ s1, resetLoop fuel s = some s1 ∧ s1.firstTask = NULL ∧ s1.eeprom = s.eeprom ∧
      s1.eepromLog = s.eepromLog ∧ s1.taskCount = s.taskCount - l.length ∧
      s1.intTasks = s.intTasks ∧ s1.semaphores = s.semaphores
  | [], s, fuel, h, hf => by
    obtain ⟨k, rfl⟩ : ∃ k, fuel = k + 1 := ⟨fuel - 1, by simp at hf; omega⟩
    have h0 : s.firstTask = NULL := h
    exact ⟨s, by simp [resetLoop, h0], h0, rfl, rfl, by simp, rfl, rfl⟩
  | q :: l, s, fuel, h, hf => by
    obtain ⟨k, rfl⟩ : ∃ k, fuel = k + 1 := ⟨fuel - 1, by simp at hf; omega⟩
    have hq : s.firstTask = q := h.1
    have hq0 : q ≠ NULL := h.2.1
    obtain ⟨s1, hdel, hchain, he, hlog, hcount, hint, hsem⟩ := deleteTask_head s q l h
    obtain ⟨s2, hres, h1, h2, h3, h4, h5, h6⟩ :=
      resetLoop_chain l s1 k hchain (by simp at hf; omega)
    refine ⟨s2, ?_, h1, by rw [h2, he], by rw [h3, hlog], ?_, by rw [h5, hint], by rw [h6, hsem]⟩
    · simp [resetLoop, hq, hq0, hdel, hres]
    · rw [h4, hcount]
      simp
      omega

theorem committedTwo_chain : TaskChain committedTwo.tasks committedTwo.firstTask [2, 1] := by
  refine ⟨rfl, by decide, by decide, _, rfl, rfl, ?_⟩
  exact ⟨rfl, by decide, by decide, _, rfl, rfl, rfl⟩

/-- C7: on a well-formed task list and with an EEPROM that stores what is written, the
reset handler returns (given fuel beyond the length of the list) with an empty registry,
and for every EEPROM content a following `schedulerBootTask` returns the very same
state: it creates no task and leaves the task count as it was. -/
theorem handleReset_then_boot_restores_nothing (s : State) (l : List Ptr) (fuel fuel2 : Nat)
    (allocs : Nat → Alloc) (clock : Nat → Nat)
    (hchain : TaskChain s.tasks s.firstTask l) (hfuel : l.length < fuel) :
    ∃ s1, handleReset fuel idealEeprom s = some s1 ∧ s1.firstTask = NULL ∧
      (∀ id, findTask (fuel2 + 1) s1 id = some NULL) ∧
      schedulerBootTask fuel2 allocs clock s1 = some s1 := by
  obtain ⟨s0, hres, hfirst, he, -, -, -, -⟩ := resetLoop_chain l s fuel hchain hfuel
  by_cases hH : s.eeprom 0 % 256 = 72
  · refine ⟨_, by simp [handleReset, hres, eepromRead, he, hH]; rfl, ?_, ?_, ?_⟩
    · simpa [eepromWrite] using hfirst
    · intro id
      simp [findTask, findTaskFrom, eepromWrite, hfirst]
    · simp [schedulerBootTask, eepromRead, eepromWrite, idealEeprom, Function.update]
  · refine ⟨{ s0 with runningTask := NULL },
      by simp [handleReset, hres, eepromRead, he, hH], hfirst, ?_, ?_⟩
    · intro id
      simp [findTask, findTaskFrom, hfirst]
    · simp [schedulerBootTask, eepromRead, he, hH]

/-- Witness of C7: two tasks are listed and the EEPROM holds a committed boot record of
two tasks; after reset the restore changes nothing. -/
theorem handleReset_then_boot_restores_nothing_witness :
    TaskChain committedTwo.tasks committedTwo.firstTask [2, 1] ∧
    eepromRead committedTwo 0 = 72 ∧ eepromRead committedTwo 4 = 2 ∧
    ∃ s1, handleReset 8 idealEeprom committedTwo = some s1 ∧ s1.firstTask = NULL ∧
      (∀ id, findTask (8 + 1) s1 id = some NULL) ∧
      schedulerBootTask 8 (fun t => Alloc.ok (t + 3)) (fun _ => 0) s1 = some s1 :=
  ⟨committedTwo_chain, by decide, by decide,
    handleReset_then_boot_restores_nothing committedTwo [2, 1] 8 8 _ _ committedTwo_chain
      (by decide)⟩

/-! ### Writing the boot record -/

theorem eepromWrite_mod (dev : EepromDevice) (s : State) (a v : Nat) :
    eepromWrite dev s a (v % 256) = eepromWrite dev s a v := by
  simp [eepromWrite]

theorem storeBytes_append (dev : EepromDevice) :
    ∀ (l1 l2 : List Nat) (s : State) (index : Nat),
      storeBytes dev s index (l1 ++ l2) = storeBytes dev (storeBytes dev s index l1) (index + l1.length) l2
  | [], l2, s, index => by simp [storeBytes]
  | b :: l1, l2, s, index => by
    have h := storeBytes_append dev l1 l2 (eepromWrite dev s index b) (index + 1)
    have e : index + 1 + l1.length = index + (l1.length + 1) := by omega
    simpa [storeBytes, e] using h

theorem writeBody_eq (dev : EepromDevice) (data : Nat → Nat) :
    ∀ (n i index : Nat) (s : State),
      writeBody dev data n i index s
        = storeBytes dev s index ((List.range' i n).map fun j => data j % 256)
  | 0, i, index, s => by simp [writeBody, storeBytes]
  | n + 1, i, index, s => by
    simp only [writeBody, List.range', List.map_cons, storeBytes, eepromWrite_mod]
    exact writeBody_eq dev data n (i + 1) (index + 1) _

theorem storeBytes_frame (dev : EepromDevice) :
    ∀ (l : List Nat) (s : State) (index : Nat),
      (storeBytes dev s index l).tasks = s.tasks ∧ (storeBytes dev s index l).contexts = s.contexts ∧
      (storeBytes dev s index l).firstTask = s.firstTask ∧
      (storeBytes dev s index l).taskCount = s.taskCount ∧
      (storeBytes dev s index l).intTasks = s.intTasks ∧
      (storeBytes dev s index l).semaphores = s.semaphores ∧
      (storeBytes dev s index l).runningTask = s.runningTask ∧
      (storeBytes dev s index l).defaultContext = s.defaultContext
  | [], s, index => by simp [storeBytes]
  | b :: l, s, index => by
    simp only [storeBytes]
    have h := storeBytes_frame dev l (eepromWrite dev s index b) (index + 1)
    simpa [eepromWrite] using h

theorem storeBytes_log (dev : EepromDevice) :
    ∀ (l : List Nat) (s : State) (index : Nat),
      (storeBytes dev s index l).eepromLog = s.eepromLog ++ writesAt index l
  | [], s, index => by simp [storeBytes, writesAt]
  | b :: l, s, index => by
    simp only [storeBytes, writesAt]
    rw [storeBytes_log dev l]
    simp [eepromWrite]

theorem overlay_nil (cells : Nat → Nat) (index : Nat) : overlay cells index [] = cells := by
  funext x
  simp [overlay]

theorem overlay_cons (cells : Nat → Nat) (index b : Nat) (l : List Nat) :
    overlay (Function.update cells index b) (index + 1) l = overlay cells index (b :: l) := by
  funext x
  simp only [overlay, List.length_cons, Function.update]
  by_cases h1 : x = index
  · subst h1
    simp
  · by_cases h2 : index + 1 ≤ x ∧ x < index + 1 + l.length
    · have h3 : index ≤ x ∧ x < index + (l.length + 1) := by omega
      have h4 : x - index = (x - (index + 1)) + 1 := by omega
      simp [h2, h3, h4]
    · have h3 : ¬ (index ≤ x ∧ x < index + (l.length + 1)) := by omega
      simp [h1, h2, h3]

theorem storeBytes_ideal :
    ∀ (l : List Nat) (s : State) (index : Nat),
      (storeBytes idealEeprom s index l).eeprom = overlay s.eeprom index (l.map (· % 256))
  | [], s, index => by simp [storeBytes, overlay_nil]
  | b :: l, s, index => by
    simp only [storeBytes, List.map_cons]
    rw [storeBytes_ideal l, ← overlay_cons]
    rfl

theorem bootRecord_length (id : Nat) (task : TASK) (bindSize startTime : Nat) :
    (bootRecord id task bindSize startTime).length = 9 + task.currLen := by
  simp [bootRecord, le16, le32]
  omega

theorem bootTaskRecord_eq (dev : EepromDevice) (s : State) (task : TASK)
    (bindSize id now index status : Nat) :
    bootTaskRecord dev s task bindSize id now index status =
      (storeBytes dev s index (bootRecord id task bindSize (bootStartTime task now)),
        index + 9 + task.currLen,
        validateBody (storeBytes dev s index (bootRecord id task bindSize (bootStartTime task now)))
          task.data task.currLen 0 (index + 9) status) := by
  have hrec : bootRecord id task bindSize (bootStartTime task now) =
      [id % 256, task.currLen % 256, task.currLen / 256 % 256, bindSize % 256,
        bindSize / 256 % 256, bootStartTime task now % 256, bootStartTime task now / 256 % 256,
        bootStartTime task now / 65536 % 256, bootStartTime task now / 16777216 % 256] ++
      (List.range' 0 task.currLen).map (fun j => task.data j % 256) := by
    simp [bootRecord, le16, le32, List.range_eq_range']
  have hst : storeBytes dev s index (bootRecord id task bindSize (bootStartTime task now)) =
      writeBody dev task.data task.currLen 0 (index + 9)
        (eepromWrite dev (eepromWrite dev (eepromWrite dev (eepromWrite dev (eepromWrite dev
          (eepromWrite dev (eepromWrite dev (eepromWrite dev (eepromWrite dev s index id)
            (index + 1) (task.currLen % 256)) (index + 2) (task.currLen / 256))
            (index + 3) (bindSize % 256)) (index + 4) (bindSize / 256))
            (index + 5) (bootStartTime task now % 256))
            (index + 6) (bootStartTime task now / 256 % 256))
            (index + 7) (bootStartTime task now / 65536 % 256))
            (index + 8) (bootStartTime task now / 16777216)) := by
    rw [hrec, storeBytes_append, writeBody_eq]
    simp only [storeBytes, eepromWrite_mod, List.length_cons, List.length_nil]
  simp only [bootTaskRecord]
  rw [← hst]

theorem validateBody_spec (s : State) (data : Nat → Nat) :
    ∀ (n i index status : Nat),
      (validateBody s data n i index status = 0 ↔
        status = 0 ∨ ∃ j, j < n ∧ eepromRead s (index + j) ≠ data (i + j) % 256) ∧
      (validateBody s data n i index status = 0 ∨ validateBody s data n i index status = status)
  | 0, i, index, status => by simp [validateBody]
  | n + 1, i, index, status => by
    simp only [validateBody]
    obtain ⟨h1, h2⟩ := validateBody_spec s data n (i + 1) (index + 1)
      (if eepromRead s index ≠ data i % 256 then 0 else status)
    constructor
    · rw [h1]
      constructor
      · rintro (h | ⟨j, hj, hne⟩)
        · by_cases hc : eepromRead s index ≠ data i % 256
          · exact Or.inr ⟨0, by omega, by simpa using hc⟩
          · simp only [hc, if_false] at h
            exact Or.inl h
        · refine Or.inr ⟨j + 1, by omega, ?_⟩
          have e1 : index + (j + 1) = index + 1 + j := by omega
          have e2 : i + (j + 1) = i + 1 + j := by omega
          rw [e1, e2]
          exact hne
      · rintro (h | ⟨j, hj, hne⟩)
        · left
          simp [h]
        · cases j with
          | zero =>
            left
            have hc : eepromRead s index ≠ data i % 256 := by simpa using hne
            simp [hc]
          | succ j =>
            right
            refine ⟨j, by omega, ?_⟩
            have e1 : index + (j + 1) = index + 1 + j := by omega
            have e2 : i + (j + 1) = i + 1 + j := by omega
            rw [e1, e2] at hne
            exact hne
    · rcases h2 with h | h
      · exact Or.inl h
      · by_cases hc : eepromRead s index ≠ data i % 256
        · left
          rw [h]
          simp [hc]
        · right
          rw [h]
          simp only [hc, if_false]

theorem Resolves.storeBytes {fuel : Nat} {s : State} {id : Nat} {r : Option (TASK × CONTEXT)}
    (dev : EepromDevice) (index : Nat) (l : List Nat) (h : Resolves fuel s id r) :
    Resolves fuel (Haskino.storeBytes dev s index l) id r := by
  obtain ⟨h1, h2, h3, -⟩ := storeBytes_frame dev l s index
  cases r with
  | none => simpa [Resolves, findTask, h1, h3] using h
  | some r => simpa [Resolves, findTask, h1, h2, h3] using h

theorem bootLoop_cons_none (fuel : Nat) (dev : EepromDevice) (clock : Nat → Nat)
    (id : Nat) (ids : List Nat) (i : Nat) (s : State) (index status taskCount : Nat)
    (hfind : findTask fuel s id = some NULL) :
    bootLoop fuel dev clock (id :: ids) i s index status taskCount =
      bootLoop fuel dev clock ids (i + 1) s index status (taskCount + 1) := by
  simp [bootLoop, hfind]

theorem bootLoop_cons_some_raw (fuel : Nat) (dev : EepromDevice) (clock : Nat → Nat)
    (id : Nat) (ids : List Nat) (i : Nat) (s : State) (index status taskCount : Nat)
    (p : Ptr) (task : TASK) (ctx : CONTEXT)
    (hfind : findTask fuel s id = some p) (hp : p ≠ NULL) (htask : s.tasks p = some task)
    (hctx : s.contexts task.context = some ctx) :
    bootLoop fuel dev clock (id :: ids) i s index status taskCount =
      bootLoop fuel dev clock ids (i + 1)
        (bootTaskRecord dev s task ctx.bindSize id (clock i % 2 ^ 32) index status).1
        (bootTaskRecord dev s task ctx.bindSize id (clock i % 2 ^ 32) index status).2.1
        (bootTaskRecord dev s task ctx.bindSize id (clock i % 2 ^ 32) index status).2.2
        (taskCount + 1) := by
  rw [bootLoop]
  simp only [hfind, hp, ne_eq, not_false_eq_true, if_true, htask, hctx]

theorem bootLoop_cons_some (fuel : Nat) (dev : EepromDevice) (clock : Nat → Nat)
    (id : Nat) (ids : List Nat) (i : Nat) (s : State) (index status taskCount : Nat)
    (p : Ptr) (task : TASK) (ctx : CONTEXT)
    (hfind : findTask fuel s id = some p) (hp : p ≠ NULL) (htask : s.tasks p = some task)
    (hctx : s.contexts task.context = some ctx) :
    bootLoop fuel dev clock (id :: ids) i s index status taskCount =
      bootLoop fuel dev clock ids (i + 1)
        (storeBytes dev s index
          (bootRecord id task ctx.bindSize (bootStartTime task (clock i % 2 ^ 32))))
        (index + 9 + task.currLen)
        (validateBody (storeBytes dev s index
          (bootRecord id task ctx.bindSize (bootStartTime task (clock i % 2 ^ 32))))
          task.data task.currLen 0 (index + 9) status)
        (taskCount + 1) := by
  rw [bootLoop_cons_some_raw fuel dev clock id ids i s index status taskCount p task ctx hfind hp
    htask hctx, bootTaskRecord_eq]

theorem bootLoop_spec (fuel : Nat) (dev : EepromDevice) (clock : Nat → Nat)
    (look : Nat → Option (TASK × CONTEXT)) :
    ∀ (ids : List Nat) (i : Nat) (s : State) (index status taskCount : Nat),
      (∀ id ∈ ids, Resolves fuel s id (look id)) →
      ∃ st, bootLoop fuel dev clock ids i s index status taskCount =
          some (storeBytes dev s index (bootImage clock look ids i),
            index + (bootImage clock look ids i).length, st, taskCount + ids.length) ∧
        (st = 0 ↔ status = 0 ∨ ReadbackMismatch dev clock look ids i s index) ∧
        (st = 0 ∨ st = status)
  | [], i, s, index, status, taskCount, _ => by
    exact ⟨status, by simp [bootLoop, bootImage, storeBytes], by simp [ReadbackMismatch], Or.inr rfl⟩
  | id :: ids, i, s, index, status, taskCount, hres => by
    have hid := hres id (List.mem_cons_self _ _)
    have hrest : ∀ x ∈ ids, Resolves fuel s x (look x) :=
      fun x hx => hres x (List.mem_cons_of_mem _ hx)
    cases hlook : look id with
    | none =>
      rw [hlook] at hid
      have hfind : findTask fuel s id = some NULL := hid
      obtain ⟨st, h1, h2, h3⟩ := bootLoop_spec fuel dev clock look ids (i + 1) s index status
        (taskCount + 1) hrest
      refine ⟨st, ?_, ?_, h3⟩
      · rw [bootLoop_cons_none _ _ _ _ _ _ _ _ _ _ hfind, h1]
        simp only [bootImage, hlook, List.nil_append, List.length_cons]
        have e : taskCount + 1 + ids.length = taskCount + (ids.length + 1) := by omega
        rw [e]
      · simpa [ReadbackMismatch, hlook] using h2
    | some r =>
      rw [hlook] at hid
      obtain ⟨p, hfind, hp, htask, hctx⟩ := hid
      generalize hrec : bootRecord id r.1 r.2.bindSize (bootStartTime r.1 (clock i % 2 ^ 32))
        = record at *
      have hlen : record.length = 9 + r.1.currLen := by rw [← hrec, bootRecord_length]
      have hrest1 : ∀ x ∈ ids, Resolves fuel (storeBytes dev s index record) x (look x) :=
        fun x hx => (hrest x hx).storeBytes dev index _
      obtain ⟨h1v, h2v⟩ := validateBody_spec (storeBytes dev s index record)
        r.1.data r.1.currLen 0 (index + 9) status
      generalize hv : validateBody (storeBytes dev s index record) r.1.data r.1.currLen 0
        (index + 9) status = v at *
      obtain ⟨st, h1, h2, h3⟩ := bootLoop_spec fuel dev clock look ids (i + 1)
        (storeBytes dev s index record) (index + 9 + r.1.currLen) v (taskCount + 1) hrest1
      have himg : bootImage clock look (id :: ids) i = record ++ bootImage clock look ids (i + 1) := by
        simp only [bootImage, hlook, hrec]
      refine ⟨st, ?_, ?_, ?_⟩
      · rw [bootLoop_cons_some _ _ _ _ _ _ _ _ _ _ p r.1 r.2 hfind hp htask hctx, hrec, hv, h1,
          himg, storeBytes_append, hlen, List.length_append, hlen]
        have e1 : index + 9 + r.1.currLen = index + (9 + r.1.currLen) := by omega
        have e2 : taskCount + 1 + ids.length = taskCount + (id :: ids).length := by
          simp only [List.length_cons]; omega
        have e3 : index + (9 + r.1.currLen) + (bootImage clock look ids (i + 1)).length =
            index + (9 + r.1.currLen + (bootImage clock look ids (i + 1)).length) := by omega
        rw [e1, e2, e3]
      · rw [h2, h1v]
        simp only [ReadbackMismatch, hlook, hrec, hlen, Nat.zero_add, or_assoc]
        have e1 : index + 9 + r.1.currLen = index + (9 + r.1.currLen) := by omega
        rw [e1]
      · rcases h3 with h | h
        · exact Or.inl h
        · rcases h2v with h' | h'
          · exact Or.inl (h.trans h')
          · exact Or.inr (h.trans h')

theorem handleBootTask_spec (fuel : Nat) (dev : EepromDevice) (clock : Nat → Nat)
    (look : Nat → Option (TASK × CONTEXT)) (s : State) (ids : List Nat)
    (hres : ∀ id ∈ ids, Resolves fuel s id (look id)) :
    ∃ st, handleBootTask fuel dev clock s ids =
        some (eepromWrite dev
          (storeBytes dev (storeBytes dev s 0 [72, 65, 83, 75]) 5 (bootImage clock look ids 0))
          4 ids.length, [1, 0, st]) ∧
      (st = 0 ↔ ReadbackMismatch dev clock look ids 0 (storeBytes dev s 0 [72, 65, 83, 75]) 5) ∧
      (st = 0 ∨ st = 1) := by
  have hres1 : ∀ id ∈ ids, Resolves fuel (storeBytes dev s 0 [72, 65, 83, 75]) id (look id) :=
    fun id hid => (hres id hid).storeBytes dev 0 _
  obtain ⟨st, h1, h2, h3⟩ := bootLoop_spec fuel dev clock look ids 0
    (storeBytes dev s 0 [72, 65, 83, 75]) 5 1 0 hres1
  refine ⟨st, ?_, by simpa using h2, h3⟩
  have e : storeBytes dev s 0 [72, 65, 83, 75] =
      eepromWrite dev (eepromWrite dev (eepromWrite dev (eepromWrite dev s 0 72) 1 65) 2 83) 3 75 := rfl
  rw [e] at h1
  simp only [handleBootTask, h1, e]
  simp

/-- C5: for every EEPROM behaviour, provided each id of the list is looked up without
fault, the commit handler returns a reply `[EXPR_BOOL, EXPR_LIT, status]` in which
`status` is 0 exactly when, for some existing task of the list, some body byte read
back after that task's record was written differs from the task's byte, and is 1
otherwise; and the write log is extended by the four magic bytes, then every header and
body byte of every existing task of the list in list order, then the count byte, whatever
the read-back gave. -/
theorem handleBootTask_status_and_writes (fuel : Nat) (dev : EepromDevice) (clock : Nat → Nat)
    (look : Nat → Option (TASK × CONTEXT)) (s : State) (ids : List Nat)
    (hres : ∀ id ∈ ids, Resolves fuel s id (look id)) :
    ∃ s1 status, handleBootTask fuel dev clock s ids = some (s1, [1, 0, status]) ∧
      (status = 0 ↔
        ReadbackMismatch dev clock look ids 0 (storeBytes dev s 0 [72, 65, 83, 75]) 5) ∧
      (status = 0 ∨ status = 1) ∧
      s1.eepromLog = s.eepromLog ++ writesAt 0 [72, 65, 83, 75] ++
        writesAt 5 (bootImage clock look ids 0) ++ [(4, ids.length % 256)] := by
  obtain ⟨st, h1, h2, h3⟩ := handleBootTask_spec fuel dev clock look s ids hres
  refine ⟨_, st, h1, h2, h3, ?_⟩
  simp only [eepromWrite, storeBytes_log]

theorem loadedTwo_resolves :
    ∀ id ∈ [1, 7, 2], Resolves 8 loadedTwo id (lookup 8 loadedTwo id) := by
  intro id hid
  simp only [List.mem_cons, List.mem_singleton, List.not_mem_nil, or_false] at hid
  rcases hid with rfl | rfl | rfl
  · exact ⟨1, rfl, by decide, rfl, rfl⟩
  · show findTask 8 loadedTwo 7 = some NULL
    rfl
  · exact ⟨2, rfl, by decide, rfl, rfl⟩

/-- Witness of C5: tasks 1 and 2 exist, task 7 does not, and EEPROM cell 15 (the second
body byte of task 1) is worn out: the status is 0 and the record of task 2 is written
all the same. -/
theorem handleBootTask_status_and_writes_witness :
    (∀ id ∈ [1, 7, 2], Resolves 8 loadedTwo id (lookup 8 loadedTwo id)) ∧
    (handleBootTask 8 wornEeprom (fun _ => 0) loadedTwo [1, 7, 2]).map Prod.snd
      = some [1, 0, 0] ∧
    ∃ s1 status, handleBootTask 8 wornEeprom (fun _ => 0) loadedTwo [1, 7, 2]
        = some (s1, [1, 0, status]) ∧
      (status = 0 ↔ ReadbackMismatch wornEeprom (fun _ => 0) (lookup 8 loadedTwo) [1, 7, 2] 0
        (storeBytes wornEeprom loadedTwo 0 [72, 65, 83, 75]) 5) ∧
      (status = 0 ∨ status = 1) ∧
      s1.eepromLog = loadedTwo.eepromLog ++ writesAt 0 [72, 65, 83, 75] ++
        writesAt 5 (bootImage (fun _ => 0) (lookup 8 loadedTwo) [1, 7, 2] 0) ++
        [(4, [1, 7, 2].length % 256)] :=
  ⟨loadedTwo_resolves, by decide,
    handleBootTask_status_and_writes 8 wornEeprom (fun _ => 0) (lookup 8 loadedTwo) loadedTwo
      [1, 7, 2] loadedTwo_resolves⟩

theorem bootRecord_map_mod (id : Nat) (task : TASK) (bindSize startTime : Nat) :
    (bootRecord id task bindSize startTime).map (· % 256) = bootRecord id task bindSize startTime := by
  simp [bootRecord, le16, le32, Function.comp_def]

theorem bootImage_map_mod (clock : Nat → Nat) (look : Nat → Option (TASK × CONTEXT)) :
    ∀ (ids : List Nat) (i : Nat),
      (bootImage clock look ids i).map (· % 256) = bootImage clock look ids i
  | [], i => by simp [bootImage]
  | id :: ids, i => by
    simp only [bootImage, List.map_append, bootImage_map_mod clock look ids (i + 1)]
    cases look id with
    | none => simp
    | some r => simp only [bootRecord_map_mod]

theorem handleBootTask_ideal_eeprom (fuel : Nat) (clock : Nat → Nat)
    (look : Nat → Option (TASK × CONTEXT)) (s : State) (ids : List Nat)
    (hres : ∀ id ∈ ids, Resolves fuel s id (look id)) :
    ∃ s1 reply, handleBootTask fuel idealEeprom clock s ids = some (s1, reply) ∧
      s1.eeprom = Function.update
        (overlay (overlay s.eeprom 0 [72, 65, 83, 75]) 5 (bootImage clock look ids 0)) 4
        (ids.length % 256) ∧
      s1.tasks = s.tasks ∧ s1.contexts = s.contexts ∧ s1.firstTask = s.firstTask ∧
      s1.taskCount = s.taskCount := by
  obtain ⟨st, h1, -, -⟩ := handleBootTask_spec fuel idealEeprom clock look s ids hres
  refine ⟨_, _, h1, ?_, ?_⟩
  · simp only [eepromWrite, storeBytes_ideal, bootImage_map_mod]
    rfl
  · obtain ⟨a1, a2, a3, a4, -⟩ := storeBytes_frame idealEeprom [72, 65, 83, 75] s 0
    obtain ⟨b1, b2, b3, b4, -⟩ := storeBytes_frame idealEeprom (bootImage clock look ids 0)
      (storeBytes idealEeprom s 0 [72, 65, 83, 75]) 5
    simp only [eepromWrite, b1, b2, b3, b4, a1, a2, a3, a4, and_self]

theorem committed_read_image (cells : Nat → Nat) (image : List Nat) (count x : Nat)
    (hx : x < image.length) :
    Function.update (overlay (overlay cells 0 [72, 65, 83, 75]) 5 image) 4 count (5 + x)
      = image.getD x 0 := by
  have h1 : 5 + x ≠ 4 := by omega
  have h2 : 5 ≤ 5 + x ∧ 5 + x < 5 + image.length := by omega
  simp [Function.update, h1, overlay, h2]

/-- C4: with an EEPROM that stores what is written and an id list of existing tasks, the
commit handler returns, the cells 0..3 hold 'H', 'A', 'S', 'K' (72, 65, 83, 75), and
the cells from offset 5 on hold the records of the tasks one after the other in list
order (`bootImage`); each record is the id byte, the length and the binding count as two
little-endian bytes each, the scheduled offset as four little-endian bytes and the first
`currLen` bytes of the task, 9 + `currLen` bytes in all. -/
theorem handleBootTask_record_layout (fuel : Nat) (clock : Nat → Nat)
    (look : Nat → Option (TASK × CONTEXT)) (s : State) (ids : List Nat)
    (hres : ∀ id ∈ ids, ∃ r, look id = some r ∧ Resolves fuel s id (some r)) :
    ∃ s1 reply, handleBootTask fuel idealEeprom clock s ids = some (s1, reply) ∧
      (List.range 4).map s1.eeprom = [72, 65, 83, 75] ∧
      (∀ x, x < (bootImage clock look ids 0).length →
        s1.eeprom (5 + x) = (bootImage clock look ids 0).getD x 0) ∧
      (∀ id ∈ ids, ∀ r, look id = some r → ∀ startTime,
        bootRecord id r.1 r.2.bindSize startTime =
          [id % 256, r.1.currLen % 256, r.1.currLen / 256 % 256, r.2.bindSize % 256,
            r.2.bindSize / 256 % 256, startTime % 256, startTime / 256 % 256,
            startTime / 65536 % 256, startTime / 16777216 % 256] ++
          (List.range r.1.currLen).map (fun i => r.1.data i % 256) ∧
        (bootRecord id r.1 r.2.bindSize startTime).length = 9 + r.1.currLen) := by
  have hres1 : ∀ id ∈ ids, Resolves fuel s id (look id) := by
    intro id hid
    obtain ⟨r, hr, h⟩ := hres id hid
    rw [hr]
    exact h
  obtain ⟨s1, reply, h1, h2, -⟩ := handleBootTask_ideal_eeprom fuel clock look s ids hres1
  refine ⟨s1, reply, h1, ?_, ?_, ?_⟩
  · rw [h2]
    simp [List.range, List.range.loop, Function.update, overlay]
  · intro x hx
    rw [h2]
    exact committed_read_image _ _ _ _ hx
  · intro id _ r _ startTime
    exact ⟨by simp [bootRecord, le16, le32], bootRecord_length _ _ _ _⟩

theorem loadedTwo_existing :
    ∀ id ∈ [1, 2], ∃ r, lookup 8 loadedTwo id = some r ∧ Resolves 8 loadedTwo id (some r) := by
  intro id hid
  simp only [List.mem_cons, List.mem_singleton, List.not_mem_nil, or_false] at hid
  rcases hid with rfl | rfl
  · exact ⟨(taskOne, ctxOne), rfl, 1, rfl, by decide, rfl, rfl⟩
  · exact ⟨(taskTwo, ctxTwo), rfl, 2, rfl, by decide, rfl, rfl⟩

/-- Witness of C4: the id list `[1, 2]` on the registry holding tasks 1 and 2. -/
theorem handleBootTask_record_layout_witness :
    (∀ id ∈ [1, 2], ∃ r, lookup 8 loadedTwo id = some r ∧ Resolves 8 loadedTwo id (some r)) ∧
    ∃ s1 reply, handleBootTask 8 idealEeprom (fun _ => 1000) loadedTwo [1, 2] = some (s1, reply) ∧
      (List.range 4).map s1.eeprom = [72, 65, 83, 75] ∧
      (∀ x, x < (bootImage (fun _ => 1000) (lookup 8 loadedTwo) [1, 2] 0).length →
        s1.eeprom (5 + x) = (bootImage (fun _ => 1000) (lookup 8 loadedTwo) [1, 2] 0).getD x 0) ∧
      (∀ id ∈ [1, 2], ∀ r, lookup 8 loadedTwo id = some r → ∀ startTime,
        bootRecord id r.1 r.2.bindSize startTime =
          [id % 256, r.1.currLen % 256, r.1.currLen / 256 % 256, r.2.bindSize % 256,
            r.2.bindSize / 256 % 256, startTime % 256, startTime / 256 % 256,
            startTime / 65536 % 256, startTime / 16777216 % 256] ++
          (List.range r.1.currLen).map (fun i => r.1.data i % 256) ∧
        (bootRecord id r.1 r.2.bindSize startTime).length = 9 + r.1.currLen) :=
  ⟨loadedTwo_existing,
    handleBootTask_record_layout 8 (fun _ => 1000) (lookup 8 loadedTwo) loadedTwo [1, 2]
      loadedTwo_existing⟩

/-! ### Reading the boot record back -/

theorem copyBody_spec (s : State) :
    ∀ (n i index : Nat) (data : Nat → Nat) (j : Nat),
      copyBody s n i index data j =
        if i ≤ j ∧ j < i + n then eepromRead s (index + (j - i)) else data j
  | 0, i, index, data, j => by
    have h : ¬ (i ≤ j ∧ j < i) := by omega
    simp [copyBody, h]
  | n + 1, i, index, data, j => by
    simp only [copyBody]
    rw [copyBody_spec s n (i + 1) (index + 1)]
    by_cases h1 : i + 1 ≤ j ∧ j < i + 1 + n
    · have h2 : i ≤ j ∧ j < i + (n + 1) := by omega
      have e : index + 1 + (j - (i + 1)) = index + (j - i) := by omega
      simp [h1, h2, e]
    · by_cases h3 : j = i
      · subst h3
        simp
      · have h2 : ¬ (i ≤ j ∧ j < i + (n + 1)) := by omega
        simp [h1, h2, Function.update, h3]

theorem copyBody_congr (s1 s2 : State) (h : s1.eeprom = s2.eeprom) :
    ∀ (n i index : Nat) (data : Nat → Nat), copyBody s1 n i index data = copyBody s2 n i index data
  | 0, _, _, _ => rfl
  | n + 1, i, index, data => by
    simp only [copyBody, eepromRead, h]
    exact copyBody_congr s1 s2 h n (i + 1) (index + 1) _

theorem createById_new (fuel : Nat) (s : State) (id taskSize bindSize : Nat) (a : Alloc)
    (hfind : findTask fuel s id = some NULL) (h1 : a.newTask ≠ NULL)
    (h2 : a.newContext ≠ NULL) (h3 : a.bind ≠ NULL) :
    createById fuel s id taskSize bindSize a =
      some { s with
        tasks := Function.update s.tasks a.newTask
          (some { next := s.firstTask, prev := NULL, context := a.newContext, id := id,
                  size := taskSize, currLen := 0, currPos := 0, millis := a.junkMillis,
                  ready := false, rescheduled := false, data := a.junkData })
        contexts := Function.update s.contexts a.newContext
          (some { task := a.newTask, currBlockLevel := -1, recallBlockLevel := -1,
                  bindSize := bindSize, bind := a.bind })
        firstTask := a.newTask
        taskCount := s.taskCount + 1 } := by
  simp [createById, hfind, h1, h2, h3]

theorem findTask_head (k : Nat) (s : State) (id : Nat) (p : Ptr) (t : TASK)
    (hp : s.firstTask = p) (h0 : p ≠ NULL) (ht : s.tasks p = some t) (hid : t.id = id) :
    findTask (k + 1) s id = some p := by
  simp [findTask, findTaskFrom, hp, h0, ht, hid]

theorem scheduleById_found (fuel : Nat) (s : State) (id deltaMillis now : Nat) (p : Ptr)
    (t : TASK) (hfind : findTask fuel s id = some p) (h0 : p ≠ NULL)
    (ht : s.tasks p = some t) :
    scheduleById fuel s id deltaMillis now =
      some { s with
        tasks := Function.update s.tasks p
          (some { t with millis := (now + deltaMillis) % 2 ^ 32, ready := true }) } := by
  simp only [scheduleById, hfind, h0, ne_eq, not_false_eq_true, if_true, ht]

theorem bootRestoreLoop_step (k : Nat) (allocs : Nat → Alloc) (clock : Nat → Nat)
    (n t index : Nat) (s : State)
    (hfind : findTask (k + 1) s (eepromRead s index) = some NULL)
    (h1 : (allocs t).newTask ≠ NULL) (h2 : (allocs t).newContext ≠ NULL)
    (h3 : (allocs t).bind ≠ NULL) :
    bootRestoreLoop (k + 1) allocs clock (n + 1) t index s =
      bootRestoreLoop (k + 1) allocs clock n (t + 1) (index + 9 + recordSize s index)
        (restoreOne s (allocs t) index (clock t % 2 ^ 32)) := by
  have e1 := createById_new (k + 1) s (eepromRead s index)
    (eepromRead s (index + 1) + eepromRead s (index + 2) * 256)
    (eepromRead s (index + 3) + eepromRead s (index + 4) * 256) (allocs t) hfind h1 h2 h3
  obtain ⟨T1, hT1⟩ : ∃ T1 : TASK, T1 =
      { next := s.firstTask
        prev := NULL
        context := (allocs t).newContext
        id := eepromRead s index
        size := eepromRead s (index + 1) + eepromRead s (index + 2) * 256
        currLen := 0
        currPos := 0
        millis := (allocs t).junkMillis
        ready := false
        rescheduled := false
        data := (allocs t).junkData } := ⟨_, rfl⟩
  rw [← hT1] at e1
  obtain ⟨S1, hS1⟩ : ∃ S1 : State, S1 =
      { s with
        tasks := Function.update s.tasks (allocs t).newTask (some T1)
        contexts := Function.update s.contexts (allocs t).newContext
          (some { task := (allocs t).newTask, currBlockLevel := -1, recallBlockLevel := -1,
                  bindSize := eepromRead s (index + 3) + eepromRead s (index + 4) * 256,
                  bind := (allocs t).bind })
        firstTask := (allocs t).newTask
        taskCount := s.taskCount + 1 } := ⟨_, rfl⟩
  rw [← hS1] at e1
  have f1 : S1.firstTask = (allocs t).newTask := by rw [hS1]
  have f2 : S1.tasks (allocs t).newTask = some T1 := by rw [hS1]; simp
  have f3 : T1.id = eepromRead s index := by rw [hT1]
  have e2 := findTask_head k S1 (eepromRead s index) (allocs t).newTask T1 f1 h1 f2 f3
  obtain ⟨T2, hT2⟩ : ∃ T2 : TASK, T2 =
      { T1 with
        data := copyBody S1 (eepromRead s (index + 1) + eepromRead s (index + 2) * 256) 0
          (index + 9) T1.data
        currLen := eepromRead s (index + 1) + eepromRead s (index + 2) * 256 } := ⟨_, rfl⟩
  obtain ⟨S2, hS2⟩ : ∃ S2 : State, S2 =
      { S1 with tasks := Function.update S1.tasks (allocs t).newTask (some T2) } := ⟨_, rfl⟩
  have g1 : S2.firstTask = (allocs t).newTask := by rw [hS2]; exact f1
  have g2 : S2.tasks (allocs t).newTask = some T2 := by rw [hS2]; simp
  have g3 : T2.id = eepromRead s index := by rw [hT2]; exact f3
  have e3 := findTask_head k S2 (eepromRead s index) (allocs t).newTask T2 g1 h1 g2 g3
  have e4 := scheduleById_found (k + 1) S2 (eepromRead s index)
    (eepromRead s (index + 5) + eepromRead s (index + 6) * 256
      + eepromRead s (index + 7) * 65536 + eepromRead s (index + 8) * 16777216)
    (clock t % 2 ^ 32) (allocs t).newTask T2 e3 h1 g2
  rw [bootRestoreLoop]
  simp only [e1, e2, h1, if_false, f2, ← hT2, ← hS2, e4]
  congr 1
  have hcb := copyBody_congr S1 s (by rw [hS1])
  rw [hS2, hT2, hcb, hS1, hT1]
  simp only [restoreOne, restoredTask, recordSize, recordMillis, Function.update_idem]

theorem HoldsAt.left {cells : Nat → Nat} {index : Nat} {l1 l2 : List Nat}
    (h : HoldsAt cells index (l1 ++ l2)) : HoldsAt cells index l1 := by
  intro x hx
  rw [h x (by rw [List.length_append]; omega), List.getD_append _ _ _ _ hx]

theorem HoldsAt.right {cells : Nat → Nat} {index : Nat} {l1 l2 : List Nat}
    (h : HoldsAt cells index (l1 ++ l2)) : HoldsAt cells (index + l1.length) l2 := by
  intro x hx
  have e : index + l1.length + x = index + (l1.length + x) := by omega
  rw [e, h (l1.length + x) (by rw [List.length_append]; omega),
    List.getD_append_right _ _ _ _ (by omega)]
  simp

theorem bootRecord_split (id : Nat) (task : TASK) (bindSize startTime : Nat) :
    bootRecord id task bindSize startTime =
      [id % 256, task.currLen % 256, task.currLen / 256 % 256, bindSize % 256,
        bindSize / 256 % 256, startTime % 256, startTime / 256 % 256,
        startTime / 65536 % 256, startTime / 16777216 % 256] ++
      (List.range task.currLen).map (fun i => task.data i % 256) := by
  simp [bootRecord, le16, le32]

theorem HoldsAt.record {s : State} {index id : Nat} {task : TASK} {bindSize startTime : Nat}
    (h : HoldsAt s.eeprom index (bootRecord id task bindSize startTime))
    (hid : id < 256) (hlen : task.currLen < 65536) (hst : startTime < 2 ^ 32) :
    eepromRead s index = id ∧ recordSize s index = task.currLen ∧
      recordMillis s index = startTime ∧
      eepromRead s (index + 3) + eepromRead s (index + 4) * 256 = bindSize % 65536 ∧
      ∀ j, j < task.currLen → eepromRead s (index + 9 + j) = task.data j % 256 := by
  rw [bootRecord_split] at h
  have hh := h.left
  have hb := h.right
  have c0 : s.eeprom (index + 0) = id % 256 := hh 0 (by simp)
  have c1 : s.eeprom (index + 1) = task.currLen % 256 := hh 1 (by simp)
  have c2 : s.eeprom (index + 2) = task.currLen / 256 % 256 := hh 2 (by simp)
  have c3 : s.eeprom (index + 3) = bindSize % 256 := hh 3 (by simp)
  have c4 : s.eeprom (index + 4) = bindSize / 256 % 256 := hh 4 (by simp)
  have c5 : s.eeprom (index + 5) = startTime % 256 := hh 5 (by simp)
  have c6 : s.eeprom (index + 6) = startTime / 256 % 256 := hh 6 (by simp)
  have c7 : s.eeprom (index + 7) = startTime / 65536 % 256 := hh 7 (by simp)
  have c8 : s.eeprom (index + 8) = startTime / 16777216 % 256 := hh 8 (by simp)
  simp only [Nat.add_zero] at c0
  refine ⟨?_, ?_, ?_, ?_, ?_⟩
  · simp only [eepromRead, c0]
    omega
  · simp only [recordSize, eepromRead, c1, c2]
    omega
  · simp only [recordMillis, eepromRead, c5, c6, c7, c8]
    norm_num at hst
    omega
  · simp only [eepromRead, c3, c4]
    omega
  · intro j hj
    have := hb j (by simpa using hj)
    simp only [List.length_cons, List.length_nil] at this
    simp only [eepromRead, this]
    rw [List.getD_eq_getElem _ _ (by simpa using hj)]
    simp

theorem findTaskFrom_id (tasks : Ptr → Option TASK) (id : Nat) :
    ∀ (fuel : Nat) (q p : Ptr) (t : TASK), findTaskFrom tasks id fuel q = some p → p ≠ NULL →
      tasks p = some t → t.id = id
  | 0, q, p, t, h, _, _ => by simp [findTaskFrom] at h
  | fuel + 1, q, p, t, h, hp, ht => by
    rw [findTaskFrom] at h
    by_cases hq : q = NULL
    · simp only [hq, if_true, Option.some.injEq] at h
      exact absurd h.symm hp
    · simp only [hq, if_false] at h
      cases hq' : tasks q with
      | none => simp [hq'] at h
      | some tq =>
        simp only [hq'] at h
        by_cases hid : id = tq.id
        · simp only [hid, if_true, Option.some.injEq] at h
          subst h
          rw [hq'] at ht
          cases ht
          exact hid.symm
        · simp only [hid, if_false] at h
          exact findTaskFrom_id tasks id fuel tq.next p t h hp ht

theorem Resolves.id {fuel : Nat} {s : State} {id : Nat} {r : TASK × CONTEXT}
    (h : Resolves fuel s id (some r)) : r.1.id = id := by
  obtain ⟨p, hfind, hp, ht, -⟩ := h
  exact findTaskFrom_id s.tasks id fuel s.firstTask p r.1 hfind hp ht

theorem bootStartTime_lt (task : TASK) (now : Nat) : bootStartTime task (now % 2 ^ 32) < 2 ^ 32 := by
  unfold bootStartTime
  split
  · norm_num
  · exact Nat.mod_lt _ (by norm_num)

theorem isDue_of_offset_zero (now : Nat) : isDue (now % 2 ^ 32) ((now % 2 ^ 32 + 0) % 2 ^ 32) = true := by
  simp only [isDue, Nat.add_zero, Nat.mod_mod, decide_eq_true_eq]
  have h : now % 2 ^ 32 < 2 ^ 32 := Nat.mod_lt _ (by norm_num)
  norm_num at h ⊢

/-! ### Commit followed by restore -/

theorem findTask_empty (k : Nat) (s : State) (id : Nat) (h : s.firstTask = NULL) :
    findTask (k + 1) s id = some NULL := by
  simp [findTask, findTaskFrom, h]

theorem restoreOne_frame (s : State) (a : Alloc) (index now : Nat) :
    (restoreOne s a index now).eeprom = s.eeprom ∧
    (restoreOne s a index now).firstTask = a.newTask ∧
    (restoreOne s a index now).tasks = Function.update s.tasks a.newTask
      (some (restoredTask s a index now)) := ⟨rfl, rfl, rfl⟩

/-- C1: boot commit and restore round trip.  Tasks with distinct ids `A` and `B` are in
the registry; the EEPROM stores what is written; both allocations of the restore succeed
with distinct task blocks.  Then `handleBootTask` on `[A, B]` returns, and
`schedulerBootTask` on an empty registry with the committed EEPROM returns a state in
which `findTask A` and `findTask B` succeed, each restored task has the id, the length
and the first `currLen` body bytes of the committed task, is ready, has wake time
restore clock + persisted offset (mod 2^32), and is due at the restore clock when the
persisted offset is 0. -/
theorem boot_commit_restore_round_trip (fuel k : Nat) (clock clock2 : Nat → Nat)
    (allocs : Nat → Alloc) (s s0 : State) (A B : Nat) (rA rB : TASK × CONTEXT)
    (hA : Resolves fuel s A (some rA)) (hB : Resolves fuel s B (some rB))
    (hAB : A ≠ B) (hA8 : A < 256) (hB8 : B < 256)
    (hlenA : rA.1.currLen < 65536) (hlenB : rB.1.currLen < 65536)
    (ha0 : (allocs 0).newTask ≠ NULL ∧ (allocs 0).newContext ≠ NULL ∧ (allocs 0).bind ≠ NULL)
    (ha1 : (allocs 1).newTask ≠ NULL ∧ (allocs 1).newContext ≠ NULL ∧ (allocs 1).bind ≠ NULL)
    (hfresh : (allocs 1).newTask ≠ (allocs 0).newTask)
    (hempty : s0.firstTask = NULL) :
    ∃ s1 reply s2, handleBootTask fuel idealEeprom clock s [A, B] = some (s1, reply) ∧
      schedulerBootTask (k + 2) allocs clock2 { s0 with eeprom := s1.eeprom } = some s2 ∧
      ∃ pA pB tA tB,
        findTask (k + 2) s2 A = some pA ∧ pA ≠ NULL ∧ s2.tasks pA = some tA ∧
        findTask (k + 2) s2 B = some pB ∧ pB ≠ NULL ∧ s2.tasks pB = some tB ∧
        tA.id = rA.1.id ∧ tA.currLen = rA.1.currLen ∧
        (∀ j, j < rA.1.currLen → tA.data j = rA.1.data j % 256) ∧
        tA.ready = true ∧
        tA.millis = (clock2 0 % 2 ^ 32 + bootStartTime rA.1 (clock 0 % 2 ^ 32)) % 2 ^ 32 ∧
        (bootStartTime rA.1 (clock 0 % 2 ^ 32) = 0 → isDue (clock2 0 % 2 ^ 32) tA.millis = true) ∧
        tB.id = rB.1.id ∧ tB.currLen = rB.1.currLen ∧
        (∀ j, j < rB.1.currLen → tB.data j = rB.1.data j % 256) ∧
        tB.ready = true ∧
        tB.millis = (clock2 1 % 2 ^ 32 + bootStartTime rB.1 (clock 1 % 2 ^ 32)) % 2 ^ 32 ∧
        (bootStartTime rB.1 (clock 1 % 2 ^ 32) = 0 → isDue (clock2 1 % 2 ^ 32) tB.millis = true) := by
  -- the commit
  obtain ⟨look, hlook⟩ : ∃ look : Nat → Option (TASK × CONTEXT),
      look = fun id => if id = A then some rA else some rB := ⟨_, rfl⟩
  have hlA : look A = some rA := by rw [hlook]; simp
  have hlB : look B = some rB := by rw [hlook]; simp [Ne.symm hAB]
  have hres : ∀ id ∈ [A, B], Resolves fuel s id (look id) := by
    intro id hid
    simp only [List.mem_cons, List.mem_singleton, List.not_mem_nil, or_false] at hid
    rcases hid with rfl | rfl
    · rw [hlA]; exact hA
    · rw [hlB]; exact hB
  obtain ⟨s1, reply, hcommit, he, -⟩ := handleBootTask_ideal_eeprom fuel clock look s [A, B] hres
  obtain ⟨recA, hrecA⟩ : ∃ recA, recA =
      bootRecord A rA.1 rA.2.bindSize (bootStartTime rA.1 (clock 0 % 2 ^ 32)) := ⟨_, rfl⟩
  obtain ⟨recB, hrecB⟩ : ∃ recB, recB =
      bootRecord B rB.1 rB.2.bindSize (bootStartTime rB.1 (clock 1 % 2 ^ 32)) := ⟨_, rfl⟩
  have himg : bootImage clock look [A, B] 0 = recA ++ (recB ++ []) := by
    simp only [bootImage, hlA, hlB, hrecA, hrecB]
  rw [himg] at he
  have hlenRA : recA.length = 9 + rA.1.currLen := by rw [hrecA, bootRecord_length]
  -- the EEPROM at restart
  obtain ⟨r0, hr0⟩ : ∃ r0 : State, r0 = { s0 with eeprom := s1.eeprom } := ⟨_, rfl⟩
  have hr0e : r0.eeprom = s1.eeprom := by rw [hr0]
  have hr0f : r0.firstTask = NULL := by rw [hr0]; exact hempty
  have hall : HoldsAt r0.eeprom 5 (recA ++ (recB ++ [])) := by
    intro x hx
    rw [hr0e, he]
    exact committed_read_image _ _ _ _ hx
  have hatA : HoldsAt r0.eeprom 5 recA := hall.left
  have hatB : HoldsAt r0.eeprom (5 + recA.length) recB := hall.right.left
  rw [hrecA] at hatA
  rw [hrecB, hlenRA] at hatB
  obtain ⟨a1, a2, a3, -, a5⟩ := hatA.record hA8 hlenA (bootStartTime_lt _ _)
  obtain ⟨b1, b2, b3, -, b5⟩ := hatB.record hB8 hlenB (bootStartTime_lt _ _)
  have hm0 : eepromRead r0 0 = 72 := by
    simp [eepromRead, hr0e, he, Function.update, overlay]
  have hm1 : eepromRead r0 1 = 65 := by
    simp [eepromRead, hr0e, he, Function.update, overlay]
  have hm2 : eepromRead r0 2 = 83 := by
    simp [eepromRead, hr0e, he, Function.update, overlay]
  have hm3 : eepromRead r0 3 = 75 := by
    simp [eepromRead, hr0e, he, Function.update, overlay]
  have hm4 : eepromRead r0 4 = 2 := by
    simp [eepromRead, hr0e, he, Function.update]
  -- first record
  obtain ⟨r1, hr1⟩ : ∃ r1, r1 = restoreOne r0 (allocs 0) 5 (clock2 0 % 2 ^ 32) := ⟨_, rfl⟩
  have hstep1 := bootRestoreLoop_step (k + 1) allocs clock2 1 0 5 r0
    (findTask_empty (k + 1) r0 _ hr0f) ha0.1 ha0.2.1 ha0.2.2
  rw [a2, ← hr1] at hstep1
  obtain ⟨f1e, f1f, f1t⟩ := restoreOne_frame r0 (allocs 0) 5 (clock2 0 % 2 ^ 32)
  rw [← hr1] at f1e f1f f1t
  have hread1 : ∀ x, eepromRead r1 x = eepromRead r0 x := fun x => by simp [eepromRead, f1e]
  have hsz1 : ∀ x, recordSize r1 x = recordSize r0 x := fun x => by simp [recordSize, hread1]
  have hfindB : findTask (k + 1 + 1) r1 (eepromRead r1 (5 + 9 + rA.1.currLen)) = some NULL := by
    have e : 5 + 9 + rA.1.currLen = 5 + (9 + rA.1.currLen) := by omega
    rw [hread1, e, b1]
    simp [findTask, findTaskFrom, f1f, f1t, ha0.1, restoredTask, a1, hr0f, Ne.symm hAB]
  obtain ⟨r2, hr2⟩ : ∃ r2, r2 =
      restoreOne r1 (allocs 1) (5 + 9 + rA.1.currLen) (clock2 1 % 2 ^ 32) := ⟨_, rfl⟩
  have hstep2 := bootRestoreLoop_step (k + 1) allocs clock2 0 1 (5 + 9 + rA.1.currLen) r1
    hfindB ha1.1 ha1.2.1 ha1.2.2
  rw [← hr2] at hstep2
  obtain ⟨f2e, f2f, f2t⟩ := restoreOne_frame r1 (allocs 1) (5 + 9 + rA.1.currLen)
    (clock2 1 % 2 ^ 32)
  rw [← hr2] at f2e f2f f2t
  have hboot : schedulerBootTask (k + 2) allocs clock2 r0 = some r2 := by
    have hc : eepromRead r0 0 = 72 ∧ eepromRead r0 1 = 65 ∧ eepromRead r0 2 = 83 ∧
        eepromRead r0 3 = 75 := ⟨hm0, hm1, hm2, hm3⟩
    rw [schedulerBootTask, if_pos hc, hm4]
    show bootRestoreLoop (k + 1 + 1) allocs clock2 (1 + 1) 0 5 r0 = some r2
    rw [hstep1]
    show bootRestoreLoop (k + 1 + 1) allocs clock2 (0 + 1) 1 (5 + 9 + rA.1.currLen) r1 = some r2
    rw [hstep2]
    rfl
  obtain ⟨tA, htA⟩ : ∃ tA, tA = restoredTask r0 (allocs 0) 5 (clock2 0 % 2 ^ 32) := ⟨_, rfl⟩
  obtain ⟨tB, htB⟩ : ∃ tB, tB =
      restoredTask r1 (allocs 1) (5 + 9 + rA.1.currLen) (clock2 1 % 2 ^ 32) := ⟨_, rfl⟩
  rw [← htA] at f1t
  rw [← htB] at f2t
  have eB : 5 + 9 + rA.1.currLen = 5 + (9 + rA.1.currLen) := by omega
  have idA : tA.id = A := by rw [htA]; exact a1
  have idB : tB.id = B := by
    rw [htB]
    show eepromRead r1 (5 + 9 + rA.1.currLen) = B
    rw [hread1, eB, b1]
  have nextB : tB.next = (allocs 0).newTask := by rw [htB]; exact f1f
  have tasksA : r2.tasks (allocs 0).newTask = some tA := by
    rw [f2t, f1t]
    simp [Function.update, Ne.symm hfresh]
  have tasksB : r2.tasks (allocs 1).newTask = some tB := by
    rw [f2t]
    simp
  have findA : findTask (k + 2) r2 A = some (allocs 0).newTask := by
    simp [findTask, findTaskFrom, f2f, ha1.1, tasksB, idB, hAB, nextB, ha0.1, tasksA, idA]
  have findB : findTask (k + 2) r2 B = some (allocs 1).newTask := by
    simp [findTask, findTaskFrom, f2f, ha1.1, tasksB, idB]
  refine ⟨s1, reply, r2, hcommit, ?_, (allocs 0).newTask, (allocs 1).newTask, tA, tB, findA,
    ha0.1, tasksA, findB, ha1.1, tasksB, ?_, ?_, ?_, ?_, ?_, ?_, ?_, ?_, ?_, ?_, ?_, ?_⟩
  · rw [← hr0]; exact hboot
  · rw [idA, hA.id]
  · rw [htA]; exact a2
  · intro j hj
    rw [htA]
    show copyBody r0 (recordSize r0 5) 0 (5 + 9) (allocs 0).junkData j = _
    rw [copyBody_spec, a2]
    simp only [Nat.zero_le, Nat.zero_add, hj, and_self, if_true, Nat.sub_zero]
    exact a5 j hj
  · rw [htA]; rfl
  · rw [htA]
    show (clock2 0 % 2 ^ 32 + recordMillis r0 5) % 2 ^ 32 = _
    rw [a3]
  · intro h0
    rw [htA]
    show isDue _ ((clock2 0 % 2 ^ 32 + recordMillis r0 5) % 2 ^ 32) = true
    rw [a3, h0]
    exact isDue_of_offset_zero _
  · rw [idB, hB.id]
  · rw [htB]
    show recordSize r1 (5 + 9 + rA.1.currLen) = _
    rw [hsz1, eB, b2]
  · intro j hj
    rw [htB]
    show copyBody r1 (recordSize r1 (5 + 9 + rA.1.currLen)) 0 (5 + 9 + rA.1.currLen + 9)
      (allocs 1).junkData j = _
    rw [copyBody_spec, hsz1, eB, b2]
    simp only [Nat.zero_le, Nat.zero_add, hj, and_self, if_true, Nat.sub_zero]
    rw [hread1]
    exact b5 j hj
  · rw [htB]; rfl
  · rw [htB]
    show (clock2 1 % 2 ^ 32 + recordMillis r1 (5 + 9 + rA.1.currLen)) % 2 ^ 32 = _
    have hm : recordMillis r1 (5 + 9 + rA.1.currLen) = recordMillis r0 (5 + 9 + rA.1.currLen) := by
      simp [recordMillis, hread1]
    rw [hm, eB, b3]
  · intro h0
    rw [htB]
    show isDue _ ((clock2 1 % 2 ^ 32 + recordMillis r1 (5 + 9 + rA.1.currLen)) % 2 ^ 32) = true
    have hm : recordMillis r1 (5 + 9 + rA.1.currLen) = recordMillis r0 (5 + 9 + rA.1.currLen) := by
      simp [recordMillis, hread1]
    rw [hm, eB, b3, h0]
    exact isDue_of_offset_zero _

/-- Witness of C1: tasks 1 and 2 of `loadedTwo`, committed at clock 1000 and restored at
clock 77 into the power-up registry with blocks 3 and 4. -/
theorem boot_commit_restore_round_trip_witness :
    Resolves 8 loadedTwo 1 (some (taskOne, ctxOne)) ∧
    Resolves 8 loadedTwo 2 (some (taskTwo, ctxTwo)) ∧
    ∃ s1 reply s2,
      handleBootTask 8 idealEeprom (fun _ => 1000) loadedTwo [1, 2] = some (s1, reply) ∧
      schedulerBootTask (6 + 2) (fun t => Alloc.ok (t + 3)) (fun _ => 77)
        { blank with eeprom := s1.eeprom } = some s2 ∧
      ∃ pA pB tA tB,
        findTask (6 + 2) s2 1 = some pA ∧ pA ≠ NULL ∧ s2.tasks pA = some tA ∧
        findTask (6 + 2) s2 2 = some pB ∧ pB ≠ NULL ∧ s2.tasks pB = some tB ∧
        tA.id = taskOne.id ∧ tA.currLen = taskOne.currLen ∧
        (∀ j, j < taskOne.currLen → tA.data j = taskOne.data j % 256) ∧
        tA.ready = true ∧
        tA.millis = (77 % 2 ^ 32 + bootStartTime taskOne (1000 % 2 ^ 32)) % 2 ^ 32 ∧
        (bootStartTime taskOne (1000 % 2 ^ 32) = 0 → isDue (77 % 2 ^ 32) tA.millis = true) ∧
        tB.id = taskTwo.id ∧ tB.currLen = taskTwo.currLen ∧
        (∀ j, j < taskTwo.currLen → tB.data j = taskTwo.data j % 256) ∧
        tB.ready = true ∧
        tB.millis = (77 % 2 ^ 32 + bootStartTime taskTwo (1000 % 2 ^ 32)) % 2 ^ 32 ∧
        (bootStartTime taskTwo (1000 % 2 ^ 32) = 0 → isDue (77 % 2 ^ 32) tB.millis = true) :=
  ⟨⟨1, rfl, by decide, rfl, rfl⟩, ⟨2, rfl, by decide, rfl, rfl⟩,
    boot_commit_restore_round_trip 8 6 (fun _ => 1000) (fun _ => 77) (fun t => Alloc.ok (t + 3))
      loadedTwo blank 1 2 (taskOne, ctxOne) (taskTwo, ctxTwo)
      ⟨1, rfl, by decide, rfl, rfl⟩ ⟨2, rfl, by decide, rfl, rfl⟩ (by decide) (by decide)
      (by decide) (by decide) (by decide) (by decide) (by decide) (by decide) rfl⟩

/-! ### Interrupt bindings and semaphore waiters -/

theorem TaskChain.update {tasks : Ptr → Option TASK} {l : List Ptr} {first p : Ptr} {t t1 : TASK}
    (h : TaskChain tasks first l) (ht : tasks p = some t) (hn : t1.next = t.next)
    (hp : t1.prev = t.prev) : TaskChain (Function.update tasks p (some t1)) first l := by
  refine TaskChain.congr h (fun q hq => ?_)
  obtain ⟨tq, htq⟩ := TaskChain.alloc h q hq
  by_cases e : q = p
  · subst e
    rw [ht] at htq
    cases htq
    exact ⟨t, t1, ht, by simp, hn, hp⟩
  · exact ⟨tq, tq, htq, by simp [Function.update, e, htq], rfl, rfl⟩

theorem TaskChain.find_mem {tasks : Ptr → Option TASK} (id : Nat) :
    ∀ {l : List Ptr} {first : Ptr} (fuel : Nat) (p : Ptr), TaskChain tasks first l →
      findTaskFrom tasks id fuel first = some p → p ≠ NULL → p ∈ l
  | _, _, 0, p, _, h, _ => by simp [findTaskFrom] at h
  | [], first, fuel + 1, p, hc, h, hp => by
    have h0 : first = NULL := hc
    simp only [findTaskFrom, h0, if_true, Option.some.injEq] at h
    exact absurd h.symm hp
  | q :: l, first, fuel + 1, p, hc, h, hp => by
    obtain ⟨hq, hq0, -, t, ht, -, hrest⟩ := hc
    subst hq
    simp only [findTaskFrom, hq0, if_false, ht] at h
    by_cases hid : id = t.id
    · simp only [hid, if_true, Option.some.injEq] at h
      simp [h]
    · simp only [hid, if_false] at h
      exact List.mem_cons_of_mem _ (TaskChain.find_mem id fuel p hrest h hp)

theorem LiveInv.create {fuel : Nat} {s s1 : State} {l : List Ptr} {id taskSize bindSize : Nat}
    {a : Alloc} (h : LiveInv s l) (hfresh : a.newTask = NULL ∨ s.tasks a.newTask = none)
    (hc : createById fuel s id taskSize bindSize a = some s1) : ∃ l1, LiveInv s1 l1 := by
  obtain ⟨hchain, hint, hsem, hctx⟩ := h
  unfold createById at hc
  cases hf : findTask fuel s id with
  | none => simp [hf] at hc
  | some found =>
    simp only [hf] at hc
    by_cases hg : found = NULL ∧ a.newTask ≠ NULL
    · rw [if_pos hg] at hc
      by_cases h2 : a.newContext = NULL
      · rw [if_pos h2, Option.some.injEq] at hc
        subst hc
        exact ⟨l, hchain, hint, hsem, hctx⟩
      · rw [if_neg h2] at hc
        by_cases h3 : a.bind = NULL
        · rw [if_pos h3, Option.some.injEq] at hc
          subst hc
          exact ⟨l, hchain, hint, hsem, hctx⟩
        · rw [if_neg h3, Option.some.injEq] at hc
          subst hc
          have hnone : s.tasks a.newTask = none := by
            rcases hfresh with e | e
            · exact absurd e hg.2
            · exact e
          have hnot : a.newTask ∉ l := by
            intro hm
            obtain ⟨t, ht⟩ := TaskChain.alloc hchain _ hm
            rw [hnone] at ht
            cases ht
          refine ⟨a.newTask :: l, ?_, ?_, ?_, ?_⟩
          · refine ⟨rfl, hg.2, hnot, _, Function.update_same _ _ _, rfl, ?_⟩
            refine TaskChain.same hchain (fun q hq => ?_)
            have : q ≠ a.newTask := fun e => hnot (e ▸ hq)
            simp [Function.update, this]
          · intro i hi
            exact List.mem_cons_of_mem _ (hint i hi)
          · intro i hi
            exact List.mem_cons_of_mem _ (hsem i hi)
          · intro c ctx hcc hne
            by_cases e : c = a.newContext
            · subst e
              simp only [Function.update_same, Option.some.injEq] at hcc
              subst hcc
              simp
            · simp only [Function.update, e, dif_neg, not_false_eq_true] at hcc
              exact List.mem_cons_of_mem _ (hctx c ctx hcc hne)
    · rw [if_neg hg, Option.some.injEq] at hc
      subst hc
      exact ⟨l, hchain, hint, hsem, hctx⟩

theorem LiveInv.schedule {fuel : Nat} {s s1 : State} {l : List Ptr} {id deltaMillis now : Nat}
    (h : LiveInv s l) (hc : scheduleById fuel s id deltaMillis now = some s1) : LiveInv s1 l := by
  obtain ⟨hchain, hint, hsem, hctx⟩ := h
  unfold scheduleById at hc
  cases hf : findTask fuel s id with
  | none => simp [hf] at hc
  | some p =>
    simp only [hf] at hc
    by_cases hp : p = NULL
    · simp only [hp, ne_eq, not_true_eq_false, if_false, Option.some.injEq] at hc
      subst hc
      exact ⟨hchain, hint, hsem, hctx⟩
    · simp only [ne_eq, hp, not_false_eq_true, if_true] at hc
      cases ht : s.tasks p with
      | none => simp [ht] at hc
      | some t =>
        simp only [ht, Option.some.injEq] at hc
        subst hc
        exact ⟨TaskChain.update hchain ht rfl rfl, hint, hsem, hctx⟩

theorem LiveInv.attach {fuel : Nat} {pinMap : Nat → Nat} {s s1 : State} {l : List Ptr}
    {pin id : Nat} (h : LiveInv s l)
    (hc : handleAttachInterrupt fuel pinMap s pin id = some s1) : LiveInv s1 l := by
  obtain ⟨hchain, hint, hsem, hctx⟩ := h
  unfold handleAttachInterrupt at hc
  by_cases hn : pinMap pin % 256 < MAX_INTERRUPTS
  · simp only [hn, if_true] at hc
    cases hf : findTask fuel s id with
    | none => simp [hf] at hc
    | some p =>
      simp only [hf] at hc
      by_cases hp : p = NULL
      · simp only [hp, ne_eq, not_true_eq_false, if_false, Option.some.injEq] at hc
        subst hc
        exact ⟨hchain, hint, hsem, hctx⟩
      · simp only [ne_eq, hp, not_false_eq_true, if_true, Option.some.injEq] at hc
        subst hc
        refine ⟨hchain, ?_, hsem, hctx⟩
        intro i hi
        by_cases e : i = pinMap pin % 256
        · subst e
          simp only [Function.update_same]
          exact TaskChain.find_mem id fuel p hchain hf hp
        · simp only [Function.update, e, dif_neg, not_false_eq_true] at hi ⊢
          exact hint i hi
  · simp only [hn, if_false, Option.some.injEq] at hc
    subst hc
    exact ⟨hchain, hint, hsem, hctx⟩

theorem LiveInv.detach {pinMap : Nat → Nat} {s : State} {l : List Ptr} {pin : Nat}
    (h : LiveInv s l) : LiveInv (handleDetachInterrupt pinMap s pin) l := by
  obtain ⟨hchain, hint, hsem, hctx⟩ := h
  unfold handleDetachInterrupt
  by_cases hn : pinMap pin % 256 < MAX_INTERRUPTS
  · simp only [hn, if_true]
    refine ⟨hchain, ?_, hsem, hctx⟩
    intro i hi
    by_cases e : i = pinMap pin % 256
    · subst e
      simp at hi
    · simp only [Function.update, e, dif_neg, not_false_eq_true] at hi ⊢
      exact hint i hi
  · simp only [hn, if_false]
    exact ⟨hchain, hint, hsem, hctx⟩

theorem LiveInv.take {s s1 : State} {l : List Ptr} {id : Nat} {context : Ptr} {suspend : Bool}
    (h : LiveInv s l) (hc : handleTakeSem s id context = some (s1, suspend)) : LiveInv s1 l := by
  obtain ⟨hchain, hint, hsem, hctx⟩ := h
  unfold handleTakeSem at hc
  by_cases hid : id < NUM_SEMAPHORES
  · rw [if_pos hid] at hc
    by_cases hfull : (s.semaphores id).full = true
    · rw [if_pos hfull, Option.some.injEq, Prod.mk.injEq] at hc
      obtain ⟨hc, -⟩ := hc
      subst hc
      refine ⟨hchain, hint, ?_, hctx⟩
      intro i hi
      by_cases e : i = id
      · subst e
        simp only [Function.update_same] at hi ⊢
        exact hsem i hi
      · simp only [Function.update, e, dif_neg, not_false_eq_true] at hi ⊢
        exact hsem i hi
    · rw [if_neg hfull] at hc
      cases hcx : s.contexts context with
      | none => simp [hcx] at hc
      | some ctx =>
        simp only [hcx] at hc
        by_cases ht0 : ctx.task ≠ NULL
        · rw [if_pos ht0] at hc
          cases ht : s.tasks ctx.task with
          | none => simp [ht] at hc
          | some t =>
            simp only [ht, Option.some.injEq, Prod.mk.injEq] at hc
            obtain ⟨hc, -⟩ := hc
            subst hc
            refine ⟨TaskChain.update hchain ht rfl rfl, hint, ?_, hctx⟩
            intro i hi
            by_cases e : i = id
            · subst e
              simp only [Function.update_same]
              exact hctx context ctx hcx ht0
            · simp only [Function.update, e, dif_neg, not_false_eq_true] at hi ⊢
              exact hsem i hi
        · rw [if_neg ht0, Option.some.injEq, Prod.mk.injEq] at hc
          obtain ⟨hc, -⟩ := hc
          subst hc
          exact ⟨hchain, hint, hsem, hctx⟩
  · rw [if_neg hid, Option.some.injEq, Prod.mk.injEq] at hc
    obtain ⟨hc, -⟩ := hc
    subst hc
    exact ⟨hchain, hint, hsem, hctx⟩

theorem LiveInv.give {s s1 : State} {l : List Ptr} {id now : Nat}
    (h : LiveInv s l) (hc : handleGiveSem s id now = some s1) : LiveInv s1 l := by
  obtain ⟨hchain, hint, hsem, hctx⟩ := h
  unfold handleGiveSem at hc
  by_cases hid : id < NUM_SEMAPHORES
  · rw [if_pos hid] at hc
    by_cases hfull : (s.semaphores id).full = true
    · rw [if_pos hfull, Option.some.injEq] at hc
      subst hc
      exact ⟨hchain, hint, hsem, hctx⟩
    · rw [if_neg hfull] at hc
      by_cases hw : (s.semaphores id).waiting ≠ NULL
      · rw [if_pos hw] at hc
        cases ht : s.tasks (s.semaphores id).waiting with
        | none => simp [ht] at hc
        | some t =>
          simp only [ht, Option.some.injEq] at hc
          subst hc
          refine ⟨TaskChain.update hchain ht rfl rfl, hint, ?_, hctx⟩
          intro i hi
          by_cases e : i = id
          · subst e
            simp at hi
          · simp only [Function.update, e, dif_neg, not_false_eq_true] at hi ⊢
            exact hsem i hi
      · rw [if_neg hw, Option.some.injEq] at hc
        subst hc
        refine ⟨hchain, hint, ?_, hctx⟩
        intro i hi
        by_cases e : i = id
        · subst e
          simp only [Function.update_same] at hi ⊢
          exact hsem i hi
        · simp only [Function.update, e, dif_neg, not_false_eq_true] at hi ⊢
          exact hsem i hi
  · rw [if_neg hid, Option.some.injEq] at hc
    subst hc
    exact ⟨hchain, hint, hsem, hctx⟩

theorem LiveInv.defaultContext {s s1 : State} {l : List Ptr} {newContext bind c : Ptr}
    (h : LiveInv s l) (hc : schedulerDefaultContext s newContext bind = some (s1, c)) :
    LiveInv s1 l := by
  obtain ⟨hchain, hint, hsem, hctx⟩ := h
  unfold schedulerDefaultContext at hc
  by_cases hd : s.defaultContext = NULL
  · rw [if_pos hd] at hc
    by_cases hn : newContext = NULL
    · rw [if_pos hn] at hc
      cases hc
    · rw [if_neg hn, Option.some.injEq, Prod.mk.injEq] at hc
      obtain ⟨hc, -⟩ := hc
      subst hc
      refine ⟨hchain, hint, hsem, ?_⟩
      intro c1 ctx hcc hne
      by_cases e : c1 = newContext
      · subst e
        simp only [Function.update_same, Option.some.injEq] at hcc
        subst hcc
        exact absurd rfl hne
      · simp only [Function.update, e, dif_neg, not_false_eq_true] at hcc
        exact hctx c1 ctx hcc hne
  · rw [if_neg hd, Option.some.injEq, Prod.mk.injEq] at hc
    obtain ⟨hc, -⟩ := hc
    subst hc
    exact ⟨hchain, hint, hsem, hctx⟩

theorem DeleteFree.liveInv {fuel : Nat} {pinMap : Nat → Nat} {s : State}
    (h : DeleteFree fuel pinMap s) : ∃ l, LiveInv s l := by
  induction h with
  | init eeprom =>
    exact ⟨[], rfl, fun i hi => absurd rfl hi, fun i hi => absurd rfl hi,
      fun c ctx hc _ => by simp [State.init] at hc⟩
  | create id taskSize bindSize a _ hfresh hc ih =>
    obtain ⟨l, hl⟩ := ih
    exact hl.create hfresh hc
  | schedule id deltaMillis now _ hc ih =>
    obtain ⟨l, hl⟩ := ih
    exact ⟨l, hl.schedule hc⟩
  | attach pin id _ hc ih =>
    obtain ⟨l, hl⟩ := ih
    exact ⟨l, hl.attach hc⟩
  | detach pin _ ih =>
    obtain ⟨l, hl⟩ := ih
    exact ⟨l, hl.detach⟩
  | take id context suspend _ hc ih =>
    obtain ⟨l, hl⟩ := ih
    exact ⟨l, hl.take hc⟩
  | give id now _ hc ih =>
    obtain ⟨l, hl⟩ := ih
    exact ⟨l, hl.give hc⟩
  | defaultContext newContext bind c _ hc ih =>
    obtain ⟨l, hl⟩ := ih
    exact ⟨l, hl.defaultContext hc⟩

theorem deleteTask_tables (s s1 : State) (p : Ptr) (h : deleteTask s p = some s1) :
    s1.intTasks = s.intTasks ∧ s1.semaphores = s.semaphores := by
  unfold deleteTask at h
  split at h
  · cases h
  · rename_i task ht
    dsimp only at h
    split at h
    · cases h
    · rename_i sa hsa
      split at h
      · cases h
      · rename_i sb hsb
        simp only [Option.some.injEq] at h
        subst h
        have e1 : sa.intTasks = s.intTasks ∧ sa.semaphores = s.semaphores := by
          split at hsa
          · split at hsa
            · cases hsa
            · cases hsa
              exact ⟨rfl, rfl⟩
          · cases hsa
            exact ⟨rfl, rfl⟩
        have e2 : sb.intTasks = sa.intTasks ∧ sb.semaphores = sa.semaphores := by
          split at hsb
          · split at hsb
            · cases hsb
            · cases hsb
              exact ⟨rfl, rfl⟩
          · cases hsb
            exact ⟨rfl, rfl⟩
        exact ⟨e2.1.trans e1.1, e2.2.trans e1.2⟩

theorem resetLoop_tables : ∀ (fuel : Nat) (s s1 : State), resetLoop fuel s = some s1 →
    s1.intTasks = s.intTasks ∧ s1.semaphores = s.semaphores
  | 0, s, s1, h => by simp [resetLoop] at h
  | fuel + 1, s, s1, h => by
    rw [resetLoop] at h
    split at h
    · cases h
      exact ⟨rfl, rfl⟩
    · split at h
      · cases h
      · rename_i sa hsa
        obtain ⟨a1, a2⟩ := deleteTask_tables s sa _ hsa
        obtain ⟨b1, b2⟩ := resetLoop_tables fuel sa s1 h
        exact ⟨b1.trans a1, b2.trans a2⟩

theorem handleReset_tables (fuel : Nat) (dev : EepromDevice) (s s1 : State)
    (h : handleReset fuel dev s = some s1) :
    s1.intTasks = s.intTasks ∧ s1.semaphores = s.semaphores := by
  unfold handleReset at h
  split at h
  · cases h
  · rename_i sa hsa
    obtain ⟨a1, a2⟩ := resetLoop_tables fuel s sa hsa
    dsimp only at h
    split at h
    · cases h
      exact ⟨a1, a2⟩
    · cases h
      exact ⟨a1, a2⟩

theorem not_listed_of_empty (s : State) (p : Ptr) (h : s.firstTask = NULL) : ¬ Listed s p := by
  rintro ⟨l, hl, hm⟩
  cases l with
  | nil => cases hm
  | cons q l => exact hl.2.1 (hl.1.symm.trans h)

/-- C8 as stated fails.  From power-up: `create 1`, attach interrupt line 0 to task 1,
`delete 1` leaves `intTasks[0]` pointing to the freed block; `create 1`, semaphore take
by task 1, `delete 1` leaves `semaphores[0].waiting` pointing to it; and after `create
1`, attach, reset the binding is still there.  In the three states the registry is
empty. -/
theorem binding_outlives_deleted_task :
    (∃ s, ((createById 8 blank 1 10 2 (Alloc.ok 1)).bind fun s =>
        (handleAttachInterrupt 8 unoPinToInterrupt s 2 1).bind fun s =>
          handleDeleteTask 8 s 1) = some s ∧
      s.intTasks 0 = 1 ∧ s.tasks 1 = none ∧ s.firstTask = NULL ∧ ¬ BindingsLive s) ∧
    (∃ s, ((createById 8 blank 1 10 2 (Alloc.ok 1)).bind fun s =>
        (handleTakeSem s 0 1).bind fun r => handleDeleteTask 8 r.1 1) = some s ∧
      (s.semaphores 0).waiting = 1 ∧ s.tasks 1 = none ∧ s.firstTask = NULL ∧
      ¬ BindingsLive s) ∧
    (∃ s, ((createById 8 blank 1 10 2 (Alloc.ok 1)).bind fun s =>
        (handleAttachInterrupt 8 unoPinToInterrupt s 2 1).bind fun s =>
          handleReset 8 idealEeprom s) = some s ∧
      s.intTasks 0 = 1 ∧ s.tasks 1 = none ∧ s.firstTask = NULL ∧ ¬ BindingsLive s) := by
  refine ⟨⟨_, rfl, rfl, rfl, rfl, ?_⟩, ⟨_, rfl, rfl, rfl, rfl, ?_⟩, ⟨_, rfl, rfl, rfl, rfl, ?_⟩⟩
  · intro h
    exact not_listed_of_empty _ _ rfl (h.1 0 (by decide) (by decide))
  · intro h
    exact not_listed_of_empty _ _ rfl (h.2 0 (by decide) (by decide))
  · intro h
    exact not_listed_of_empty _ _ rfl (h.1 0 (by decide) (by decide))

/-- C8 amended: in every state reached from power-up by create, schedule, attach, detach,
semaphore take and give (no delete, no reset, no completed task), every non-empty
interrupt binding and every non-empty semaphore waiter refers to a task of the
registry; `deleteTask` and `handleReset` leave `intTasks` and `semaphores` exactly as
they were, so a binding or waiter is not cleared when its task is deleted. -/
theorem bindings_live_until_delete (fuel : Nat) (digitalPinToInterrupt : Nat → Nat) (s : State)
    (h : DeleteFree fuel digitalPinToInterrupt s) :
    BindingsLive s ∧
    (∀ p s1, deleteTask s p = some s1 →
      s1.intTasks = s.intTasks ∧ s1.semaphores = s.semaphores) ∧
    (∀ dev s1, handleReset fuel dev s = some s1 →
      s1.intTasks = s.intTasks ∧ s1.semaphores = s.semaphores) := by
  obtain ⟨l, hchain, hint, hsem, -⟩ := h.liveInv
  refine ⟨⟨fun i _ hi => ⟨l, hchain, hint i hi⟩, fun i _ hi => ⟨l, hchain, hsem i hi⟩⟩,
    fun p s1 hd => deleteTask_tables s s1 p hd,
    fun dev s1 hr => handleReset_tables fuel dev s s1 hr⟩

theorem boundTask_deleteFree : DeleteFree 8 unoPinToInterrupt boundTask := by
  have h0 : DeleteFree 8 unoPinToInterrupt blank := DeleteFree.init _
  have hc : createById 8 blank 1 10 2 (Alloc.ok 1) = some oneTask := rfl
  have h1 : DeleteFree 8 unoPinToInterrupt oneTask :=
    DeleteFree.create 1 10 2 (Alloc.ok 1) h0 (Or.inr rfl) hc
  have ha : handleAttachInterrupt 8 unoPinToInterrupt oneTask 2 1 = some boundTask := rfl
  exact DeleteFree.attach 2 1 h1 ha

/-- Witness of C8 amended: task 1 created and interrupt line 0 attached to it. -/
theorem bindings_live_until_delete_witness :
    DeleteFree 8 unoPinToInterrupt boundTask ∧ boundTask.intTasks 0 = 1 ∧
    BindingsLive boundTask ∧
    (∀ p s1, deleteTask boundTask p = some s1 →
      s1.intTasks = boundTask.intTasks ∧ s1.semaphores = boundTask.semaphores) ∧
    (∀ dev s1, handleReset 8 dev boundTask = some s1 →
      s1.intTasks = boundTask.intTasks ∧ s1.semaphores = boundTask.semaphores) :=
  ⟨boundTask_deleteFree, rfl,
    bindings_live_until_delete 8 unoPinToInterrupt boundTask boundTask_deleteFree⟩

/-! ### Semaphores -/

theorem SemaphoresOk.after_take {s s1 : State} {id : Nat} {context : Ptr} {suspend : Bool}
    (h : SemaphoresOk s) (hc : handleTakeSem s id context = some (s1, suspend)) :
    SemaphoresOk s1 := by
  unfold handleTakeSem at hc
  by_cases hid : id < NUM_SEMAPHORES
  · rw [if_pos hid] at hc
    by_cases hfull : (s.semaphores id).full = true
    · rw [if_pos hfull, Option.some.injEq, Prod.mk.injEq] at hc
      obtain ⟨hc, -⟩ := hc
      subst hc
      intro i
      by_cases e : i = id
      · subst e
        simp
      · simp only [Function.update, e, dif_neg, not_false_eq_true]
        exact h i
    · rw [if_neg hfull] at hc
      cases hcx : s.contexts context with
      | none => simp [hcx] at hc
      | some ctx =>
        simp only [hcx] at hc
        by_cases ht0 : ctx.task ≠ NULL
        · rw [if_pos ht0] at hc
          cases ht : s.tasks ctx.task with
          | none => simp [ht] at hc
          | some t =>
            simp only [ht, Option.some.injEq, Prod.mk.injEq] at hc
            obtain ⟨hc, -⟩ := hc
            subst hc
            intro i
            by_cases e : i = id
            · subst e
              simp [hfull]
            · simp only [Function.update, e, dif_neg, not_false_eq_true]
              exact h i
        · rw [if_neg ht0, Option.some.injEq, Prod.mk.injEq] at hc
          obtain ⟨hc, -⟩ := hc
          subst hc
          exact h
  · rw [if_neg hid, Option.some.injEq, Prod.mk.injEq] at hc
    obtain ⟨hc, -⟩ := hc
    subst hc
    exact h

theorem SemaphoresOk.after_give {s s1 : State} {id now : Nat}
    (h : SemaphoresOk s) (hc : handleGiveSem s id now = some s1) : SemaphoresOk s1 := by
  unfold handleGiveSem at hc
  by_cases hid : id < NUM_SEMAPHORES
  · rw [if_pos hid] at hc
    by_cases hfull : (s.semaphores id).full = true
    · rw [if_pos hfull, Option.some.injEq] at hc
      subst hc
      exact h
    · rw [if_neg hfull] at hc
      by_cases hw : (s.semaphores id).waiting ≠ NULL
      · rw [if_pos hw] at hc
        cases ht : s.tasks (s.semaphores id).waiting with
        | none => simp [ht] at hc
        | some t =>
          simp only [ht, Option.some.injEq] at hc
          subst hc
          intro i
          by_cases e : i = id
          · subst e
            simp
          · simp only [Function.update, e, dif_neg, not_false_eq_true]
            exact h i
      · rw [if_neg hw, Option.some.injEq] at hc
        subst hc
        intro i
        by_cases e : i = id
        · subst e
          simp only [Function.update_same]
          intro hboth
          exact hw hboth.2
        · simp only [Function.update, e, dif_neg, not_false_eq_true]
          exact h i
  · rw [if_neg hid, Option.some.injEq] at hc
    subst hc
    exact h

/-- C17: in every state reached by take and give operations (any ids, any contexts, any
clock) from a state in which no semaphore is full and none has a waiter, no semaphore
has `full` set and a waiter recorded at the same time. -/
theorem semaphore_never_full_with_waiter (s0 s : State)
    (hinit : ∀ i, (s0.semaphores i).full = false ∧ (s0.semaphores i).waiting = NULL)
    (h : SemReach s0 s) :
    ∀ i, i < NUM_SEMAPHORES →
      ¬ ((s.semaphores i).full = true ∧ (s.semaphores i).waiting ≠ NULL) := by
  have hok : SemaphoresOk s := by
    induction h with
    | start =>
      intro i hboth
      exact hboth.2 (hinit i).2
    | take id context suspend _ hc ih => exact ih.after_take hc
    | give id now _ hc ih => exact ih.after_give hc
  exact fun i _ => hok i

/-- Witness of C17: from the state holding task 1, task 1 takes semaphore 0 and waits. -/
theorem semaphore_never_full_with_waiter_witness :
    (∀ i, (oneTask.semaphores i).full = false ∧ (oneTask.semaphores i).waiting = NULL) ∧
    SemReach oneTask waitingTask ∧ (waitingTask.semaphores 0).waiting = 1 ∧
    ∀ i, i < NUM_SEMAPHORES →
      ¬ ((waitingTask.semaphores i).full = true ∧ (waitingTask.semaphores i).waiting ≠ NULL) := by
  have h0 : ∀ i, (oneTask.semaphores i).full = false ∧ (oneTask.semaphores i).waiting = NULL :=
    fun _ => ⟨rfl, rfl⟩
  have ht : handleTakeSem oneTask 0 1 = some (waitingTask, true) := rfl
  have hr : SemReach oneTask waitingTask := SemReach.take 0 1 true SemReach.start ht
  exact ⟨h0, hr, rfl, semaphore_never_full_with_waiter oneTask waitingTask h0 hr⟩

/-- C18: take then give.  Semaphore `id` < 5 is not full (whether or not it has a
waiter), and the calling context belongs to a live task.  Then take returns true
(suspend), records that task as the waiter and clears its ready flag; a following give at
clock `now` sets that task ready with wake time `now`, clears the waiter, leaves `full`
false, and leaves every other task block and every other semaphore as it was. -/
theorem take_then_give (s : State) (id now : Nat) (context : Ptr) (ctx : CONTEXT) (t : TASK)
    (hid : id < NUM_SEMAPHORES) (hfull : (s.semaphores id).full = false)
    (hctx : s.contexts context = some ctx) (htask : ctx.task ≠ NULL)
    (ht : s.tasks ctx.task = some t) :
    ∃ s1 s2, handleTakeSem s id context = some (s1, true) ∧
      (s1.semaphores id).waiting = ctx.task ∧ (s1.semaphores id).full = false ∧
      s1.tasks ctx.task = some { t with ready := false } ∧
      (∀ q, q ≠ ctx.task → s1.tasks q = s.tasks q) ∧
      handleGiveSem s1 id now = some s2 ∧
      s2.tasks ctx.task = some { t with ready := true, millis := now % 2 ^ 32 } ∧
      (s2.semaphores id).waiting = NULL ∧ (s2.semaphores id).full = false ∧
      (∀ q, q ≠ ctx.task → s2.tasks q = s.tasks q) ∧
      (∀ j, j ≠ id → s2.semaphores j = s.semaphores j) := by
  obtain ⟨s1, hs1⟩ : ∃ s1 : State, s1 = { s with
      semaphores := Function.update s.semaphores id { s.semaphores id with waiting := ctx.task }
      tasks := Function.update s.tasks ctx.task (some { t with ready := false }) } := ⟨_, rfl⟩
  have e1 : handleTakeSem s id context = some (s1, true) := by
    simp [handleTakeSem, hid, hfull, hctx, htask, ht, hs1]
  have f1 : (s1.semaphores id).waiting = ctx.task := by simp [hs1]
  have f2 : (s1.semaphores id).full = false := by simp [hs1, hfull]
  have f3 : s1.tasks ctx.task = some { t with ready := false } := by simp [hs1]
  have f4 : ∀ q, q ≠ ctx.task → s1.tasks q = s.tasks q := by
    intro q hq
    simp [hs1, Function.update, hq]
  have f5 : ∀ j, j ≠ id → s1.semaphores j = s.semaphores j := by
    intro j hj
    simp [hs1, Function.update, hj]
  obtain ⟨s2, hs2⟩ : ∃ s2 : State, s2 = { s1 with
      tasks := Function.update s1.tasks ctx.task
        (some { t with ready := true, millis := now % 2 ^ 32 })
      semaphores := Function.update s1.semaphores id
        { s1.semaphores id with waiting := NULL } } := ⟨_, rfl⟩
  have e2 : handleGiveSem s1 id now = some s2 := by
    simp [handleGiveSem, hid, f1, f2, f3, htask, hs2]
  refine ⟨s1, s2, e1, f1, f2, f3, f4, e2, by simp [hs2], by simp [hs2], by simp [hs2, f2], ?_, ?_⟩
  · intro q hq
    rw [← f4 q hq]
    simp [hs2, Function.update, hq]
  · intro j hj
    rw [← f5 j hj]
    simp [hs2, Function.update, hj]

/-- Witness of C18: task 1 of `oneTask` takes semaphore 0, which is then given at clock 500. -/
theorem take_then_give_witness :
    oneTask.contexts 1 = some ctxOne ∧ (oneTask.tasks 1).isSome = true ∧
    ∃ t s1 s2, oneTask.tasks 1 = some t ∧ handleTakeSem oneTask 0 1 = some (s1, true) ∧
      (s1.semaphores 0).waiting = 1 ∧ (s1.semaphores 0).full = false ∧
      s1.tasks 1 = some { t with ready := false } ∧
      (∀ q, q ≠ 1 → s1.tasks q = oneTask.tasks q) ∧
      handleGiveSem s1 0 500 = some s2 ∧
      s2.tasks 1 = some { t with ready := true, millis := 500 % 2 ^ 32 } ∧
      (s2.semaphores 0).waiting = NULL ∧ (s2.semaphores 0).full = false ∧
      (∀ q, q ≠ 1 → s2.tasks q = oneTask.tasks q) ∧
      (∀ j, j ≠ 0 → s2.semaphores j = oneTask.semaphores j) := by
  refine ⟨rfl, rfl, (oneTask.tasks 1).getD taskOne, ?_⟩
  obtain ⟨s1, s2, h⟩ := take_then_give oneTask 0 500 1 ctxOne ((oneTask.tasks 1).getD taskOne)
    (by decide) rfl rfl (by decide) rfl
  exact ⟨s1, s2, rfl, h⟩

/-- C19: give then take.  Semaphore `id` < 5 is not full and has no waiter.  Then give
sets `full` and touches nothing else; a second give returns the same state; and a
following take from any context returns false (proceed), changes no task block, and
leaves every semaphore, `id` included, as it was at the start: not full, no waiter. -/
theorem give_then_take (s : State) (id now now2 : Nat) (context : Ptr)
    (hid : id < NUM_SEMAPHORES) (hfull : (s.semaphores id).full = false)
    (hwait : (s.semaphores id).waiting = NULL) :
    ∃ s1 s2, handleGiveSem s id now = some s1 ∧
      (s1.semaphores id).full = true ∧ (s1.semaphores id).waiting = NULL ∧
      s1.tasks = s.tasks ∧ (∀ j, j ≠ id → s1.semaphores j = s.semaphores j) ∧
      handleGiveSem s1 id now2 = some s1 ∧
      handleTakeSem s1 id context = some (s2, false) ∧
      s2.tasks = s.tasks ∧ (s2.semaphores id).full = false ∧
      (s2.semaphores id).waiting = NULL ∧ (∀ j, s2.semaphores j = s.semaphores j) := by
  obtain ⟨s1, hs1⟩ : ∃ s1 : State, s1 = { s with
      semaphores := Function.update s.semaphores id { s.semaphores id with full := true } } :=
    ⟨_, rfl⟩
  have e1 : handleGiveSem s id now = some s1 := by
    simp [handleGiveSem, hid, hfull, hwait, hs1]
  have f1 : (s1.semaphores id).full = true := by simp [hs1]
  have f2 : (s1.semaphores id).waiting = NULL := by simp [hs1, hwait]
  have f3 : s1.tasks = s.tasks := by simp [hs1]
  have f4 : ∀ j, j ≠ id → s1.semaphores j = s.semaphores j := by
    intro j hj
    simp [hs1, Function.update, hj]
  have e2 : handleGiveSem s1 id now2 = some s1 := by
    simp [handleGiveSem, hid, f1]
  obtain ⟨s2, hs2⟩ : ∃ s2 : State, s2 = { s1 with
      semaphores := Function.update s1.semaphores id { s1.semaphores id with full := false } } :=
    ⟨_, rfl⟩
  have e3 : handleTakeSem s1 id context = some (s2, false) := by
    simp [handleTakeSem, hid, f1, hs2]
  refine ⟨s1, s2, e1, f1, f2, f3, f4, e2, e3, by simp [hs2, f3], by simp [hs2],
    by simp [hs2, f2], ?_⟩
  intro j
  by_cases hj : j = id
  · subst hj
    have : s2.semaphores j = { s1.semaphores j with full := false } := by simp [hs2]
    rw [this]
    cases hsem : s.semaphores j with
    | mk full waiting =>
      rw [hsem] at hfull hwait
      simp only at hfull hwait
      simp [hs1, hsem, hfull]
  · rw [← f4 j hj]
    simp [hs2, Function.update, hj]

/-- Witness of C19: semaphore 3 of the power-up state. -/
theorem give_then_take_witness :
    (blank.semaphores 3).full = false ∧ (blank.semaphores 3).waiting = NULL ∧
    ∃ s1 s2, handleGiveSem blank 3 10 = some s1 ∧
      (s1.semaphores 3).full = true ∧ (s1.semaphores 3).waiting = NULL ∧
      s1.tasks = blank.tasks ∧ (∀ j, j ≠ 3 → s1.semaphores j = blank.semaphores j) ∧
      handleGiveSem s1 3 20 = some s1 ∧
      handleTakeSem s1 3 0 = some (s2, false) ∧
      s2.tasks = blank.tasks ∧ (s2.semaphores 3).full = false ∧
      (s2.semaphores 3).waiting = NULL ∧ (∀ j, s2.semaphores j = blank.semaphores j) :=
  ⟨rfl, rfl, give_then_take blank 3 10 20 0 (by decide) rfl rfl⟩

/-! ### Interrupt lines -/

theorem handleAttachInterrupt_found (fuel : Nat) (pinMap : Nat → Nat) (s : State)
    (pin id : Nat) (p : Ptr) (hlt : pinMap pin % 256 < MAX_INTERRUPTS)
    (hfind : findTask fuel s id = some p) (hp : p ≠ NULL) :
    handleAttachInterrupt fuel pinMap s pin id =
      some { s with intTasks := Function.update s.intTasks (pinMap pin % 256) p } := by
  simp [handleAttachInterrupt, hlt, hfind, hp]

/-- C20: the pin resolves to interrupt line `n` < 6 and tasks `A` and `B` exist.  Then
attach to `A` followed by attach to `B` leaves `intTasks[n]` pointing to `B` and every
other line as it was; `handleISR(n)` makes exactly one call of `runCodeBlock`, with
`B`'s length, data and context; and after detach `handleISR(n)` makes no call and
returns the state unchanged. -/
theorem attach_twice_then_fire (fuel : Nat) (pinMap : Nat → Nat) (interp : Interp) (s : State)
    (pin A B n : Nat) (pA pB : Ptr) (tB : TASK)
    (hn : pinMap pin % 256 = n) (hlt : n < MAX_INTERRUPTS)
    (hA : findTask fuel s A = some pA) (hpA : pA ≠ NULL)
    (hB : findTask fuel s B = some pB) (hpB : pB ≠ NULL) (htB : s.tasks pB = some tB) :
    ∃ s1 s2, handleAttachInterrupt fuel pinMap s pin A = some s1 ∧
      handleAttachInterrupt fuel pinMap s1 pin B = some s2 ∧
      s2.intTasks n = pB ∧ (∀ i, i ≠ n → s2.intTasks i = s.intTasks i) ∧
      s2.tasks = s.tasks ∧
      handleISR interp s2 n = (interp s2 tB.currLen tB.data tB.context).map
        (fun r => (r.1, [{ blockSize := tB.currLen, block := tB.data, context := tB.context }])) ∧
      (handleDetachInterrupt pinMap s2 pin).intTasks n = NULL ∧
      handleISR interp (handleDetachInterrupt pinMap s2 pin) n
        = some (handleDetachInterrupt pinMap s2 pin, []) := by
  subst hn
  obtain ⟨s1, hs1⟩ : ∃ s1 : State, s1 =
      { s with intTasks := Function.update s.intTasks (pinMap pin % 256) pA } := ⟨_, rfl⟩
  obtain ⟨s2, hs2⟩ : ∃ s2 : State, s2 =
      { s1 with intTasks := Function.update s1.intTasks (pinMap pin % 256) pB } := ⟨_, rfl⟩
  have e1 : handleAttachInterrupt fuel pinMap s pin A = some s1 := by
    rw [hs1]
    exact handleAttachInterrupt_found fuel pinMap s pin A pA hlt hA hpA
  have hB1 : findTask fuel s1 B = some pB := by
    rw [hs1]
    exact hB
  have e2 : handleAttachInterrupt fuel pinMap s1 pin B = some s2 := by
    rw [hs2]
    exact handleAttachInterrupt_found fuel pinMap s1 pin B pB hlt hB1 hpB
  have f1 : s2.intTasks (pinMap pin % 256) = pB := by simp [hs2]
  have f2 : s2.tasks = s.tasks := by simp [hs2, hs1]
  refine ⟨s1, s2, e1, e2, f1, ?_, f2, ?_, ?_, ?_⟩
  · intro i hi
    simp [hs2, hs1, Function.update, hi]
  · unfold handleISR
    rw [f1, if_pos hpB, f2, htB]
    simp only
    cases hi : interp s2 tB.currLen tB.data tB.context with
    | none => rfl
    | some r => rfl
  · simp [handleDetachInterrupt, hlt]
  · have hd : (handleDetachInterrupt pinMap s2 pin).intTasks (pinMap pin % 256) = NULL := by
      simp [handleDetachInterrupt, hlt]
    unfold handleISR
    rw [hd]
    simp

/-- Witness of C20: pin 2 is line 0 on the Uno; tasks 1 and 2 of `twoTasks`. -/
theorem attach_twice_then_fire_witness :
    findTask 8 twoTasks 1 = some 1 ∧ findTask 8 twoTasks 2 = some 2 ∧
    ∃ tB s1 s2, twoTasks.tasks 2 = some tB ∧
      handleAttachInterrupt 8 unoPinToInterrupt twoTasks 2 1 = some s1 ∧
      handleAttachInterrupt 8 unoPinToInterrupt s1 2 2 = some s2 ∧
      s2.intTasks 0 = 2 ∧ (∀ i, i ≠ 0 → s2.intTasks i = twoTasks.intTasks i) ∧
      s2.tasks = twoTasks.tasks ∧
      handleISR completingInterp s2 0 = (completingInterp s2 tB.currLen tB.data tB.context).map
        (fun r => (r.1, [{ blockSize := tB.currLen, block := tB.data, context := tB.context }])) ∧
      (handleDetachInterrupt unoPinToInterrupt s2 2).intTasks 0 = NULL ∧
      handleISR completingInterp (handleDetachInterrupt unoPinToInterrupt s2 2) 0
        = some (handleDetachInterrupt unoPinToInterrupt s2 2, []) := by
  refine ⟨rfl, rfl, (twoTasks.tasks 2).getD taskTwo, ?_⟩
  obtain ⟨s1, s2, h⟩ := attach_twice_then_fire 8 unoPinToInterrupt completingInterp twoTasks
    2 1 2 0 1 2 ((twoTasks.tasks 2).getD taskTwo) rfl (by decide) rfl (by decide) rfl
    (by decide) rfl
  exact ⟨s1, s2, rfl, h⟩

/-! ### Append and the length bound -/

theorem handleAddToTask_found (intBits fuel : Nat) (s : State) (id addSize : Nat)
    (chunk : Nat → Nat) (p : Ptr) (t : TASK) (hfind : findTask fuel s id = some p)
    (hp : p ≠ NULL) (ht : s.tasks p = some t) :
    handleAddToTask intBits fuel s id addSize chunk =
      if (addSize + t.currLen) % 2 ^ intBits ≤ t.size then
        some { s with
          tasks := Function.update s.tasks p
            (some { t with
              data := fun i =>
                if t.currLen ≤ i ∧ i < t.currLen + addSize then chunk (i - t.currLen)
                else t.data i
              currLen := (t.currLen + addSize) % 2 ^ 16 }) }
      else some s := by
  simp only [handleAddToTask, hfind, hp, ne_eq, not_false_eq_true, if_true, ht]

theorem mod_pow_le_of_le (x a b : Nat) (h : a ≤ b) : x % 2 ^ a ≤ x % 2 ^ b := by
  have hd : 2 ^ a ∣ 2 ^ b := pow_dvd_pow 2 h
  calc x % 2 ^ a = (x % 2 ^ b) % 2 ^ a := (Nat.mod_mod_of_dvd x hd).symm
    _ ≤ x % 2 ^ b := Nat.mod_le _ _

theorem LengthOk.after_append {intBits fuel : Nat} {s s1 : State} {id addSize : Nat}
    {chunk : Nat → Nat} (hbits : 16 ≤ intBits) (h : LengthOk s)
    (hc : handleAddToTask intBits fuel s id addSize chunk = some s1) : LengthOk s1 := by
  unfold handleAddToTask at hc
  cases hf : findTask fuel s id with
  | none => simp [hf] at hc
  | some p =>
    simp only [hf] at hc
    by_cases hp : p = NULL
    · simp only [hp, ne_eq, not_true_eq_false, if_false, Option.some.injEq] at hc
      subst hc
      exact h
    · simp only [ne_eq, hp, not_false_eq_true, if_true] at hc
      cases ht : s.tasks p with
      | none => simp [ht] at hc
      | some t =>
        simp only [ht] at hc
        by_cases hg : (addSize + t.currLen) % 2 ^ intBits ≤ t.size
        · rw [if_pos hg, Option.some.injEq] at hc
          subst hc
          intro q tq hq
          by_cases e : q = p
          · subst e
            simp only [Function.update_same, Option.some.injEq] at hq
            subst hq
            show (t.currLen + addSize) % 2 ^ 16 ≤ t.size
            have := mod_pow_le_of_le (t.currLen + addSize) 16 intBits hbits
            rw [Nat.add_comm] at hg
            exact le_trans this hg
          · simp only [Function.update, e, dif_neg, not_false_eq_true] at hq
            exact h q tq hq
        · rw [if_neg hg, Option.some.injEq] at hc
          subst hc
          exact h

theorem LengthOk.after_create {fuel : Nat} {s s1 : State} {id taskSize bindSize : Nat} {a : Alloc}
    (h : LengthOk s) (hc : createById fuel s id taskSize bindSize a = some s1) :
    LengthOk s1 := by
  unfold createById at hc
  cases hf : findTask fuel s id with
  | none => simp [hf] at hc
  | some found =>
    simp only [hf] at hc
    by_cases hg : found = NULL ∧ a.newTask ≠ NULL
    · rw [if_pos hg] at hc
      by_cases h2 : a.newContext = NULL
      · rw [if_pos h2, Option.some.injEq] at hc
        subst hc
        exact h
      · rw [if_neg h2] at hc
        by_cases h3 : a.bind = NULL
        · rw [if_pos h3, Option.some.injEq] at hc
          subst hc
          exact h
        · rw [if_neg h3, Option.some.injEq] at hc
          subst hc
          intro q tq hq
          by_cases e : q = a.newTask
          · subst e
            simp only [Function.update_same, Option.some.injEq] at hq
            subst hq
            exact Nat.zero_le _
          · simp only [Function.update, e, dif_neg, not_false_eq_true] at hq
            exact h q tq hq
    · rw [if_neg hg, Option.some.injEq] at hc
      subst hc
      exact h

theorem LengthOk.after_schedule {fuel : Nat} {s s1 : State} {id deltaMillis now : Nat}
    (h : LengthOk s) (hc : scheduleById fuel s id deltaMillis now = some s1) : LengthOk s1 := by
  unfold scheduleById at hc
  cases hf : findTask fuel s id with
  | none => simp [hf] at hc
  | some p =>
    simp only [hf] at hc
    by_cases hp : p = NULL
    · simp only [hp, ne_eq, not_true_eq_false, if_false, Option.some.injEq] at hc
      subst hc
      exact h
    · simp only [ne_eq, hp, not_false_eq_true, if_true] at hc
      cases ht : s.tasks p with
      | none => simp [ht] at hc
      | some t =>
        simp only [ht, Option.some.injEq] at hc
        subst hc
        intro q tq hq
        by_cases e : q = p
        · subst e
          simp only [Function.update_same, Option.some.injEq] at hq
          subst hq
          exact h q t ht
        · simp only [Function.update, e, dif_neg, not_false_eq_true] at hq
          exact h q tq hq

theorem LengthOk.after_restore {fuel : Nat} {s s1 : State} {allocs : Nat → Alloc} {clock : Nat → Nat}
    {t index : Nat} (h : LengthOk s)
    (hfind : findTask fuel s (eepromRead s index) = some NULL)
    (h1 : (allocs t).newTask ≠ NULL) (h2 : (allocs t).newContext ≠ NULL)
    (h3 : (allocs t).bind ≠ NULL)
    (hc : bootRestoreLoop fuel allocs clock 1 t index s = some s1) : LengthOk s1 := by
  cases fuel with
  | zero => simp [findTask, findTaskFrom] at hfind
  | succ k =>
    rw [bootRestoreLoop_step k allocs clock 0 t index s hfind h1 h2 h3] at hc
    simp only [bootRestoreLoop, Option.some.injEq] at hc
    subst hc
    intro q tq hq
    by_cases e : q = (allocs t).newTask
    · subst e
      simp only [restoreOne, Function.update_same, Option.some.injEq] at hq
      subst hq
      exact Nat.le_refl _
    · simp only [restoreOne, Function.update, e, dif_neg, not_false_eq_true] at hq
      exact h q tq hq

/-- C11 as stated fails for boot restore: restoring the EEPROM `duplicateIdEeprom`, whose
two records both carry id 1, into the power-up registry creates task 1 with capacity 1
from the first record and then sets its length to 3 from the second. -/
theorem restore_duplicate_id_exceeds_capacity :
    (schedulerBootTask 8 (fun t => Alloc.ok (t + 1)) (fun _ => 0)
        (State.init duplicateIdEeprom)).map
      (fun s => (findTask 8 s 1, (s.tasks 1).map fun t => (t.id, t.size, t.currLen)))
      = some (some 1, some (1, 1, 3)) ∧
    ¬ ((3 : Nat) ≤ 1) := by
  decide

/-- C11 amended: in every state reached from power-up by create, append, schedule and by
boot-restore iterations whose record id is not yet in the registry and whose allocation
succeeds, every task block has `currLen` at most `size`, for every chunk size, every
capacity and every width of `int` of at least 16 bits. -/
theorem length_within_capacity (intBits fuel : Nat) (s : State) (hbits : 16 ≤ intBits)
    (h : Built intBits fuel s) : ∀ p t, s.tasks p = some t → 0 ≤ t.currLen ∧ t.currLen ≤ t.size := by
  have hok : LengthOk s := by
    induction h with
    | init eeprom =>
      intro p t ht
      simp [State.init] at ht
    | create id taskSize bindSize a _ hc ih => exact ih.after_create hc
    | append id addSize chunk _ hc ih => exact ih.after_append hbits hc
    | schedule id deltaMillis now _ hc ih => exact ih.after_schedule hc
    | restore allocs clock t index _ hfind h1 h2 h3 hc ih => exact ih.after_restore hfind h1 h2 h3 hc
  exact fun p t ht => ⟨Nat.zero_le _, hok p t ht⟩

/-- Witness of C11 amended: `create(1, 10, 2)` followed by an append of three bytes. -/
theorem length_within_capacity_witness :
    (16 : Nat) ≤ 16 ∧ Built 16 8 appendedTask ∧
    (appendedTask.tasks 1).map (fun t => (t.size, t.currLen)) = some (10, 3) ∧
    ∀ p t, appendedTask.tasks p = some t → 0 ≤ t.currLen ∧ t.currLen ≤ t.size := by
  have h0 : Built 16 8 blank := Built.init _
  have hc : createById 8 blank 1 10 2 (Alloc.ok 1) = some oneTask := rfl
  have h1 : Built 16 8 oneTask := Built.create 1 10 2 (Alloc.ok 1) h0 hc
  have ha : handleAddToTask 16 8 oneTask 1 3 (fun i => 10 + i) = some appendedTask := rfl
  have h2 : Built 16 8 appendedTask := Built.append 1 3 (fun i => 10 + i) h1 ha
  exact ⟨Nat.le_refl _, h2, rfl, length_within_capacity 16 8 appendedTask (Nat.le_refl _) h2⟩

theorem handleAddToTask_fits (intBits fuel : Nat) (s : State) (id addSize : Nat)
    (chunk : Nat → Nat) (p : Ptr) (t : TASK) (hfind : findTask fuel s id = some p)
    (hp : p ≠ NULL) (ht : s.tasks p = some t) (hbits : 16 ≤ intBits)
    (hsize : t.size < 2 ^ 16) (hfit : t.currLen + addSize ≤ t.size) :
    ∃ s1 t1, handleAddToTask intBits fuel s id addSize chunk = some s1 ∧
      s1.tasks p = some t1 ∧ t1.currLen = t.currLen + addSize ∧ t1.size = t.size ∧
      (∀ k, k < addSize → t1.data (t.currLen + k) = chunk k) ∧
      (∀ i, i < t.currLen → t1.data i = t.data i) ∧
      (∀ q, q ≠ p → s1.tasks q = s.tasks q) := by
  have hlt : t.currLen + addSize < 2 ^ 16 := lt_of_le_of_lt hfit hsize
  have hlt2 : t.currLen + addSize < 2 ^ intBits :=
    lt_of_lt_of_le hlt (Nat.pow_le_pow_right (by norm_num) hbits)
  have hg : (addSize + t.currLen) % 2 ^ intBits ≤ t.size := by
    rw [Nat.add_comm, Nat.mod_eq_of_lt hlt2]
    exact hfit
  rw [handleAddToTask_found intBits fuel s id addSize chunk p t hfind hp ht, if_pos hg]
  refine ⟨_, { t with
      data := fun i =>
        if t.currLen ≤ i ∧ i < t.currLen + addSize then chunk (i - t.currLen) else t.data i
      currLen := (t.currLen + addSize) % 2 ^ 16 }, rfl, by simp, ?_, rfl, ?_, ?_, ?_⟩
  · exact Nat.mod_eq_of_lt hlt
  · intro k hk
    have h1 : t.currLen ≤ t.currLen + k ∧ t.currLen + k < t.currLen + addSize := by omega
    simp [h1]
  · intro i hi
    have h1 : ¬ (t.currLen ≤ i ∧ i < t.currLen + addSize) := by omega
    simp [h1]
  · intro q hq
    simp [Function.update, hq]

theorem handleAddToTask_rejects (intBits fuel : Nat) (s : State) (id addSize : Nat)
    (chunk : Nat → Nat) (p : Ptr) (t : TASK) (hfind : findTask fuel s id = some p)
    (hp : p ≠ NULL) (ht : s.tasks p = some t)
    (hnowrap : t.currLen + addSize < 2 ^ intBits) (hlong : t.size < t.currLen + addSize) :
    handleAddToTask intBits fuel s id addSize chunk = some s := by
  have hg : ¬ (addSize + t.currLen) % 2 ^ intBits ≤ t.size := by
    rw [Nat.add_comm, Nat.mod_eq_of_lt hnowrap]
    omega
  rw [handleAddToTask_found intBits fuel s id addSize chunk p t hfind hp ht, if_neg hg]

/-- C12: append is all-or-nothing.  For an existing task with length `currLen` and
capacity `size` (a 16-bit field), a chunk of `addSize` bytes and an `int` of at least 16
bits: if `currLen + addSize <= size`, the append returns with length `currLen + addSize`,
the chunk at `data[currLen ..]`, the bytes below `currLen`, the other fields of the task
and every other task block unchanged; if `currLen + addSize > size` and the sum is a
value of the target's `unsigned int` (with a 32-bit `int` every sum is; with a 16-bit
`int` every sum of a length up to 65280 is, and a longer buffer does not fit the 64 KB
data space), it returns the state unchanged. -/
theorem handleAddToTask_all_or_nothing (intBits fuel : Nat) (s : State) (id addSize : Nat)
    (chunk : Nat → Nat) (p : Ptr) (t : TASK) (hfind : findTask fuel s id = some p)
    (hp : p ≠ NULL) (ht : s.tasks p = some t) (hbits : 16 ≤ intBits)
    (hsize : t.size < 2 ^ 16) :
    (t.currLen + addSize ≤ t.size →
      ∃ s1 t1, handleAddToTask intBits fuel s id addSize chunk = some s1 ∧
        s1.tasks p = some t1 ∧ t1.currLen = t.currLen + addSize ∧ t1.size = t.size ∧
        (∀ k, k < addSize → t1.data (t.currLen + k) = chunk k) ∧
        (∀ i, i < t.currLen → t1.data i = t.data i) ∧
        t1.ready = t.ready ∧ t1.millis = t.millis ∧ t1.id = t.id ∧
        (∀ q, q ≠ p → s1.tasks q = s.tasks q)) ∧
    (t.size < t.currLen + addSize → t.currLen + addSize < 2 ^ intBits →
      handleAddToTask intBits fuel s id addSize chunk = some s) := by
  refine ⟨fun hfit => ?_, fun hlong hrep =>
    handleAddToTask_rejects intBits fuel s id addSize chunk p t hfind hp ht hrep hlong⟩
  have hlt : t.currLen + addSize < 2 ^ 16 := lt_of_le_of_lt hfit hsize
  have hrep : t.currLen + addSize < 2 ^ intBits :=
    lt_of_lt_of_le hlt (Nat.pow_le_pow_right (by norm_num) hbits)
  have hg : (addSize + t.currLen) % 2 ^ intBits ≤ t.size := by
    rw [Nat.add_comm, Nat.mod_eq_of_lt hrep]
    exact hfit
  rw [handleAddToTask_found intBits fuel s id addSize chunk p t hfind hp ht, if_pos hg]
  refine ⟨_, { t with
      data := fun i =>
        if t.currLen ≤ i ∧ i < t.currLen + addSize then chunk (i - t.currLen) else t.data i
      currLen := (t.currLen + addSize) % 2 ^ 16 }, rfl, by simp, ?_, rfl, ?_, ?_, rfl, rfl, rfl,
    ?_⟩
  · exact Nat.mod_eq_of_lt hlt
  · intro k hk
    have h1 : t.currLen ≤ t.currLen + k ∧ t.currLen + k < t.currLen + addSize := by omega
    simp [h1]
  · intro i hi
    have h1 : ¬ (t.currLen ≤ i ∧ i < t.currLen + addSize) := by omega
    simp [h1]
  · intro q hq
    simp [Function.update, hq]

/-- Witness of C12: task 1 has capacity 10 and holds the bytes 10, 11, 12; a chunk of 7
bytes fills it and a chunk of 8 bytes is refused, with the 16-bit `int` of the AVR
boards. -/
theorem handleAddToTask_all_or_nothing_witness :
    findTask 8 appendedTask 1 = some 1 ∧
    (appendedTask.tasks 1).map (fun t => (t.size, t.currLen)) = some (10, 3) ∧
    (handleAddToTask 16 8 appendedTask 1 7 (fun i => 20 + i)).map
      (fun s1 => (s1.tasks 1).map fun t => (t.currLen, (List.range 10).map t.data))
      = some (some (10, [10, 11, 12, 20, 21, 22, 23, 24, 25, 26])) ∧
    (handleAddToTask 16 8 appendedTask 1 8 (fun i => 20 + i)).map
      (fun s1 => (s1.tasks 1).map fun t => (t.currLen, (List.range 10).map t.data))
      = some (some (3, [10, 11, 12, 0, 0, 0, 0, 0, 0, 0])) ∧
    ∃ t, appendedTask.tasks 1 = some t ∧
      ((t.currLen + 7 ≤ t.size →
        ∃ s1 t1, handleAddToTask 16 8 appendedTask 1 7 (fun i => 20 + i) = some s1 ∧
          s1.tasks 1 = some t1 ∧ t1.currLen = t.currLen + 7 ∧ t1.size = t.size ∧
          (∀ k, k < 7 → t1.data (t.currLen + k) = (fun i => 20 + i) k) ∧
          (∀ i, i < t.currLen → t1.data i = t.data i) ∧
          t1.ready = t.ready ∧ t1.millis = t.millis ∧ t1.id = t.id ∧
          (∀ q, q ≠ 1 → s1.tasks q = appendedTask.tasks q)) ∧
      (t.size < t.currLen + 7 → t.currLen + 7 < 2 ^ 16 →
        handleAddToTask 16 8 appendedTask 1 7 (fun i => 20 + i) = some appendedTask)) ∧
      ((t.currLen + 8 ≤ t.size →
        ∃ s1 t1, handleAddToTask 16 8 appendedTask 1 8 (fun i => 20 + i) = some s1 ∧
          s1.tasks 1 = some t1 ∧ t1.currLen = t.currLen + 8 ∧ t1.size = t.size ∧
          (∀ k, k < 8 → t1.data (t.currLen + k) = (fun i => 20 + i) k) ∧
          (∀ i, i < t.currLen → t1.data i = t.data i) ∧
          t1.ready = t.ready ∧ t1.millis = t.millis ∧ t1.id = t.id ∧
          (∀ q, q ≠ 1 → s1.tasks q = appendedTask.tasks q)) ∧
      (t.size < t.currLen + 8 → t.currLen + 8 < 2 ^ 16 →
        handleAddToTask 16 8 appendedTask 1 8 (fun i => 20 + i) = some appendedTask)) :=
  ⟨rfl, by decide, by decide, by decide, (appendedTask.tasks 1).getD taskOne, rfl,
    handleAddToTask_all_or_nothing 16 8 appendedTask 1 7 (fun i => 20 + i) 1
      ((appendedTask.tasks 1).getD taskOne) rfl (by decide) rfl (by decide) (by decide),
    handleAddToTask_all_or_nothing 16 8 appendedTask 1 8 (fun i => 20 + i) 1
      ((appendedTask.tasks 1).getD taskOne) rfl (by decide) rfl (by decide) (by decide)⟩

/-! ### Deleting by id -/

theorem TaskChain.find_none {tasks : Ptr → Option TASK} (id : Nat) :
    ∀ {l : List Ptr} {first : Ptr} (fuel : Nat), TaskChain tasks first l → l.length < fuel →
      (∀ q ∈ l, ∀ t, tasks q = some t → t.id ≠ id) →
      findTaskFrom tasks id fuel first = some NULL
  | [], first, fuel, hc, hf, _ => by
    obtain ⟨k, rfl⟩ : ∃ k, fuel = k + 1 := ⟨fuel - 1, by simp at hf; omega⟩
    have h0 : first = NULL := hc
    simp [findTaskFrom, h0]
  | q :: l, first, fuel, hc, hf, hno => by
    obtain ⟨k, rfl⟩ : ∃ k, fuel = k + 1 := ⟨fuel - 1, by simp at hf; omega⟩
    obtain ⟨hq, hq0, -, t, ht, -, hrest⟩ := hc
    subst hq
    have hne : id ≠ t.id := fun e => hno first (List.mem_cons_self _ _) t ht e.symm
    simp only [findTaskFrom, hq0, if_false, ht, hne]
    exact TaskChain.find_none id k hrest (by simp at hf; omega)
      (fun r hr => hno r (List.mem_cons_of_mem _ hr))

theorem TaskChain.find_total {tasks : Ptr → Option TASK} (id : Nat) :
    ∀ {l : List Ptr} {first : Ptr} (fuel : Nat), TaskChain tasks first l → l.length < fuel →
      ∃ p, findTaskFrom tasks id fuel first = some p ∧
        (p ≠ NULL → p ∈ l ∧ ∃ t, tasks p = some t ∧ t.id = id) ∧
        (p = NULL → ∀ q ∈ l, ∀ t, tasks q = some t → t.id ≠ id)
  | [], first, fuel, hc, hf => by
    obtain ⟨k, rfl⟩ : ∃ k, fuel = k + 1 := ⟨fuel - 1, by simp at hf; omega⟩
    have h0 : first = NULL := hc
    exact ⟨NULL, by simp [findTaskFrom, h0], fun h => absurd rfl h, fun _ q hq => by cases hq⟩
  | q :: l, first, fuel, hc, hf => by
    obtain ⟨k, rfl⟩ : ∃ k, fuel = k + 1 := ⟨fuel - 1, by simp at hf; omega⟩
    obtain ⟨hq, hq0, -, t, ht, -, hrest⟩ := hc
    subst hq
    by_cases hid : id = t.id
    · refine ⟨first, by simp [findTaskFrom, hq0, ht, hid], fun _ => ⟨List.mem_cons_self _ _,
        t, ht, hid.symm⟩, fun h => absurd h hq0⟩
    · obtain ⟨p, hfind, h1, h2⟩ := TaskChain.find_total id k hrest (by simp at hf; omega)
      refine ⟨p, by simp [findTaskFrom, hq0, ht, hid, hfind], ?_, ?_⟩
      · intro hp
        exact ⟨List.mem_cons_of_mem _ (h1 hp).1, (h1 hp).2⟩
      · intro hp r hr tr htr
        rcases List.mem_cons.1 hr with e | e
        · subst e
          rw [ht] at htr
          cases htr
          exact fun e => hid e.symm
        · exact h2 hp r e tr htr

theorem TaskChain.split {tasks : Ptr → Option TASK} :
    ∀ {l : List Ptr} {first : Ptr} (p : Ptr), TaskChain tasks first l → p ∈ l →
      ∃ l2 t, tasks p = some t ∧ t.prev = NULL ∧ TaskChain tasks t.next l2 ∧ p ∉ l2 ∧
        p ≠ NULL ∧ (∀ q ∈ l2, q ∈ l) ∧ l2.length < l.length
  | [], _, p, _, hp => by cases hp
  | q :: l, first, p, hc, hp => by
    obtain ⟨hq, hq0, hnot, t, ht, hprev, hrest⟩ := hc
    by_cases e : p = q
    · subst e
      exact ⟨l, t, ht, hprev, hrest, hnot, hq0, fun r hr => List.mem_cons_of_mem _ hr,
        by simp⟩
    · have hp' : p ∈ l := by
        rcases List.mem_cons.1 hp with h | h
        · exact absurd h e
        · exact h
      obtain ⟨l2, t2, a1, a2, a3, a4, a5, a6, a7⟩ := TaskChain.split p hrest hp'
      exact ⟨l2, t2, a1, a2, a3, a4, a5, fun r hr => List.mem_cons_of_mem _ (a6 r hr),
        by simp; omega⟩

theorem deleteTask_ids (s s1 : State) (p : Ptr) (h : deleteTask s p = some s1) :
    ∀ q tq1, s1.tasks q = some tq1 → ∃ tq, s.tasks q = some tq ∧ tq1.id = tq.id := by
  unfold deleteTask at h
  split at h
  · cases h
  · rename_i task ht
    dsimp only at h
    split at h
    · cases h
    · rename_i sa hsa
      split at h
      · cases h
      · rename_i sb hsb
        simp only [Option.some.injEq] at h
        subst h
        have e1 : ∀ q tq1, sa.tasks q = some tq1 → ∃ tq, s.tasks q = some tq ∧ tq1.id = tq.id := by
          split at hsa
          · split at hsa
            · cases hsa
            · rename_i pt hpt
              cases hsa
              intro q tq1 hq
              by_cases e : q = task.prev
              · subst e
                simp only [Function.update_same, Option.some.injEq] at hq
                subst hq
                exact ⟨pt, hpt, rfl⟩
              · simp only [Function.update, e, dif_neg, not_false_eq_true] at hq
                exact ⟨tq1, hq, rfl⟩
          · cases hsa
            exact fun q tq1 hq => ⟨tq1, hq, rfl⟩
        have e2 : ∀ q tq1, sb.tasks q = some tq1 →
            ∃ tq, sa.tasks q = some tq ∧ tq1.id = tq.id := by
          split at hsb
          · split at hsb
            · cases hsb
            · rename_i nt hnt
              cases hsb
              intro q tq1 hq
              by_cases e : q = task.next
              · subst e
                simp only [Function.update_same, Option.some.injEq] at hq
                subst hq
                exact ⟨nt, hnt, rfl⟩
              · simp only [Function.update, e, dif_neg, not_false_eq_true] at hq
                exact ⟨tq1, hq, rfl⟩
          · cases hsb
            exact fun q tq1 hq => ⟨tq1, hq, rfl⟩
        intro q tq1 hq
        by_cases e : q = p
        · subst e
          simp at hq
        · simp only [Function.update, e, dif_neg, not_false_eq_true] at hq
          obtain ⟨ta, hta, hida⟩ := e2 q tq1 hq
          obtain ⟨tb, htb, hidb⟩ := e1 q ta hta
          exact ⟨tb, htb, hida.trans hidb⟩

theorem deleteTask_listed (s : State) (p : Ptr) (t : TASK) (l2 : List Ptr)
    (ht : s.tasks p = some t) (hprev : t.prev = NULL) (hp : p ≠ NULL) (hnot : p ∉ l2)
    (hchain : TaskChain s.tasks t.next l2) :
    ∃ s1, deleteTask s p = some s1 ∧ TaskChain s1.tasks s1.firstTask l2 ∧
      s1.taskCount = s.taskCount - 1 ∧ s1.tasks p = none := by
  obtain ⟨s0, hs0⟩ : ∃ s0 : State, s0 = { s with firstTask := p } := ⟨_, rfl⟩
  have hsame : deleteTask s p = deleteTask s0 p := by
    rw [hs0]
    simp [deleteTask, ht, hprev]
  have hc0 : TaskChain s0.tasks s0.firstTask (p :: l2) := by
    rw [hs0]
    exact ⟨rfl, hp, hnot, t, ht, hprev, hchain⟩
  obtain ⟨s1, hdel, hch, -, -, hcount, -, -⟩ := deleteTask_head s0 p l2 hc0
  have hcount' : s1.taskCount = s.taskCount - 1 := by
    rw [hcount, hs0]
  have hfree : s1.tasks p = none := by
    have hd : deleteTask s p = some s1 := hsame.trans hdel
    by_contra hne
    obtain ⟨t1, ht1⟩ := Option.ne_none_iff_exists'.1 hne
    unfold deleteTask at hd
    simp only [ht, hprev, ne_eq, not_true_eq_false, if_false] at hd
    split at hd
    · cases hd
    · simp only [Option.some.injEq] at hd
      rw [← hd] at ht1
      simp at ht1
  exact ⟨s1, hsame.trans hdel, hch, hcount', hfree⟩

/-- C13: on a well-formed registry (task list `l`, distinct ids) and with fuel beyond the
length of the list, `findTask` returns; if it finds a task with the id, the delete handler
returns a state in which `findTask` of that id gives `NULL`, the block is freed and
`count()` is one less; if it finds none, the delete handler returns the state unchanged. -/
theorem handleDeleteTask_find_and_count (fuel : Nat) (s : State) (l : List Ptr) (id : Nat)
    (hok : RegistryOk s l) (hfuel : l.length < fuel) :
    ∃ p, findTask fuel s id = some p ∧
      (p ≠ NULL → ∃ s1, handleDeleteTask fuel s id = some s1 ∧
        findTask fuel s1 id = some NULL ∧ getTaskCount s1 = getTaskCount s - 1 ∧
        s1.tasks p = none) ∧
      (p = NULL → handleDeleteTask fuel s id = some s) := by
  obtain ⟨hchain, huniq⟩ := hok
  obtain ⟨p, hfind, h1, -⟩ := TaskChain.find_total id fuel hchain hfuel
  refine ⟨p, hfind, ?_, ?_⟩
  · intro hp
    obtain ⟨hmem, t, ht, hid⟩ := h1 hp
    obtain ⟨l2, t', ht', hprev, hch2, hnot, -, hsub, hlen⟩ := TaskChain.split p hchain hmem
    rw [ht] at ht'
    cases ht'
    obtain ⟨s1, hdel, hch1, hcount, hfree⟩ := deleteTask_listed s p t l2 ht hprev hp hnot hch2
    refine ⟨s1, by simp [handleDeleteTask, findTask, hfind, hp, hdel], ?_, hcount, hfree⟩
    refine TaskChain.find_none id fuel hch1 (by omega) ?_
    intro q hq tq1 htq1 hidq
    obtain ⟨tq, htq, hideq⟩ := deleteTask_ids s s1 p hdel q tq1 htq1
    have hpq : p = q := huniq p hmem q (hsub q hq) t tq ht htq (by rw [hid, ← hideq, hidq])
    exact hnot (hpq ▸ hq)
  · intro hp
    subst hp
    simp [handleDeleteTask, findTask, hfind]

theorem twoTasks_registryOk : RegistryOk twoTasks [2, 1] := by
  refine ⟨⟨rfl, by decide, by decide, _, rfl, rfl, rfl, by decide, by decide, _, rfl, rfl, rfl⟩,
    ?_⟩
  intro p hp q hq tp tq htp htq hid
  simp only [List.mem_cons, List.mem_singleton, List.not_mem_nil, or_false] at hp hq
  rcases hp with rfl | rfl <;> rcases hq with rfl | rfl
  · rfl
  · have e1 : twoTasks.tasks 2 = some ((twoTasks.tasks 2).getD taskTwo) := rfl
    have e2 : twoTasks.tasks 1 = some ((twoTasks.tasks 1).getD taskTwo) := rfl
    rw [e1] at htp
    rw [e2] at htq
    cases htp
    cases htq
    exact absurd hid (by decide)
  · have e1 : twoTasks.tasks 2 = some ((twoTasks.tasks 2).getD taskTwo) := rfl
    have e2 : twoTasks.tasks 1 = some ((twoTasks.tasks 1).getD taskTwo) := rfl
    rw [e2] at htp
    rw [e1] at htq
    cases htp
    cases htq
    exact absurd hid (by decide)
  · rfl

/-- Witness of C13: the registry holding tasks 2 and 1; id 1 is deleted, id 7 is absent. -/
theorem handleDeleteTask_find_and_count_witness :
    RegistryOk twoTasks [2, 1] ∧ findTask 8 twoTasks 1 = some 1 ∧
    findTask 8 twoTasks 7 = some NULL ∧
    (∃ p, findTask 8 twoTasks 1 = some p ∧
      (p ≠ NULL → ∃ s1, handleDeleteTask 8 twoTasks 1 = some s1 ∧
        findTask 8 s1 1 = some NULL ∧ getTaskCount s1 = getTaskCount twoTasks - 1 ∧
        s1.tasks p = none) ∧
      (p = NULL → handleDeleteTask 8 twoTasks 1 = some twoTasks)) ∧
    (∃ p, findTask 8 twoTasks 7 = some p ∧
      (p ≠ NULL → ∃ s1, handleDeleteTask 8 twoTasks 7 = some s1 ∧
        findTask 8 s1 7 = some NULL ∧ getTaskCount s1 = getTaskCount twoTasks - 1 ∧
        s1.tasks p = none) ∧
      (p = NULL → handleDeleteTask 8 twoTasks 7 = some twoTasks)) :=
  ⟨twoTasks_registryOk, rfl, rfl,
    handleDeleteTask_find_and_count 8 twoTasks [2, 1] 1 twoTasks_registryOk (by decide),
    handleDeleteTask_find_and_count 8 twoTasks [2, 1] 7 twoTasks_registryOk (by decide)⟩

/-! ### The run loop and the due test -/

theorem isDue_iff (t t1 d : Nat) :
    isDue (t1 % 2 ^ 32) ((t + d) % 2 ^ 32) = true ↔
      ((t1 : Int) - ((t : Int) + (d : Int))) % 2 ^ 32 < 2 ^ 31 := by
  simp only [isDue, decide_eq_true_eq]
  norm_num
  omega

theorem deleteTask_others (s : State) (p : Ptr) (t : TASK) (l2 : List Ptr)
    (ht : s.tasks p = some t) (hprev : t.prev = NULL)
    (hchain : TaskChain s.tasks t.next l2) :
    ∃ s1, deleteTask s p = some s1 ∧ (∀ q, q ≠ p → s1.tasks q = s.tasks q) ∧
      ∀ c ctx, s1.contexts c = some ctx → s.contexts c = some ctx := by
  have hctx : ∀ c ctx, Function.update s.contexts t.context none c = some ctx →
      s.contexts c = some ctx := by
    intro c ctx h
    by_cases e : c = t.context
    · rw [e, Function.update_same] at h
      cases h
    · rw [Function.update_noteq e] at h
      exact h
  cases l2 with
  | nil =>
    have hn : t.next = NULL := hchain
    refine ⟨{ s with
      firstTask := t.next
      taskCount := s.taskCount - 1
      contexts := Function.update s.contexts t.context none
      tasks := Function.update s.tasks p none }, ?_, ?_, hctx⟩
    · simp [deleteTask, ht, hprev, hn]
    · intro q hq
      exact Function.update_noteq hq _ _
  | cons r l =>
    obtain ⟨hr, hr0, -, nt, hnt, hntprev, -⟩ := hchain
    refine ⟨{ s with
      firstTask := t.next
      taskCount := s.taskCount - 1
      contexts := Function.update s.contexts t.context none
      tasks := Function.update
        (Function.update s.tasks t.next (some { nt with prev := t.prev })) p none }, ?_, ?_,
      hctx⟩
    · have hr1 : t.next ≠ NULL := by rw [hr]; exact hr0
      have hnt1 : s.tasks t.next = some nt := by rw [hr]; exact hnt
      simp [deleteTask, ht, hprev, hr1, hnt1]
    · intro q hq
      show Function.update (Function.update s.tasks t.next (some { nt with prev := t.prev })) p
        none q = s.tasks q
      rw [Function.update_noteq hq]
      by_cases e : q = t.next
      · rw [e, Function.update_same, hr, hnt, hprev, ← hntprev]
      · exact Function.update_noteq e _ _

theorem runLoop_step (interp : Interp) (now fuel : Nat) (s : State) (q : Ptr) (c : TASK)
    (visits : List (Ptr × Bool)) (hq : q ≠ NULL) (ht : s.tasks q = some c) :
    runLoop interp now (fuel + 1) s q visits =
      (stepTask interp now s q).bind fun r =>
        runLoop interp now fuel r.1 c.next (visits ++ [(q, r.2)]) := by
  simp only [runLoop, stepTask, hq, if_false, ht]
  by_cases hdue : taskDue c now = true
  · simp only [hdue, if_true]
    rcases interp { s with runningTask := q } c.currLen c.data c.context with _ | ⟨sA, b⟩
    · rfl
    · cases b
      · cases hd : deleteTask sA q <;> simp [hd]
      · simp
  · have hdue1 : taskDue c now = false := by simpa using hdue
    simp only [hdue1, Bool.false_eq_true, if_false, Option.some_bind]

theorem ContextsApart.tail {s : State} {p q : Ptr} {l : List Ptr}
    (h : ContextsApart s p (q :: l)) : ContextsApart s p l :=
  fun r hr => h r (List.mem_cons_of_mem _ hr)

theorem stepTask_spec (interp : Interp) (now : Nat) (p : Ptr) (hs : Sparing interp p)
    (s : State) (q : Ptr) (c : TASK) (l : List Ptr) (ht : s.tasks q = some c)
    (hprev : c.prev = NULL) (hrest : TaskChain s.tasks c.next l) (hnot : q ∉ l)
    (hapart : ContextsApart s p (q :: l)) :
    ∃ s1, stepTask interp now s q = some (s1, taskDue c now) ∧
      TaskChain s1.tasks c.next l ∧ ContextsApart s1 p l ∧
      (q ≠ p → s1.tasks p = s.tasks p) := by
  by_cases hdue : taskDue c now = true
  · obtain ⟨sA, b, hi, hlinks, hrefs, hspare⟩ :=
      hs { s with runningTask := q } c.currLen c.data c.context
    have hchainA : TaskChain sA.tasks c.next l := by
      refine TaskChain.congr hrest (fun r hr => ?_)
      obtain ⟨tr, htr⟩ := TaskChain.alloc hrest r hr
      obtain ⟨tr1, htr1, hn, hp, -⟩ := hlinks r tr htr
      exact ⟨tr, tr1, htr, htr1, hn, hp⟩
    have hapartA : ContextsApart sA p l := by
      intro r hr hrp tr1 ctx1 htr1 hctx1 hp
      obtain ⟨tr, htr⟩ := TaskChain.alloc hrest r hr
      obtain ⟨tr2, htr2, -, -, hc⟩ := hlinks r tr htr
      rw [htr1] at htr2
      cases htr2
      rw [hc] at hctx1
      obtain ⟨ctx, hctx, hpt⟩ := hrefs _ ctx1 hctx1 hp
      exact hapart r (List.mem_cons_of_mem _ hr) hrp tr ctx htr hctx hpt
    have hkeep : q ≠ p → sA.tasks p = s.tasks p := fun hqp =>
      hspare hqp (fun ctx hctx => hapart q (List.mem_cons_self _ _) hqp c ctx ht hctx)
    cases b with
    | true =>
      refine ⟨{ sA with runningTask := NULL }, ?_, hchainA, hapartA, hkeep⟩
      simp [stepTask, ht, hdue, hi]
    | false =>
      obtain ⟨c1, hc1, hn1, hp1, -⟩ := hlinks q c ht
      obtain ⟨sB, hdel, hoth, hctxs⟩ := deleteTask_others sA q c1 l hc1
        (by rw [hp1]; exact hprev) (by rw [hn1]; exact hchainA)
      refine ⟨{ sB with runningTask := NULL }, ?_, ?_, ?_, ?_⟩
      · simp [stepTask, ht, hdue, hi, hdel]
      · refine TaskChain.same hchainA (fun r hr => ?_)
        exact hoth r (fun e => hnot (e ▸ hr))
      · intro r hr hrp tr1 ctx1 htr1 hctx1
        have hrq : r ≠ q := fun e => hnot (e ▸ hr)
        have h1 : sA.tasks r = some tr1 := (hoth r hrq).symm.trans htr1
        exact hapartA r hr hrp tr1 ctx1 h1 (hctxs _ _ hctx1)
      · intro hqp
        have h1 : sB.tasks p = sA.tasks p := hoth p (fun e => hqp e.symm)
        exact h1.trans (hkeep hqp)
  · have hdue1 : taskDue c now = false := by simpa using hdue
    refine ⟨s, ?_, hrest, hapart.tail, fun _ => rfl⟩
    simp [stepTask, ht, hdue1]

theorem runLoop_eq_passOver (interp : Interp) (now : Nat) (p : Ptr) (hs : Sparing interp p) :
    ∀ (l : List Ptr) (fuel : Nat) (s : State) (first : Ptr) (visits : List (Ptr × Bool)),
      TaskChain s.tasks first l → ContextsApart s p l → l.length < fuel →
      runLoop interp now fuel s first visits = passOver interp now l s visits
  | [], fuel, s, first, visits, hc, _, hf => by
    obtain ⟨k, rfl⟩ : ∃ k, fuel = k + 1 := ⟨fuel - 1, by simp at hf; omega⟩
    have h0 : first = NULL := hc
    simp [runLoop, passOver, h0]
  | q :: l, fuel, s, first, visits, hc, ha, hf => by
    obtain ⟨k, rfl⟩ : ∃ k, fuel = k + 1 := ⟨fuel - 1, by simp at hf; omega⟩
    obtain ⟨hq, hq0, hnot, c, ht, hprev, hrest⟩ := hc
    subst hq
    obtain ⟨s1, hstep, hchain1, ha1, -⟩ :=
      stepTask_spec interp now p hs s first c l ht hprev hrest hnot ha
    rw [runLoop_step interp now k s first c visits hq0 ht, passOver, hstep]
    simp only [Option.some_bind]
    exact runLoop_eq_passOver interp now p hs l k s1 c.next _ hchain1 ha1
      (by simp at hf; omega)

theorem passOver_total (interp : Interp) (now : Nat) (p : Ptr) (hs : Sparing interp p) :
    ∀ (l : List Ptr) (s : State) (first : Ptr) (visits : List (Ptr × Bool)),
      TaskChain s.tasks first l → ContextsApart s p l →
      ∃ s2 vs, passOver interp now l s visits = some (s2, visits ++ vs) ∧
        vs.map Prod.fst = l
  | [], s, first, visits, _, _ => ⟨s, [], by simp [passOver], rfl⟩
  | q :: l, s, first, visits, hc, ha => by
    obtain ⟨hq, -, hnot, c, ht, hprev, hrest⟩ := hc
    subst hq
    obtain ⟨s1, hstep, hchain1, ha1, -⟩ :=
      stepTask_spec interp now p hs s first c l ht hprev hrest hnot ha
    obtain ⟨s2, vs, hrun, hvs⟩ := passOver_total interp now p hs l s1 c.next
      (visits ++ [(first, taskDue c now)]) hchain1 ha1
    refine ⟨s2, (first, taskDue c now) :: vs, ?_, by simp [hvs]⟩
    rw [passOver, hstep]
    simp only [Option.some_bind]
    rw [hrun, List.append_assoc]
    rfl

theorem passOver_reach (interp : Interp) (now : Nat) (p : Ptr) (hs : Sparing interp p)
    (tB : TASK) :
    ∀ (l : List Ptr) (s : State) (first : Ptr) (visits : List (Ptr × Bool)),
      TaskChain s.tasks first l → ContextsApart s p l → p ∈ l → s.tasks p = some tB →
      ∃ pre post sB vpre, l = pre ++ p :: post ∧ p ∉ pre ∧
        passOver interp now pre s visits = some (sB, visits ++ vpre) ∧
        vpre.map Prod.fst = pre ∧ sB.tasks p = some tB ∧
        TaskChain sB.tasks p (p :: post) ∧ ContextsApart sB p (p :: post) ∧
        passOver interp now l s visits = passOver interp now (p :: post) sB (visits ++ vpre)
  | [], _, _, _, _, _, hmem, _ => by simp at hmem
  | q :: l, s, first, visits, hc, ha, hmem, htB => by
    by_cases hqp : q = p
    · subst hqp
      have hc1 : TaskChain s.tasks q (q :: l) := by
        obtain ⟨hq, h⟩ := hc
        exact ⟨rfl, h⟩
      exact ⟨[], l, s, [], rfl, by simp, by simp [passOver], rfl, htB, hc1, ha, by simp⟩
    · obtain ⟨hq, -, hnot, c, ht, hprev, hrest⟩ := hc
      subst hq
      have hmem1 : p ∈ l := by
        rcases List.mem_cons.1 hmem with e | h
        · exact absurd e.symm hqp
        · exact h
      obtain ⟨s1, hstep, hchain1, ha1, hkeep⟩ :=
        stepTask_spec interp now p hs s first c l ht hprev hrest hnot ha
      have htB1 : s1.tasks p = some tB := (hkeep hqp).trans htB
      obtain ⟨pre, post, sB, vpre, hl, hpre, hrun, hv, hB, hcB, haB, heq⟩ :=
        passOver_reach interp now p hs tB l s1 c.next
          (visits ++ [(first, taskDue c now)]) hchain1 ha1 hmem1 htB1
      refine ⟨first :: pre, post, sB, (first, taskDue c now) :: vpre, by simp [hl], ?_, ?_,
        by simp [hv], hB, hcB, haB, ?_⟩
      · simp only [List.mem_cons, not_or]
        exact ⟨fun e => hqp e.symm, hpre⟩
      · rw [passOver, hstep]
        simp only [Option.some_bind]
        rw [hrun, List.append_assoc]
        rfl
      · rw [passOver, hstep]
        simp only [Option.some_bind]
        rw [heq, List.append_assoc]
        rfl

theorem mem_visits_iff (pre post : List Ptr) (vpre vs : List (Ptr × Bool)) (p : Ptr)
    (due b : Bool) (hpre : p ∉ pre) (hpost : p ∉ post) (hv : vpre.map Prod.fst = pre)
    (hvs : vs.map Prod.fst = post) :
    (p, b) ∈ (vpre ++ [(p, due)]) ++ vs ↔ b = due := by
  have h1 : (p, b) ∉ vpre := fun h => hpre (hv ▸ List.mem_map_of_mem Prod.fst h)
  have h2 : (p, b) ∉ vs := fun h => hpost (hvs ▸ List.mem_map_of_mem Prod.fst h)
  simp [h1, h2]

/-- C14: `schedule(id, d)` executed at clock `t` on a well-formed task list, followed by a
pass of the run loop at clock `t1`, for every interpreter that returns, keeps the links of
the list and leaves the scheduled task alone until its turn (`Sparing`); no other listed
task has a context referring to the scheduled task.  Both calls return.  The
pass reaches the task in a state `sB` (the state after the blocks `pre` in front of it)
in which it is ready with wake time `(t + d) mod 2^32`.  If
`(t1 - (t + d)) mod 2^32 < 2^31` the pass calls the interpreter on the stream of the task
(its length, data and context, with the task as running task), deletes the task unless
the run suspends, and goes on with the blocks `post` behind it; otherwise the pass goes on
with `post` from `sB` without a call for the task.  The clock values and the delay are
reduced modulo `2^32` by the code, so wrapped values of `t + d` and of `t1` are covered. -/
theorem schedule_then_pass_runs_iff_due (fuel : Nat) (interp : Interp) (s : State)
    (l : List Ptr) (id d t t1 : Nat) (p : Ptr)
    (hchain : TaskChain s.tasks s.firstTask l) (hfuel : l.length < fuel)
    (hfind : findTask fuel s id = some p) (hp : p ≠ NULL) (hapart : ContextsApart s p l)
    (hinterp : Sparing interp p) :
    ∃ s1 tk pre post sB vB,
      scheduleById fuel s id d t = some s1 ∧ s.tasks p = some tk ∧
      l = pre ++ p :: post ∧ p ∉ pre ∧ p ∉ post ∧
      passOver interp (t1 % 2 ^ 32) pre s1 [] = some (sB, vB) ∧
      sB.tasks p = some { tk with millis := (t + d) % 2 ^ 32, ready := true } ∧
      (((t1 : Int) - ((t : Int) + (d : Int))) % 2 ^ 32 < 2 ^ 31 →
        schedulerRunTasks fuel interp t1 s1 =
          (interp { sB with runningTask := p } tk.currLen tk.data tk.context).bind fun r =>
            (if r.2 then some r.1 else deleteTask r.1 p).bind fun s2 =>
              passOver interp (t1 % 2 ^ 32) post { s2 with runningTask := NULL }
                (vB ++ [(p, true)])) ∧
      (¬ ((t1 : Int) - ((t : Int) + (d : Int))) % 2 ^ 32 < 2 ^ 31 →
        schedulerRunTasks fuel interp t1 s1 =
          passOver interp (t1 % 2 ^ 32) post sB (vB ++ [(p, false)])) ∧
      ∃ s2 visits, schedulerRunTasks fuel interp t1 s1 = some (s2, visits) ∧
        visits.map Prod.fst = l ∧
        ((p, true) ∈ visits ↔ ((t1 : Int) - ((t : Int) + (d : Int))) % 2 ^ 32 < 2 ^ 31) ∧
        ((p, false) ∈ visits ↔
          ¬ ((t1 : Int) - ((t : Int) + (d : Int))) % 2 ^ 32 < 2 ^ 31) := by
  have hmem : p ∈ l := TaskChain.find_mem id fuel p hchain hfind hp
  obtain ⟨tk, htk⟩ := TaskChain.alloc hchain p hmem
  obtain ⟨tk1, htk1⟩ : ∃ tk1 : TASK,
    tk1 = { tk with millis := (t + d) % 2 ^ 32, ready := true } := ⟨_, rfl⟩
  obtain ⟨s1, hs1⟩ : ∃ s1 : State,
    s1 = { s with tasks := Function.update s.tasks p (some tk1) } := ⟨_, rfl⟩
  have hsched : scheduleById fuel s id d t = some s1 := by
    rw [scheduleById_found fuel s id d t p tk hfind hp htk, hs1, htk1]
  have hchain1 : TaskChain s1.tasks s1.firstTask l := by
    rw [hs1]
    exact TaskChain.update hchain htk (by rw [htk1]) (by rw [htk1])
  have hfirst : s1.firstTask ≠ NULL := by
    cases l with
    | nil => simp at hmem
    | cons q l =>
      obtain ⟨hq, hq0, -⟩ := hchain1
      rw [hq]
      exact hq0
  have e : s1.tasks p = some tk1 := by rw [hs1]; exact Function.update_same _ _ _
  have hapart1 : ContextsApart s1 p l := by
    intro q hq hqp tq ctx htq hctx
    have h1 : s1.tasks q = s.tasks q := by rw [hs1]; exact Function.update_noteq hqp _ _
    have h2 : s1.contexts = s.contexts := by rw [hs1]
    rw [h1] at htq
    rw [h2] at hctx
    exact hapart q hq hqp tq ctx htq hctx
  obtain ⟨now, hnow⟩ : ∃ now : Nat, now = t1 % 2 ^ 32 := ⟨_, rfl⟩
  have hpass : schedulerRunTasks fuel interp t1 s1 = passOver interp now l s1 [] := by
    simp only [schedulerRunTasks, hfirst, ne_eq, not_false_eq_true, if_true, ← hnow]
    exact runLoop_eq_passOver interp now p hinterp l fuel s1 s1.firstTask [] hchain1 hapart1
      hfuel
  obtain ⟨pre, post, sB, vpre, hl, hpre, hrun, hv, hB, hcB, haB, heq⟩ :=
    passOver_reach interp now p hinterp tk1 l s1 s1.firstTask [] hchain1 hapart1 hmem e
  rw [List.nil_append] at hrun heq
  obtain ⟨-, -, hpost, tB, htB, hprevB, hrestB⟩ := hcB
  rw [hB] at htB
  cases htB
  have hdue : taskDue tk1 now = true ↔
      ((t1 : Int) - ((t : Int) + (d : Int))) % 2 ^ 32 < 2 ^ 31 := by
    simp only [taskDue, htk1, Bool.true_and, hnow]
    exact isDue_iff t t1 d
  have hlen : tk1.currLen = tk.currLen := by rw [htk1]
  have hdata : tk1.data = tk.data := by rw [htk1]
  have hctx : tk1.context = tk.context := by rw [htk1]
  obtain ⟨sC, hstep, hchainC, haC, -⟩ :=
    stepTask_spec interp now p hinterp sB p tk1 post hB hprevB hrestB hpost haB
  obtain ⟨s2, vs, htot, hvs⟩ := passOver_total interp now p hinterp post sC tk1.next
    (vpre ++ [(p, taskDue tk1 now)]) hchainC haC
  have hall : schedulerRunTasks fuel interp t1 s1 =
      some (s2, (vpre ++ [(p, taskDue tk1 now)]) ++ vs) := by
    rw [hpass, heq, passOver, hstep]
    simp only [Option.some_bind]
    exact htot
  refine ⟨s1, tk, pre, post, sB, vpre, hsched, htk, hl, hpre, hpost, by rw [← hnow]; exact hrun,
    by rw [← htk1]; exact hB, ?_, ?_, s2, _, hall, ?_, ?_, ?_⟩
  · intro hF
    have hd : taskDue tk1 now = true := hdue.2 hF
    rw [hpass, heq, passOver, ← hnow]
    simp only [stepTask, hB, hd, if_true, hlen, hdata, hctx]
    rcases interp { sB with runningTask := p } tk.currLen tk.data tk.context with _ | ⟨sA, b⟩
    · rfl
    · cases b
      · cases hdel : deleteTask sA p <;> simp [hdel]
      · simp
  · intro hF
    have hd : taskDue tk1 now = false := by
      rcases hb : taskDue tk1 now with _ | _
      · rfl
      · exact absurd (hdue.1 hb) hF
    rw [hpass, heq, passOver, ← hnow]
    simp only [stepTask, hB, hd, Bool.false_eq_true, if_false, Option.some_bind]
  · simp [hv, hvs, hl]
  · rw [mem_visits_iff pre post vpre vs p (taskDue tk1 now) true hpre hpost hv hvs, ← hdue]
    exact eq_comm
  · rw [mem_visits_iff pre post vpre vs p (taskDue tk1 now) false hpre hpost hv hvs, ← hdue]
    cases taskDue tk1 now <;> simp

theorem delayingInterp_sparing (p : Ptr) : Sparing delayingInterp p := by
  intro s n d c
  refine ⟨_, true, rfl, ?_, fun c ctx1 h hp => ⟨ctx1, h, hp⟩, ?_⟩
  · intro q tq hq
    by_cases e : q = s.runningTask
    · refine ⟨{ tq with millis := (tq.millis + 1000) % 2 ^ 32 }, ?_, rfl, rfl, rfl⟩
      show (if q = s.runningTask then
        (s.tasks q).map fun t => { t with millis := (t.millis + 1000) % 2 ^ 32 }
        else s.tasks q) = _
      rw [if_pos e, hq]
      rfl
    · refine ⟨tq, ?_, rfl, rfl, rfl⟩
      show (if q = s.runningTask then
        (s.tasks q).map fun t => { t with millis := (t.millis + 1000) % 2 ^ 32 }
        else s.tasks q) = _
      rw [if_neg e, hq]
  · intro hne _
    have hne1 : ¬ p = s.runningTask := fun e => hne e.symm
    simp [hne1]

theorem blockingInterp_sparing (p : Ptr) : Sparing blockingInterp p := by
  intro s n d c
  simp only [blockingInterp, handleTakeSem, show (0 : Nat) < NUM_SEMAPHORES by decide, if_true]
  by_cases hfull : (s.semaphores 0).full = true
  · simp only [hfull, if_true, Option.getD_some]
    exact ⟨_, false, rfl, fun _ tq hq => ⟨tq, hq, rfl, rfl, rfl⟩,
      fun _ ctx1 h hp => ⟨ctx1, h, hp⟩, fun _ _ => rfl⟩
  · simp only [hfull, Bool.false_eq_true, if_false]
    rcases hc : s.contexts c with _ | ctx
    · exact ⟨s, true, rfl, fun _ tq hq => ⟨tq, hq, rfl, rfl, rfl⟩,
          fun _ ctx1 h hp => ⟨ctx1, h, hp⟩, fun _ _ => rfl⟩
    · by_cases htask : ctx.task = NULL
      · simp only [htask, ne_eq, not_true_eq_false, if_false, Option.getD_some]
        exact ⟨s, true, rfl, fun _ tq hq => ⟨tq, hq, rfl, rfl, rfl⟩,
          fun _ ctx1 h hp => ⟨ctx1, h, hp⟩, fun _ _ => rfl⟩
      · simp only [htask, ne_eq, not_false_eq_true, if_true]
        rcases ht : s.tasks ctx.task with _ | t
        · exact ⟨s, true, rfl, fun _ tq hq => ⟨tq, hq, rfl, rfl, rfl⟩,
          fun _ ctx1 h hp => ⟨ctx1, h, hp⟩, fun _ _ => rfl⟩
        · refine ⟨_, true, rfl, ?_, fun _ ctx1 h hp => ⟨ctx1, h, hp⟩, ?_⟩
          · intro q tq hq
            by_cases e : q = ctx.task
            · subst e
              rw [ht] at hq
              cases hq
              exact ⟨{ t with ready := false }, Function.update_same _ _ _, rfl, rfl, rfl⟩
            · exact ⟨tq, (Function.update_noteq e _ _).trans hq, rfl, rfl, rfl⟩
          · intro _ hctx
            exact Function.update_noteq (fun e => hctx ctx rfl e.symm) _ _

theorem twoTasks_contextsApart : ContextsApart twoTasks 1 [2, 1] := by
  intro q hq hq1 tq ctx htq hctx
  simp only [List.mem_cons, List.mem_singleton, List.not_mem_nil, or_false] at hq
  rcases hq with rfl | rfl
  · have e1 : twoTasks.tasks 2 = some ((twoTasks.tasks 2).getD taskTwo) := rfl
    rw [e1] at htq
    cases htq
    have e2 : twoTasks.contexts ((twoTasks.tasks 2).getD taskTwo).context =
        some ((twoTasks.contexts 2).getD ctxTwo) := rfl
    rw [e2] at hctx
    cases hctx
    decide
  · exact absurd rfl hq1

/-- Witness of C14: the list is task 2, task 1; task 1 is scheduled at clock `2^32 - 100`
with delay 200, so that its wake time wraps to 100, and the pass runs at clock 150 with
an interpreter whose streams take semaphore 0.  The pass skips task 2 and runs task 1,
which is not ready afterwards and is recorded as the waiter of semaphore 0; a pass at
clock 99 runs nothing. -/
theorem schedule_then_pass_runs_iff_due_witness :
    TaskChain twoTasks.tasks twoTasks.firstTask [2, 1] ∧ findTask 8 twoTasks 1 = some 1 ∧
    ContextsApart twoTasks 1 [2, 1] ∧ Sparing blockingInterp 1 ∧
    ((scheduleById 8 twoTasks 1 200 (2 ^ 32 - 100)).bind fun s1 =>
        schedulerRunTasks 8 blockingInterp 150 s1).map
      (fun r => (r.2, (r.1.tasks 1).map (fun t => (t.millis, t.ready)),
        (r.1.semaphores 0).waiting))
      = some ([(2, false), (1, true)], some (100, false), 1) ∧
    ((scheduleById 8 twoTasks 1 200 (2 ^ 32 - 100)).bind fun s1 =>
        schedulerRunTasks 8 blockingInterp 99 s1).map
      (fun r => (r.2, (r.1.tasks 1).map (fun t => (t.millis, t.ready)),
        (r.1.semaphores 0).waiting))
      = some ([(2, false), (1, false)], some (100, true), NULL) ∧
    ∃ s1 tk pre post sB vB,
      scheduleById 8 twoTasks 1 200 (2 ^ 32 - 100) = some s1 ∧ twoTasks.tasks 1 = some tk ∧
      [2, 1] = pre ++ 1 :: post ∧ 1 ∉ pre ∧ 1 ∉ post ∧
      passOver blockingInterp (150 % 2 ^ 32) pre s1 [] = some (sB, vB) ∧
      sB.tasks 1 = some { tk with millis := (2 ^ 32 - 100 + 200) % 2 ^ 32, ready := true } ∧
      ((((150 : Nat) : Int) - (((2 ^ 32 - 100 : Nat) : Int) + ((200 : Nat) : Int))) % 2 ^ 32
          < 2 ^ 31 →
        schedulerRunTasks 8 blockingInterp 150 s1 =
          (blockingInterp { sB with runningTask := 1 } tk.currLen tk.data tk.context).bind
            fun r =>
              (if r.2 then some r.1 else deleteTask r.1 1).bind fun s2 =>
                passOver blockingInterp (150 % 2 ^ 32) post { s2 with runningTask := NULL }
                  (vB ++ [(1, true)])) ∧
      (¬ (((150 : Nat) : Int) - (((2 ^ 32 - 100 : Nat) : Int) + ((200 : Nat) : Int))) % 2 ^ 32
          < 2 ^ 31 →
        schedulerRunTasks 8 blockingInterp 150 s1 =
          passOver blockingInterp (150 % 2 ^ 32) post sB (vB ++ [(1, false)])) ∧
      ∃ s2 visits, schedulerRunTasks 8 blockingInterp 150 s1 = some (s2, visits) ∧
        visits.map Prod.fst = [2, 1] ∧
        ((1, true) ∈ visits ↔
          (((150 : Nat) : Int) - (((2 ^ 32 - 100 : Nat) : Int) + ((200 : Nat) : Int))) % 2 ^ 32
            < 2 ^ 31) ∧
        ((1, false) ∈ visits ↔
          ¬ (((150 : Nat) : Int) - (((2 ^ 32 - 100 : Nat) : Int) + ((200 : Nat) : Int)))
            % 2 ^ 32 < 2 ^ 31) :=
  ⟨twoTasks_registryOk.1, rfl, twoTasks_contextsApart, blockingInterp_sparing 1, by decide,
    by decide,
    schedule_then_pass_runs_iff_due 8 blockingInterp twoTasks [2, 1] 1 200 (2 ^ 32 - 100) 150 1
      twoTasks_registryOk.1 (by decide) rfl (by decide) twoTasks_contextsApart
      (blockingInterp_sparing 1)⟩

/-! ### Deletion during a pass of the run loop -/

/-- C15 (the code departs from the claim): the list is task 2, task 1; task 1 is ready and
due, task 2 was never scheduled.  A pass whose interpreter changes nothing and reports
completion visits task 2 without running it, runs task 1 and deletes it; afterwards the
list is empty and `findTask 2` gives `NULL`, although task 2 was not run and its block is
still allocated. -/
theorem pass_completion_unlists_unrun_task :
    findTask 8 readyTail 2 = some 2 ∧ findTask 8 readyTail 1 = some 1 ∧
    (schedulerRunTasks 8 completingInterp 100 readyTail).map
      (fun r => (r.2, findTask 8 r.1 1, findTask 8 r.1 2, r.1.firstTask,
        (r.1.tasks 2).isSome, getTaskCount r.1))
      = some ([(2, false), (1, true)], some NULL, some NULL, NULL, true, 1) := by
  decide

/-- C16 (the code departs from the claim): the list is task 2, task 1 and task 2 is ready
and due.  The loop reads `next` (block 1) before it runs task 2.  When the stream of
task 2 deletes task 1, the interpreter returns with block 1 freed and the loop then
dereferences that block: the model has no value for the pass.  When the stream also
creates task 3, which the allocator places in the freed block, and schedules it, the pass
visits block 1 and runs task 3, a task created during this pass. -/
theorem pass_visits_freed_successor :
    findTask 8 readyHead 1 = some 1 ∧ findTask 8 readyHead 3 = some NULL ∧
    (readyHead.tasks 2).map (fun t => t.next) = some 1 ∧
    (deletingInterp { readyHead with runningTask := 2 } 0 (fun _ => 0) 2).map
      (fun r => ((r.1.tasks 1).isSome, findTask 8 r.1 1, r.2)) = some (false, some NULL, true) ∧
    (schedulerRunTasks 8 deletingInterp 100 readyHead).map (fun r => r.2) = none ∧
    (schedulerRunTasks 8 recreatingInterp 100 readyHead).map
      (fun r => (r.2, (r.1.tasks 1).map (fun t => t.id), findTask 8 r.1 3, findTask 8 r.1 1))
      = some ([(2, true), (1, true)], some 3, some 1, some NULL) := by
  decide

/-! ### The query handlers -/

/-- C22: on a well-formed task list and with fuel beyond its length, `handleQuery` returns
and leaves the state as it was.  When no task has the id the reply has count 0 and no
byte; otherwise it has count 10 and holds `size`, `currLen` and `currPos` of the task as
16-bit little-endian values followed by `(millis - now) mod 2^32` as a 32-bit
little-endian value. -/
theorem handleQuery_reply (fuel : Nat) (s : State) (l : List Ptr) (id now : Nat)
    (hchain : TaskChain s.tasks s.firstTask l) (hfuel : l.length < fuel) :
    ∃ p, findTask fuel s id = some p ∧
      (p = NULL → handleQuery fuel s id now = some (s, { count := 0, payload := [] })) ∧
      (p ≠ NULL → ∃ t, s.tasks p = some t ∧ t.id = id ∧
        handleQuery fuel s id now = some (s, { count := 10, payload :=
          (le16 t.size ++ le16 t.currLen ++ le16 t.currPos ++
            le32 ((((t.millis : Int) - (now : Int)) % 2 ^ 32).toNat)) }) ∧
        (le16 t.size ++ le16 t.currLen ++ le16 t.currPos ++
            le32 ((((t.millis : Int) - (now : Int)) % 2 ^ 32).toNat)).length = 10) := by
  obtain ⟨p, hfind, h1, -⟩ := TaskChain.find_total id fuel hchain hfuel
  have hfind1 : findTask fuel s id = some p := hfind
  refine ⟨p, hfind1, ?_, ?_⟩
  · intro hp
    simp [handleQuery, hfind1, hp]
  · intro hp
    obtain ⟨-, t, ht, hid⟩ := h1 hp
    refine ⟨t, ht, hid, ?_, rfl⟩
    have hrem : (((t.millis : Int) - (now : Int)) % 2 ^ 32).toNat =
        (t.millis % 2 ^ 32 + 2 ^ 32 - now % 2 ^ 32) % 2 ^ 32 := by
      norm_num
      omega
    simp only [handleQuery, hfind1, hp, ne_eq, not_false_eq_true, if_true, ht, hrem, le16, le32,
      List.cons_append, List.nil_append]
    congr 3
    norm_num
    omega

/-- Witness of C22: task 1, capacity 10, scheduled for clock 5000, queried at clock 1000,
and the absent id 2. -/
theorem handleQuery_reply_witness :
    TaskChain scheduledTask.tasks scheduledTask.firstTask [1] ∧
    (handleQuery 8 scheduledTask 1 1000).map (fun r => (r.2.count, r.2.payload))
      = some (10, [10, 0, 0, 0, 0, 0, 160, 15, 0, 0]) ∧
    (handleQuery 8 scheduledTask 2 1000).map (fun r => (r.2.count, r.2.payload))
      = some (0, []) ∧
    ∃ p, findTask 8 scheduledTask 1 = some p ∧
      (p = NULL →
        handleQuery 8 scheduledTask 1 1000 = some (scheduledTask, { count := 0, payload := [] })) ∧
      (p ≠ NULL → ∃ t, scheduledTask.tasks p = some t ∧ t.id = 1 ∧
        handleQuery 8 scheduledTask 1 1000 = some (scheduledTask, { count := 10, payload :=
          (le16 t.size ++ le16 t.currLen ++ le16 t.currPos ++
            le32 ((((t.millis : Int) - ((1000 : Nat) : Int)) % 2 ^ 32).toNat)) }) ∧
        (le16 t.size ++ le16 t.currLen ++ le16 t.currPos ++
            le32 ((((t.millis : Int) - ((1000 : Nat) : Int)) % 2 ^ 32).toNat)).length = 10) :=
  ⟨⟨rfl, by decide, by decide, _, rfl, rfl, rfl⟩, by decide, by decide,
    handleQuery_reply 8 scheduledTask [1] 1 1000
      ⟨rfl, by decide, by decide, _, rfl, rfl, rfl⟩ (by decide)⟩

/-- C21 (the code departs from the claim): the registry holds task 2 and task 1, the
calling context is outside any block and the fresh block holds 0xAA everywhere.  The
reply has count 5 and the bytes `EXPR_LIT`, 0xAA, 2, 2, 1: byte 0 is `EXPR_LIT`, not
`EXPR_LIST8`, and byte 1 is what the block held before, because both header stores go to
`localMem[0]`. -/
theorem handleQueryAll_header_stores :
    (handleQueryAll 8 twoTasks 1 0 77 staleBlock).map
      (fun r => r.reply.map fun x => (x.count, x.payload))
      = some (some (5, [EXPR_LIT, 170, 2, 2, 1])) ∧
    [EXPR_LIT, 170] ≠ [EXPR_LIST8, EXPR_LIT] := by
  decide

theorem idsOf_mod (tasks : Ptr → Option TASK) (l : List Ptr) :
    (idsOf tasks l).map (fun x => x % 256) = idsOf tasks l := by
  simp only [idsOf, List.map_map]
  refine List.map_congr_left (fun p _ => ?_)
  simp only [Function.comp]
  cases tasks p <;> simp

theorem queryAllLoop_spec (tasks : Ptr → Option TASK) (taskCount : Int) :
    ∀ (l : List Ptr) (fuel : Nat) (first : Ptr) (i : Nat) (mem : Nat → Nat),
      TaskChain tasks first l → l.length < fuel → ((i + l.length : Nat) : Int) ≤ taskCount →
      ∃ mem1, queryAllLoop tasks taskCount fuel first i mem = some (i + l.length, mem1) ∧
        (∀ k, k < 3 + i → mem1 k = mem k) ∧
        (List.range l.length).map (fun j => mem1 (3 + i + j)) = idsOf tasks l
  | [], fuel, first, i, mem, hc, hf, _ => by
    obtain ⟨k, rfl⟩ : ∃ k, fuel = k + 1 := ⟨fuel - 1, by simp at hf; omega⟩
    have h0 : first = NULL := hc
    exact ⟨mem, by simp [queryAllLoop, h0], fun _ _ => rfl, rfl⟩
  | q :: l, fuel, first, i, mem, hc, hf, hcount => by
    obtain ⟨k, rfl⟩ : ∃ k, fuel = k + 1 := ⟨fuel - 1, by simp at hf; omega⟩
    obtain ⟨hq, hq0, -, t, ht, -, hrest⟩ := hc
    subst hq
    have hlt : (i : Int) < taskCount := by
      simp only [List.length_cons] at hcount
      omega
    obtain ⟨mem1, hrun, hlow, hids⟩ := queryAllLoop_spec tasks taskCount l k t.next (i + 1)
      (Function.update mem (3 + i) (t.id % 256)) hrest (by simp at hf; omega)
      (by simp only [List.length_cons] at hcount; omega)
    refine ⟨mem1, ?_, ?_, ?_⟩
    · simp only [queryAllLoop, hq0, ne_eq, not_false_eq_true, hlt, and_self, if_true, ht]
      rw [hrun, List.length_cons]
      congr 2
      omega
    · intro j hj
      rw [hlow j (by omega)]
      exact Function.update_noteq (by omega) _ _
    · have hhead : mem1 (3 + i) = t.id % 256 := by
        rw [hlow (3 + i) (by omega)]
        exact Function.update_same _ _ _
      have htail : (List.range l.length).map (fun j => mem1 (3 + i + (j + 1))) =
          idsOf tasks l := by
        rw [← hids]
        refine List.map_congr_left (fun j _ => ?_)
        congr 1
        omega
      simp only [List.length_cons, List.range_succ_eq_map, List.map_cons, List.map_map, idsOf,
        ht, Option.map_some', Option.getD_some, Nat.add_zero, hhead, List.cons.injEq, true_and]
      exact htail

theorem handleQueryAll_payload (fuel : Nat) (s : State) (l : List Ptr) (context : Ptr)
    (c : CONTEXT) (bind : Nat) (localMem : Ptr) (junk : Nat → Nat)
    (hchain : TaskChain s.tasks s.firstTask l) (hfuel : l.length < fuel)
    (hcount : (l.length : Int) ≤ getTaskCount s) (hmem : localMem ≠ NULL)
    (hctx : s.contexts context = some c) (hlevel : c.currBlockLevel < 0) :
    handleQueryAll fuel s context bind localMem junk =
      some (QueryAllResult.sent { count := l.length + 3, payload :=
        ([EXPR_LIT, junk 1 % 256, l.length % 256] ++ idsOf s.tasks l) }) := by
  obtain ⟨mem1, hrun, hlow, hids⟩ := queryAllLoop_spec s.tasks (getTaskCount s) l fuel
    s.firstTask 0 (Function.update (Function.update junk 0 EXPR_LIST8) 0 EXPR_LIT)
    hchain hfuel (by simpa using hcount)
  have hl : ¬ c.currBlockLevel ≥ 0 := by omega
  simp only [handleQueryAll, hmem, if_false, hrun, hctx, hl, Nat.zero_add]
  congr 3
  have h0 : mem1 0 = EXPR_LIT := by rw [hlow 0 (by omega)]; simp
  have h1 : mem1 1 = junk 1 := by rw [hlow 1 (by omega)]; simp [Function.update]
  have hsplit : List.range (l.length + 3) =
      [0, 1, 2] ++ (List.range l.length).map (fun j => 3 + 0 + j) := by
    apply List.ext_getElem
    · simp
    · intro n h1 h2
      simp only [List.getElem_range]
      rcases n with _ | _ | _ | n
      · rfl
      · rfl
      · rfl
      · simp; omega
  rw [bytesAt, hsplit, List.map_append, List.map_map]
  have htail : List.map ((fun k => Function.update mem1 2 (l.length % 256) k % 256) ∘
      fun j => 3 + 0 + j) (List.range l.length) = idsOf s.tasks l := by
    rw [← idsOf_mod, ← hids, List.map_map]
    refine List.map_congr_left (fun j _ => ?_)
    simp only [Function.comp]
    rw [Function.update_noteq (by omega)]
  rw [htail]
  simp [Function.update, h0, h1]

/-! ### The interpreter of a stored block -/

theorem splitRecords_skip : ∀ (l : List Nat) (k offset : Nat),
    splitRecords l k offset = splitRecords (l.drop k) 0 (offset + k)
  | [], k, offset => by simp [splitRecords]
  | _ :: _, 0, offset => rfl
  | _ :: rest, k + 1, offset => by
    rw [splitRecords, splitRecords_skip rest k (offset + 1), List.drop_succ_cons]
    congr 1
    omega

theorem bufferOf_drop (blockSize : Nat) (block : Nat → Nat) (pos : Nat) (h : pos < blockSize) :
    (bufferOf blockSize block).drop pos =
      block pos % 256 :: (bufferOf blockSize block).drop (pos + 1) := by
  have hlen : pos < (bufferOf blockSize block).length := by simpa [bufferOf] using h
  rw [List.drop_eq_getElem_cons hlen]
  simp [bufferOf]

theorem codeBlockLoop_spec (intBits blockSize : Nat) (block : Nat → Nat) :
    ∀ (fuel pos : Nat) (calls : List Dispatch), blockSize - pos < fuel →
      (∀ d ∈ splitRecords ((bufferOf blockSize block).drop pos) 0 pos,
        d.cmd + d.cmdSize < 2 ^ (intBits - 1)) →
      codeBlockLoop intBits (blockSize : Int) block fuel pos calls =
        some (calls ++ splitRecords ((bufferOf blockSize block).drop pos) 0 pos)
  | 0, _, _, hf, _ => by omega
  | fuel + 1, pos, calls, hf, hrange => by
    by_cases hpos : pos < blockSize
    · have hposI : (pos : Int) < (blockSize : Int) := by exact_mod_cast hpos
      have hsplit : splitRecords ((bufferOf blockSize block).drop pos) 0 pos =
          { cmdSize := block pos % 256, cmd := pos + 1 } ::
            splitRecords ((bufferOf blockSize block).drop (pos + (block pos % 256 + 1))) 0
              (pos + (block pos % 256 + 1)) := by
        have e2 : pos + 1 + block pos % 256 = pos + (block pos % 256 + 1) := by omega
        rw [bufferOf_drop blockSize block pos hpos, splitRecords, splitRecords_skip,
          List.drop_drop, e2]
      rw [hsplit] at hrange
      have hhead : pos + (block pos % 256 + 1) < 2 ^ (intBits - 1) := by
        have h := hrange _ (List.mem_cons_self _ _)
        simp only at h
        omega
      have hrec := codeBlockLoop_spec intBits blockSize block fuel
        (pos + (block pos % 256 + 1)) (calls ++ [{ cmdSize := block pos % 256, cmd := pos + 1 }])
        (by omega) (fun d hd => hrange d (List.mem_cons_of_mem _ hd))
      simp only [codeBlockLoop, hposI, if_true, hhead]
      rw [hrec, hsplit, List.append_assoc]
      rfl
    · have hposI : ¬ (pos : Int) < (blockSize : Int) := by exact_mod_cast hpos
      have hnil : (bufferOf blockSize block).drop pos = [] :=
        List.drop_eq_nil_of_le (by simp [bufferOf]; omega)
      simp only [codeBlockLoop, hposI, if_false, hnil, splitRecords, List.append_nil]

theorem splitRecords_start_le : ∀ (l : List Nat) (k offset : Nat),
    ∀ d ∈ splitRecords l k offset, d.cmd ≤ offset + l.length ∧ d.cmdSize ∈ l
  | [], _, _, d, hd => by simp [splitRecords] at hd
  | size :: rest, 0, offset, d, hd => by
    simp only [splitRecords, List.mem_cons] at hd
    rcases hd with rfl | hd
    · simp
    · obtain ⟨h1, h2⟩ := splitRecords_start_le rest size (offset + 1) d hd
      simp only [List.length_cons, List.mem_cons]
      exact ⟨by omega, Or.inr h2⟩
  | _ :: rest, k + 1, offset, d, hd => by
    simp only [splitRecords] at hd
    obtain ⟨h1, h2⟩ := splitRecords_start_le rest k (offset + 1) d hd
    simp only [List.length_cons, List.mem_cons]
    exact ⟨by omega, Or.inr h2⟩

theorem records_end_le (blockSize : Nat) (block : Nat → Nat) :
    ∀ d ∈ splitRecords (bufferOf blockSize block) 0 0, d.cmd + d.cmdSize ≤ blockSize + 255 := by
  intro d hd
  obtain ⟨h1, h2⟩ := splitRecords_start_le _ 0 0 d hd
  have hlen : (bufferOf blockSize block).length = blockSize := by simp [bufferOf]
  have hb : d.cmdSize < 256 := by
    simp only [bufferOf, List.mem_map, List.mem_range] at h2
    obtain ⟨i, -, hi⟩ := h2
    rw [← hi]
    exact Nat.mod_lt _ (by decide)
  omega

set_option maxRecDepth 100000 in
/-- C23 as stated fails where `int` has 16 bits: for a block of 32767 bytes that are all
255, the 128th record starts at offset 32512 and `currPos += cmdSize + 1` would give
32768, more than `INT_MAX`, so the call has no defined result.  With a 32-bit `int` the
same call returns after 128 calls of `parseMessage`. -/
theorem runCodeBlock_position_overflows :
    (runCodeBlock 16 200 32767 allOnes).isNone = true ∧
    (runCodeBlock 32 200 32767 allOnes).map (fun r => (r.1.length, r.1.getLast?, r.2))
      = some (128, some { cmdSize := 255, cmd := 32513 }, false) ∧
    ¬ ((32513 : Nat) + 255 < 2 ^ (16 - 1)) := by
  decide

/-- C23 amended: for every buffer of `blockSize` bytes in which every record ends at an
offset that an `int` can hold, `runCodeBlock` returns (given fuel beyond `blockSize`), the
calls of `parseMessage` it makes are exactly the records of the buffer, in order, each
with its size and the offset of its command bytes, and `codeBlock` is false when it
returns; and for a well-formed buffer every command byte handed over lies below
`blockSize`. -/
theorem runCodeBlock_dispatches_records (intBits fuel blockSize : Nat) (block : Nat → Nat)
    (hfuel : blockSize < fuel)
    (hrange : ∀ d ∈ splitRecords (bufferOf blockSize block) 0 0,
      d.cmd + d.cmdSize < 2 ^ (intBits - 1)) :
    runCodeBlock intBits fuel (blockSize : Int) block =
      some (splitRecords (bufferOf blockSize block) 0 0, false) ∧
    (WellFormed blockSize block → ∀ calls flag,
      runCodeBlock intBits fuel (blockSize : Int) block = some (calls, flag) →
      ∀ d ∈ calls, ∀ j, d.cmd ≤ j → j < d.cmd + d.cmdSize → j < blockSize) := by
  have hrun : runCodeBlock intBits fuel (blockSize : Int) block =
      some (splitRecords (bufferOf blockSize block) 0 0, false) := by
    have h := codeBlockLoop_spec intBits blockSize block fuel 0 [] (by omega)
      (by simpa using hrange)
    simp only [runCodeBlock, h, List.drop_zero, List.nil_append]
  refine ⟨hrun, ?_⟩
  intro hwf calls flag hc d hd j _ hj
  rw [hrun] at hc
  simp only [Option.some.injEq, Prod.mk.injEq] at hc
  rw [← hc.1] at hd
  have := hwf d hd
  omega

/-- Witness of C23: a block of 6 bytes holding records of sizes 2, 0 and 1. -/
theorem runCodeBlock_dispatches_records_witness :
    splitRecords (bufferOf 6 threeRecords) 0 0 =
      [{ cmdSize := 2, cmd := 1 }, { cmdSize := 0, cmd := 4 }, { cmdSize := 1, cmd := 5 }] ∧
    WellFormed 6 threeRecords ∧
    (runCodeBlock 16 7 ((6 : Nat) : Int) threeRecords =
      some (splitRecords (bufferOf 6 threeRecords) 0 0, false) ∧
    (WellFormed 6 threeRecords → ∀ calls flag,
      runCodeBlock 16 7 ((6 : Nat) : Int) threeRecords = some (calls, flag) →
      ∀ d ∈ calls, ∀ j, d.cmd ≤ j → j < d.cmd + d.cmdSize → j < 6)) :=
  ⟨by decide, by unfold WellFormed; decide,
    runCodeBlock_dispatches_records 16 7 6 threeRecords (by decide) (by decide)⟩

/-! ### Deleting one of several tasks -/

/-- C24 (the code departs from the claim): tasks 1 and 2 were created in this order, so
the list is task 2, task 1.  After `delete 1`, `findTask 2` gives `NULL` although the
block of task 2 is still allocated: `deleteTask` finds `prev == NULL` in task 1 and sets
`firstTask` to its successor.  In the other order, `delete 2` leaves task 1 findable. -/
theorem handleDeleteTask_unlists_newer_task :
    findTask 8 twoTasks 1 = some 1 ∧ findTask 8 twoTasks 2 = some 2 ∧
    (handleDeleteTask 8 twoTasks 1).map
      (fun s => (findTask 8 s 1, findTask 8 s 2, (s.tasks 2).isSome, s.firstTask))
      = some (some NULL, some NULL, true, NULL) ∧
    (handleDeleteTask 8 twoTasks 2).map (fun s => (findTask 8 s 2, findTask 8 s 1))
      = some (some NULL, some 1) := by
  decide

/-! ### The I2C write handler -/

theorem handleWrite_clamp (size : Int) (msg : Nat → Nat) (hsize : 3 ≤ size) :
    2 + 2 * ((handleWrite size msg).wordCount : Int) ≤ size := by
  have hdiv : Int.tdiv (size - 2) 2 = (size - 2) / 2 :=
    Int.tdiv_eq_ediv (by omega) (by omega)
  simp only [handleWrite, hdiv]
  split_ifs with h <;> omega

/-- C25 (the code departs from the claim): for a message of 4 bytes with word count 1 the
clamp `(size - 2) / 2` is 1, so one word is read, from `msg[3]` and `msg[4]`; `msg[4]`
lies past the 4 bytes of the message, and `3 + 2 * 1 <= 4` is false. -/
theorem handleWrite_reads_past_message :
    handleWrite 4 shortWrite =
      { slaveAddress := 0x10, wordCount := 1, reads := [3, 4], words := [0xAB + 256 * 0xEE] } ∧
    ¬ (3 + 2 * (handleWrite 4 shortWrite).wordCount ≤ 4) := by
  decide

/-! ### The board-status clock replies -/

/-- C26 (the code departs from the claim): for every clock value, `handleRequestMicros`
passes the count 8 to `sendReply`, two more than the 6 bytes of `microReply`, so the
reply holds the 6 bytes of the array followed by the two bytes that lie behind it on the
stack.  `handleRequestMillis` passes 6 and sends `EXPR_WORD32`, `EXPR_LIT` and the four
bytes of the clock, low byte first. -/
theorem handleRequestMicros_count_exceeds_buffer (clock : Nat) (stack : Nat → Nat) :
    handleRequestMicros clock stack =
      { count := 8, payload := [EXPR_WORD32, EXPR_LIT] ++ le32 (clock % 2 ^ 32) ++
          [stack 0 % 256, stack 1 % 256] } ∧
    ¬ ((handleRequestMicros clock stack).count ≤ 6) ∧
    handleRequestMillis clock stack =
      { count := 6, payload := [EXPR_WORD32, EXPR_LIT] ++ le32 (clock % 2 ^ 32) } := by
  refine ⟨?_, ?_, ?_⟩
  · simp [handleRequestMicros, replyBytes, le32, List.range_succ]
  · simp [handleRequestMicros]
  · simp [handleRequestMillis, replyBytes, le32, List.range_succ]

end Haskino
